import Mathlib

/-!
# Swift storage example server: a shallow embedding of `server.go`

Conventions of the embedding.

* A Go `string` is a byte sequence.  It is embedded as a Lean `String` in which the
  character with code point `b` stands for the byte `b`, so `len(s)` is `s.length`
  and ASCII literals read the same on both sides.
* A Go map is an `AList`: a finite map with distinct keys, whose entry order is one of
  the orders in which `range` may visit the map.  A map variable that may hold the nil
  map is a `GoMap`.
* The filesystem is an explicit state `FS`, a map from cleaned paths to nodes; every
  handler takes the state and returns the new state next to the response.  A system call
  looks at the path it is given and at the parent of that path.  The model is fault
  free: a system call fails only for a structural reason (`ENOENT`, `ENOTDIR`, `EISDIR`,
  `EEXIST`), never for lack of space or permission.
* `time.Now()` is an explicit argument, in Unix seconds.
* Handlers are functions from a response writer and a request to the response writer
  they leave; logging is not part of the model.  A handler that panics leaves the writer
  marked `panicked`.
* Algorithms of libraries that the handlers call but do not define (`encoding/json`, the
  codecs and the HMAC of the jwt package, bcrypt, MD5) are fields of the record `Lib`, so
  every theorem holds for each implementation of them.  The control flow of
  `jwt.ParseWithClaims` is spelled out in `parseWithClaims`.
-/

namespace Swift

/-! ## Strings and paths (`strings`, `path`, `path/filepath` on Unix) -/

/-- Go `strings.Split(s, sep)` for a one-byte separator, on character lists. -/
def splitOn (sep : Char) : List Char → List (List Char)
  | [] => [[]]
  | c :: cs =>
    if c = sep then [] :: splitOn sep cs
    else
      match splitOn sep cs with
      | [] => [[c]]
      | seg :: segs => (c :: seg) :: segs

/-- Go `strings.Split(s, "/")`. -/
def stringsSplit (s : String) (sep : Char) : List String :=
  (splitOn sep s.toList).map String.mk

/-- Go `strings.Join(elems, "/")`, on character lists. -/
def joinSlash : List (List Char) → List Char
  | [] => []
  | [s] => s
  | s :: rest => s ++ '/' :: joinSlash rest

/-- Go `strings.ReplaceAll(s, old, new)` for one-byte `old` and `new`. -/
def replaceAll (s : String) (old new : Char) : String :=
  String.mk (s.toList.map fun c => if c = old then new else c)

/-- Go `strings.HasPrefix`. -/
def hasPrefix (s pre : String) : Bool :=
  pre.toList.isPrefixOf s.toList

/-- Go `strings.TrimPrefix`. -/
def trimPrefix (s pre : String) : String :=
  if hasPrefix s pre then String.mk (s.toList.drop pre.length) else s

/-- One step of `Clean`: the effect of the path element `seg` on the output buffer, kept
as a stack of elements with the last one first.  Empty and `.` elements are skipped; `..`
removes the last element when there is one to remove, is kept at the front of a relative
path, and is dropped at the root. -/
def cleanStep (rooted : Bool) (stack : List (List Char)) (seg : List Char) :
    List (List Char) :=
  if seg = [] ∨ seg = ['.'] then stack
  else if seg = ['.', '.'] then
    match stack with
    | [] => if rooted then [] else [seg]
    | top :: rest =>
      if top = ['.', '.'] then (if rooted then stack else seg :: stack) else rest
  else seg :: stack

/-- The output buffer of `Clean` after the elements `segs`. -/
def cleanStack (rooted : Bool) (segs : List (List Char)) : List (List Char) :=
  segs.foldl (cleanStep rooted) []

/-- The string of an output buffer: the leading `/` of a rooted path, the elements
joined by `/`, and `.` for the empty result. -/
def renderPath (rooted : Bool) (stack : List (List Char)) : List Char :=
  let body := joinSlash stack.reverse
  if rooted then '/' :: body else if body = [] then ['.'] else body

/-- Go `filepath.Clean` (and `path.Clean`), on character lists. -/
def cleanChars (p : List Char) : List Char :=
  if p = [] then ['.']
  else
    let rooted := p.head? = some '/'
    renderPath rooted (cleanStack rooted (splitOn '/' p))

/-- Go `filepath.Clean`. -/
def filepathClean (p : String) : String :=
  String.mk (cleanChars p.toList)

/-- Go `filepath.Join`: leading empty elements are skipped, the rest is joined with `/`
and cleaned; the result is empty when every element is. -/
def filepathJoin : List String → String
  | [] => ""
  | e :: rest =>
    if e = "" then filepathJoin rest
    else String.mk (cleanChars (joinSlash ((e :: rest).map String.toList)))

/-- Go `path.Split`, first component: everything up to and including the last `/`. -/
def dirPart (p : List Char) : List Char :=
  (p.reverse.dropWhile fun c => c ≠ '/').reverse

/-- Go `path.Dir`. -/
def pathDir (p : String) : String :=
  String.mk (cleanChars (dirPart p.toList))

/-! ## Maps (`map[string]string`, `http.Header`) -/

/-- A Go `map[string]string`: a finite map with distinct keys.  The order of the entries
is one of the orders in which `range` may visit the map. -/
abbrev Meta := AList fun _ : String => String

/-- A Go `http.Header`, `map[string][]string`, of a request. -/
abbrev Header := AList fun _ : String => List String

/-- Go `h[key]` on a request header: the values under the key, `nil` when absent. -/
def Header.values (h : Header) (key : String) : List String :=
  (h.lookup key).getD []

/-! ## The filesystem -/

/-- The reasons a system call fails in the fault-free model. -/
inductive Errno
  | ENOENT
  | ENOTDIR
  | EISDIR
  | EEXIST
  deriving DecidableEq, Repr

/-- What a path names: a directory, or a regular file with its bytes. -/
inductive Node
  | dir
  | file (content : String)
  deriving DecidableEq, Repr

/-- The filesystem state: which node, if any, each cleaned path names. -/
abbrev FS := String → Option Node

/-- The state with the node at `p` replaced. -/
def FS.set (fs : FS) (p : String) (n : Node) : FS :=
  fun q => if q = p then some n else fs q

/-- The error of looking up a path that names nothing: `ENOTDIR` when its parent is a
regular file, `ENOENT` otherwise. -/
def FS.missing (fs : FS) (p : String) : Errno :=
  match fs (pathDir p) with
  | some (Node.file _) => Errno.ENOTDIR
  | _ => Errno.ENOENT

/-- Go `os.Stat`. -/
def osStat (fs : FS) (p : String) : Except Errno Node :=
  match fs p with
  | some n => .ok n
  | none => .error (fs.missing p)

/-- Go `os.Mkdir`: the path must name nothing and its parent must be a directory. -/
def osMkdir (fs : FS) (p : String) : Except Errno FS :=
  match fs p with
  | some _ => .error Errno.EEXIST
  | none =>
    match fs (pathDir p) with
    | some Node.dir => .ok (fs.set p Node.dir)
    | some (Node.file _) => .error Errno.ENOTDIR
    | none => .error Errno.ENOENT

/-- Go `os.Create`: truncates a regular file, or creates an empty one in an existing
directory. -/
def osCreate (fs : FS) (p : String) : Except Errno FS :=
  match fs p with
  | some Node.dir => .error Errno.EISDIR
  | some (Node.file _) => .ok (fs.set p (Node.file ""))
  | none =>
    match fs (pathDir p) with
    | some Node.dir => .ok (fs.set p (Node.file ""))
    | some (Node.file _) => .error Errno.ENOTDIR
    | none => .error Errno.ENOENT

/-- Writing `data` through the handle `os.Create` returned for `p` (`f.Write`, or
`io.Copy` into the file): the file, empty since its creation, then holds `data`. -/
def writeFile (fs : FS) (p : String) (data : String) : FS :=
  fs.set p (Node.file data)

/-- Go `os.Open`, for reading; opening a directory succeeds. -/
def osOpen (fs : FS) (p : String) : Except Errno Node :=
  match fs p with
  | some n => .ok n
  | none => .error (fs.missing p)

/-- Go `io.ReadAll` on an open handle: reading a directory fails with `EISDIR`. -/
def readAll : Node → Except Errno String
  | Node.dir => .error Errno.EISDIR
  | Node.file content => .ok content

/-- Go `os.ReadFile`. -/
def osReadFile (fs : FS) (p : String) : Except Errno String :=
  match osOpen fs p with
  | .error e => .error e
  | .ok n => readAll n

/-- The Go errors the handlers tell apart. -/
inductive GoError
  | pathError (errno : Errno)
  | jsonError
  | other (msg : String)
  deriving DecidableEq, Repr

/-- Go `os.IsNotExist(err)` and `errors.Is(err, os.ErrNotExist)`. -/
def GoError.isNotExist : GoError → Bool
  | GoError.pathError Errno.ENOENT => true
  | _ => false

/-- The type switch `case *os.PathError`. -/
def GoError.isPathError : GoError → Bool
  | GoError.pathError _ => true
  | _ => false

/-! ## Libraries -/

/-- The registered claims `jwt.StandardClaims.Valid` looks at; `0` is an unset claim. -/
structure StandardClaims where
  ExpiresAt : Int
  IssuedAt : Int
  NotBefore : Int
  deriving DecidableEq, Repr

/-- A Go value of type `map[string]string`: the nil map, which reads as a map without
entries and panics when an entry of it is assigned, or a map. -/
inductive GoMap
  | nil
  | map (m : Meta)
  deriving DecidableEq

instance : Coe Meta GoMap := ⟨GoMap.map⟩

/-- The entries that `range` visits: none for the nil map. -/
def GoMap.entries : GoMap → List (Σ _ : String, String)
  | GoMap.nil => []
  | GoMap.map m => m.entries

/-- Go `m[k]` read with the `ok` flag: the nil map holds no key. -/
def GoMap.lookup (g : GoMap) (k : String) : Option String :=
  match g with
  | GoMap.nil => none
  | GoMap.map m => m.lookup k

/-- How a call of a Go function ends: it returns, or it panics. -/
inductive Outcome (α : Type)
  | returned (value : α)
  | panic
  deriving DecidableEq

/-- The library algorithms the server calls.  Byte strings are `String`s. -/
structure Lib where
  /-- `json.MarshalIndent(m, "", "")` of a `map[string]string` that is not nil; it cannot
  fail. -/
  jsonMarshalIndent : Meta → String
  /-- `json.Unmarshal` into a variable that holds a `map[string]string` without entries:
  `none` is a decoding error, and the nil map is what the document `null` leaves in the
  variable. -/
  jsonUnmarshal : String → Option GoMap
  /-- The first segment of a compact token: the encoded header with the given `alg`. -/
  encodeHeader : String → String
  /-- Decoding the first segment and reading its `alg`; `none` when the segment is
  malformed or names no algorithm. -/
  decodeHeader : String → Option String
  /-- The second segment of a compact token. -/
  encodeClaims : StandardClaims → String
  /-- Decoding the second segment; `none` when it is malformed. -/
  decodeClaims : String → Option StandardClaims
  /-- `jwt.EncodeSegment`: base64url. -/
  encodeSegment : String → String
  /-- `jwt.DecodeSegment`. -/
  decodeSegment : String → Option String
  /-- The HMAC of a message under a key, for the hash of the named method. -/
  hmac : String → String → String → String
  /-- Whether a token is still accepted in the very second of its expiry: releases
  v4.0 and v4.1 of the jwt package compare `now <= exp`, later ones `now < exp`. -/
  acceptsAtExpiry : Bool
  /-- `bcrypt.CompareHashAndPassword(hash, password) == nil`. -/
  bcryptMatches : String → String → Bool
  /-- The lowercase hexadecimal MD5 digest, `fmt.Sprintf("%x", md5.Sum(data))`. -/
  md5hex : String → String

/-! ## `net/url` and `net/textproto` -/

/-- Whether a byte is a hexadecimal digit (`ishex` of `net/url`). -/
def ishex (c : Char) : Bool :=
  ('0' ≤ c ∧ c ≤ '9') ∨ ('a' ≤ c ∧ c ≤ 'f') ∨ ('A' ≤ c ∧ c ≤ 'F')

/-- The value of a hexadecimal digit (`unhex` of `net/url`). -/
def unhex (c : Char) : Nat :=
  if '0' ≤ c ∧ c ≤ '9' then c.toNat - 48
  else if 'a' ≤ c ∧ c ≤ 'f' then c.toNat - 97 + 10
  else if 'A' ≤ c ∧ c ≤ 'F' then c.toNat - 65 + 10
  else 0

/-- Go `url.PathUnescape` on character lists: every `%XY` becomes the byte `XY`; the
result is `none`, an `EscapeError`, when a `%` is not followed by two hexadecimal
digits. -/
def unescape : List Char → Option (List Char)
  | [] => some []
  | '%' :: a :: b :: rest =>
    if ishex a ∧ ishex b then
      (unescape rest).map fun t => Char.ofNat (unhex a * 16 + unhex b) :: t
    else none
  | '%' :: _ => none
  | c :: rest => (unescape rest).map fun t => c :: t

/-- Go `url.PathUnescape`. -/
def pathUnescape (s : String) : Option String :=
  (unescape s.toList).map String.mk

/-- Whether `url.PathEscape` escapes a byte (`shouldEscape` in mode
`encodePathSegment`). -/
def shouldEscape (c : Char) : Bool :=
  if c.isAlphanum then false
  else if c = '-' ∨ c = '_' ∨ c = '.' ∨ c = '~' then false
  else if c = '$' ∨ c = '&' ∨ c = '+' ∨ c = ':' ∨ c = '=' ∨ c = '@' then false
  else true

/-- The upper-case hexadecimal digit of a nibble. -/
def upperhex (n : Nat) : Char :=
  if n < 10 then Char.ofNat (48 + n) else Char.ofNat (55 + n)

/-- Go `url.PathEscape`. -/
def pathEscape (s : String) : String :=
  String.mk (s.toList.flatMap fun c =>
    if shouldEscape c then ['%', upperhex (c.toNat / 16), upperhex (c.toNat % 16)] else [c])

/-- Whether a byte may occur in a header field name (`validHeaderFieldByte`). -/
def validHeaderFieldByte (c : Char) : Bool :=
  c.isAlphanum || [33, 35, 36, 37, 38, 39, 42, 43, 45, 46, 94, 95, 96, 124, 126].contains c.toNat

/-- The canonical case of a header field name: upper case at the start and after
each `-`, lower case elsewhere. -/
def canonicalCase : Bool → List Char → List Char
  | _, [] => []
  | upper, c :: cs =>
    let c1 := if upper ∧ c.isLower then c.toUpper
      else if ¬ upper ∧ c.isUpper then c.toLower else c
    c1 :: canonicalCase (c1 = '-') cs

/-- Go `textproto.CanonicalMIMEHeaderKey`: a key with a byte that is not valid in a
field name is returned unchanged. -/
def canonicalMIMEHeaderKey (s : String) : String :=
  if s.toList.all validHeaderFieldByte then String.mk (canonicalCase true s.toList) else s

/-! ## `net/http` -/

/-- Go `http.StatusText`. -/
def statusText (code : Nat) : String :=
  match code with
  | 100 => "Continue" | 101 => "Switching Protocols" | 102 => "Processing"
  | 103 => "Early Hints" | 200 => "OK" | 201 => "Created" | 202 => "Accepted"
  | 203 => "Non-Authoritative Information" | 204 => "No Content"
  | 205 => "Reset Content" | 206 => "Partial Content" | 207 => "Multi-Status"
  | 208 => "Already Reported" | 226 => "IM Used" | 300 => "Multiple Choices"
  | 301 => "Moved Permanently" | 302 => "Found" | 303 => "See Other"
  | 304 => "Not Modified" | 305 => "Use Proxy" | 307 => "Temporary Redirect"
  | 308 => "Permanent Redirect" | 400 => "Bad Request" | 401 => "Unauthorized"
  | 402 => "Payment Required" | 403 => "Forbidden" | 404 => "Not Found"
  | 405 => "Method Not Allowed" | 406 => "Not Acceptable"
  | 407 => "Proxy Authentication Required" | 408 => "Request Timeout"
  | 409 => "Conflict" | 410 => "Gone" | 411 => "Length Required"
  | 412 => "Precondition Failed" | 413 => "Request Entity Too Large"
  | 414 => "Request URI Too Long" | 415 => "Unsupported Media Type"
  | 416 => "Requested Range Not Satisfiable" | 417 => "Expectation Failed"
  | 418 => "I\x27m a teapot" | 421 => "Misdirected Request"
  | 422 => "Unprocessable Entity" | 423 => "Locked" | 424 => "Failed Dependency"
  | 425 => "Too Early" | 426 => "Upgrade Required" | 428 => "Precondition Required"
  | 429 => "Too Many Requests" | 431 => "Request Header Fields Too Large"
  | 451 => "Unavailable For Legal Reasons" | 500 => "Internal Server Error"
  | 501 => "Not Implemented" | 502 => "Bad Gateway" | 503 => "Service Unavailable"
  | 504 => "Gateway Timeout" | 505 => "HTTP Version Not Supported"
  | 506 => "Variant Also Negotiates" | 507 => "Insufficient Storage"
  | 508 => "Loop Detected" | 510 => "Not Extended"
  | 511 => "Network Authentication Required"
  | _ => ""

/-- The part of an `http.Request` the handlers read. -/
structure Request where
  Method : String
  /-- The field `r.URL.Path`. -/
  Path : String
  Host : String
  Header : Header
  Body : String

/-- An `http.ResponseWriter`: the response header map, the status line once it has been
written, and the body written so far.  The mark `panicked` is set when the handler that
writes to it panics: the server of `net/http` recovers the panic and closes the connection,
so that a response whose status line was not written is not sent at all. -/
structure ResponseWriter where
  header : AList fun _ : String => String
  status : Option Nat
  body : String
  panicked : Bool := false

/-- The writer a handler is started with. -/
def ResponseWriter.new : ResponseWriter :=
  { header := ∅, status := none, body := "" }

/-- Go `w.Header().Set(key, value)`.  A header set after the status line has been
written is not part of the response. -/
def ResponseWriter.setHeader (w : ResponseWriter) (key value : String) : ResponseWriter :=
  match w.status with
  | some _ => w
  | none => { w with header := w.header.insert (canonicalMIMEHeaderKey key) value }

/-- Go `w.WriteHeader(code)`: only the first call writes the status line. -/
def ResponseWriter.writeHeader (w : ResponseWriter) (code : Nat) : ResponseWriter :=
  match w.status with
  | some _ => w
  | none => { w with status := some code }

/-- Go `w.Write(data)`: writes the status line `200` first when none was written. -/
def ResponseWriter.write (w : ResponseWriter) (data : String) : ResponseWriter :=
  let w1 := w.writeHeader 200
  { w1 with body := w1.body ++ data }

/-- The writer that a handler leaves when it panics. -/
def ResponseWriter.panic (w : ResponseWriter) : ResponseWriter :=
  { w with panicked := true }

/-- The status code of the response: `200` when the handler wrote none. -/
def ResponseWriter.code (w : ResponseWriter) : Nat :=
  w.status.getD 200

/-- Go `http.Error(w, msg, code)`. -/
def httpError (w : ResponseWriter) (msg : String) (code : Nat) : ResponseWriter :=
  (((w.setHeader "Content-Type" "text/plain; charset=utf-8").setHeader
    "X-Content-Type-Options" "nosniff").writeHeader code).write (msg ++ "\n")

/-! ## `github.com/golang-jwt/jwt/v4` -/

/-- The families of signing methods the jwt package registers. -/
inductive SigningMethod
  | HMAC (name : String)
  | other (name : String)
  deriving DecidableEq, Repr

/-- Go `jwt.GetSigningMethod`: the method registered under an `alg`, if any. -/
def getSigningMethod (alg : String) : Option SigningMethod :=
  if alg = "HS256" ∨ alg = "HS384" ∨ alg = "HS512" then some (SigningMethod.HMAC alg)
  else if alg ∈ ["RS256", "RS384", "RS512", "ES256", "ES384", "ES512", "PS256", "PS384",
      "PS512", "EdDSA", "none"] then some (SigningMethod.other alg)
  else none

/-- Go `StandardClaims.Valid` at the time `now`: an unset claim passes, `exp` must not
have passed, `iat` and `nbf` must not lie in the future. -/
def StandardClaims.valid (lib : Lib) (c : StandardClaims) (now : Int) : Bool :=
  (c.ExpiresAt = 0 ∨ (if lib.acceptsAtExpiry then now ≤ c.ExpiresAt else now < c.ExpiresAt))
    ∧ (c.IssuedAt = 0 ∨ c.IssuedAt ≤ now)
    ∧ (c.NotBefore = 0 ∨ c.NotBefore ≤ now)

/-- Go `SigningMethodHMAC.Verify`: the decoded signature must be the HMAC of the signing
string under the key. -/
def hmacVerify (lib : Lib) (name signingString signature key : String) : Bool :=
  match lib.decodeSegment signature with
  | none => false
  | some sig => sig = lib.hmac name key signingString

/-- Go `token.SignedString(key)` for an HMAC method. -/
def signedString (lib : Lib) (name : String) (claims : StandardClaims) (key : String) :
    String :=
  let signingString := lib.encodeHeader name ++ "." ++ lib.encodeClaims claims
  signingString ++ "." ++ lib.encodeSegment (lib.hmac name key signingString)

/-- Go `jwt.ParseWithClaims` into `StandardClaims`, at the time `now`.  `keyFunc` receives
the signing method of the parsed token and returns the key or an error.  The result is
the claims of a token that is valid, or an error. -/
def parseWithClaims (lib : Lib) (tokenString : String)
    (keyFunc : SigningMethod → Except GoError String) (now : Int) :
    Except GoError StandardClaims :=
  match splitOn '.' tokenString.toList with
  | [h, c, sig] =>
    match lib.decodeHeader (String.mk h) with
    | none => .error (GoError.other "token is malformed")
    | some alg =>
      match lib.decodeClaims (String.mk c) with
      | none => .error (GoError.other "token is malformed")
      | some claims =>
        match getSigningMethod alg with
        | none => .error (GoError.other "signing method (alg) is unavailable.")
        | some method =>
          match keyFunc method with
          | .error e => .error e
          | .ok key =>
            let claimsOk : Bool := claims.valid lib now
            let sigOk : Bool :=
              match method with
              | SigningMethod.HMAC name =>
                hmacVerify lib name (String.mk h ++ "." ++ String.mk c) (String.mk sig) key
              | SigningMethod.other _ => false
            if claimsOk && sigOk then .ok claims
            else .error (GoError.other "token is invalid")
  | _ => .error (GoError.other "token contains an invalid number of segments")

/-! ## `github.com/ncw/swift/v2` -/

/-- Go `swift.Error`. -/
structure SwiftError where
  StatusCode : Nat
  Text : String
  deriving DecidableEq, Repr

/-- Go `swift.ContainerNotFound`. -/
def ContainerNotFound : SwiftError := ⟨404, "Container Not Found"⟩

/-- Go `swift.ObjectNotFound`. -/
def ObjectNotFound : SwiftError := ⟨404, "Object Not Found"⟩

/-- Go `swift.ObjectCorrupted`. -/
def ObjectCorrupted : SwiftError := ⟨422, "Object Corrupted"⟩

/-- Go `swift.Forbidden`. -/
def Forbidden : SwiftError := ⟨403, "Operation forbidden"⟩

/-! ## `server.go` -/

def UserNameTag : String := "X-Auth-User"
def PasswordTag : String := "X-Auth-Key"
def TokenTag : String := "X-Auth-Token"
def StorageUrlTag : String := "X-Storage-Url"
def RootAuthEndpoint : String := "/auth/v1.0"
def RootStorageEndpoint : String := "/v1.0/abc"
def ContainerMeta : String := "X-Container-Meta-"
def ObjectMeta : String := "X-Object-Meta-"

/-- The fields of `Settings` the handlers read. -/
structure Settings where
  StorageLocation : String
  Username : String
  Password : String
  TokenSecret : String

/-- The values the field `Server.scheme` takes: the empty string of `NewServer`, and the
two strings `Run` assigns. -/
inductive Scheme
  | unset
  | http
  | https
  deriving DecidableEq, Repr

/-- The string of a scheme. -/
def Scheme.str : Scheme → String
  | Scheme.unset => ""
  | Scheme.http => "http://"
  | Scheme.https => "https://"

structure Server where
  scheme : Scheme
  settings : Settings

/-- Go `NewServer`. -/
def NewServer (settings : Settings) : Server :=
  { scheme := Scheme.unset, settings := settings }

/-- Go `createToken`, at the time `now`: an HS256 token that expires in 15 minutes.
Signing with an HMAC method and a byte-slice key cannot fail. -/
def createToken (lib : Lib) (tokenSecret : String) (now : Int) : Except GoError String :=
  let claims : StandardClaims := { ExpiresAt := now + 900, IssuedAt := 0, NotBefore := 0 }
  .ok (signedString lib "HS256" claims tokenSecret)

/-- Go `verifyToken`, at the time `now`; `.ok ()` is the `nil` error. -/
def verifyToken (lib : Lib) (tokenString : List String) (tokenSecret : String) (now : Int) :
    Except GoError Unit :=
  match tokenString with
  | [] => .error (GoError.other "Cannot verify empty token")
  | t :: _ =>
    match parseWithClaims lib t
      (fun method =>
        match method with
        | SigningMethod.HMAC _ => .ok tokenSecret
        | SigningMethod.other _ => .error (GoError.other "Unexpected signing method"))
      now with
    | .error _ => .error (GoError.other "Failed to parse Token")
    | .ok _ => .ok ()

/-- Go `auth`. -/
def auth (lib : Lib) (inputUser inputPwd storedUser storedPass tokenSecret : String)
    (now : Int) : Except GoError String :=
  if inputUser ≠ storedUser then
    .error (GoError.other "Access Denied, You don\x27t have permission to access this server")
  else if ¬ lib.bcryptMatches storedPass inputPwd then
    .error (GoError.other "Access Denied, You don\x27t have permission to access this server")
  else createToken lib tokenSecret now

/-- Go `Server.authentication`, at the time `now`. -/
def Server.authentication (lib : Lib) (s : Server) (now : Int) (w : ResponseWriter)
    (r : Request) : ResponseWriter :=
  if r.Method ≠ "GET" then httpError w (statusText 400) 400
  else
    match r.Header.values UserNameTag, r.Header.values PasswordTag with
    | username :: _, password :: _ =>
      match auth lib username password s.settings.Username s.settings.Password
          s.settings.TokenSecret now with
      | .error _ => httpError w (statusText 401) 401
      | .ok accessToken =>
        (w.setHeader TokenTag accessToken).setHeader StorageUrlTag
          (s.scheme.str ++ r.Host ++ RootStorageEndpoint)
    | _, _ => httpError w (statusText 401) 401

/-- Go `getTarget`: the request path after `/v1.0/abc/`, with every `:` replaced by `_`.
The handler is registered under `/v1.0/abc/`, so the path has that prefix. -/
def getTarget (r : Request) : String :=
  let target := String.mk (r.Path.toList.drop (RootStorageEndpoint.length + 1))
  replaceAll target ':' '_'

/-- Go `Server.getMetadataFilePath`: the path of the metadata file, whether the carrier
is a container, and the error, if any. -/
def Server.getMetadataFilePath (s : Server) (carrier : String) :
    String × Bool × Option GoError :=
  let str := stringsSplit carrier '/'
  if str.length > 2 then
    ("", true, some (GoError.other "subdirectories aren\x27t supported"))
  else
    let name := filepathJoin [str.headD "", str.headD ""]
    let named : String × Bool :=
      if str.length > 1 then (name ++ "." ++ str.getD 1 "", false) else (name, true)
    (filepathJoin [s.settings.StorageLocation, named.1 ++ ".metadata.json"], named.2, none)

/-- Go `URLDecode`: the percent-decoded string, or the string itself when its encoding
is malformed. -/
def URLDecode (s : String) : String :=
  match pathUnescape s with
  | none => s
  | some us => us

/-- Go `parseMetadata`: the metadata headers of the request, visited in the order of the
entries of the header map.  A key of a request header has at least one value. -/
def parseMetadata (r : Request) : Meta :=
  r.Header.entries.foldl
    (fun metadata kv =>
      if kv.1.length > ContainerMeta.length ∧ hasPrefix kv.1 ContainerMeta then
        metadata.insert (trimPrefix kv.1 ContainerMeta) (URLDecode (kv.2.headD ""))
      else if kv.1.length > ObjectMeta.length ∧ hasPrefix kv.1 ObjectMeta then
        metadata.insert (trimPrefix kv.1 ObjectMeta) (URLDecode (kv.2.headD ""))
      else metadata)
    ∅

/-- Go `loadMetadata`: the map may be nil when there is no error. -/
def loadMetadata (lib : Lib) (fs : FS) (filename : String) : Except GoError GoMap :=
  match osOpen fs filename with
  | .error e => .error (GoError.pathError e)
  | .ok jsonFile =>
    match readAll jsonFile with
    | .error e => .error (GoError.pathError e)
    | .ok byteValue =>
      match lib.jsonUnmarshal byteValue with
      | none => .error GoError.jsonError
      | some result => .ok result

/-- Go `updateMetadata`; the updated `oldMeta` is the result. -/
def updateMetadata (oldMeta newMeta : Meta) : Meta :=
  newMeta.entries.foldl
    (fun old kv => if kv.2 ≠ "" then old.insert kv.1 kv.2 else old.erase kv.1)
    oldMeta

/-- Go `updateMetadata` on an `oldMeta` that may be nil: the updated map, or `none` when
the call panics.  Assigning an entry of the nil map panics, so that the call panics when
`newMeta` holds a value that is not empty; `delete` on the nil map does nothing. -/
def updateMap (oldMeta : GoMap) (newMeta : Meta) : Option GoMap :=
  match oldMeta with
  | GoMap.map m => some (GoMap.map (updateMetadata m newMeta))
  | GoMap.nil => if newMeta.entries.all (fun kv => kv.2 = "") then some GoMap.nil else none

/-- Go `json.MarshalIndent(metadata, "", "")` of a map that may be nil: the nil map is
serialised as `null`. -/
def Lib.marshalMap (lib : Lib) : GoMap → String
  | GoMap.nil => "null"
  | GoMap.map m => lib.jsonMarshalIndent m

/-- Go `storeMetadata`: the error, if any, and the new state. -/
def storeMetadata (lib : Lib) (fs : FS) (name : String) (metadata : GoMap) :
    Option GoError × FS :=
  let jsonString := lib.marshalMap metadata
  match osCreate fs name with
  | .error e => (some (GoError.pathError e), fs)
  | .ok fs1 => (none, writeFile fs1 name jsonString)

/-- Go `backupMetadata`: the error, if any, and the new state. -/
def backupMetadata (fs : FS) (metadatapath : String) : Option GoError × FS :=
  match osCreate fs (metadatapath ++ ".bac") with
  | .error e => (some (GoError.pathError e), fs)
  | .ok fs1 =>
    match osOpen fs1 metadatapath with
    | .error e => (some (GoError.pathError e), fs1)
    | .ok f =>
      match readAll f with
      | .error e => (some (GoError.pathError e), fs1)
      | .ok data => (none, writeFile fs1 (metadatapath ++ ".bac") data)

/-- Go `Server.handlePutMetadata`: how the call ends, with the error to report, if any,
and the new state. -/
def Server.handlePutMetadata (lib : Lib) (s : Server) (fs : FS) (r : Request)
    (carrier : String) : Outcome (Option SwiftError) × FS :=
  match s.getMetadataFilePath carrier with
  | (_, _, some _) => (.returned (some ContainerNotFound), fs)
  | (metaPath, container, none) =>
    let newMeta := parseMetadata r
    if container then
      match loadMetadata lib fs metaPath with
      | .error err =>
        if err.isNotExist then
          match storeMetadata lib fs metaPath newMeta with
          | (some _, fs1) => (.returned (some ContainerNotFound), fs1)
          | (none, fs1) => (.returned none, fs1)
        else
          let fs1 := (backupMetadata fs metaPath).2
          (.returned none, (storeMetadata lib fs1 metaPath newMeta).2)
      | .ok oldMeta =>
        match updateMap oldMeta newMeta with
        | none => (.panic, fs)
        | some merged => (.returned none, (storeMetadata lib fs metaPath merged).2)
    else
      match osStat fs (pathDir (filepathJoin [s.settings.StorageLocation, carrier])) with
      | .error Errno.ENOENT => (.returned (some ObjectNotFound), fs)
      | _ =>
        match storeMetadata lib fs metaPath newMeta with
        | (some _, fs1) => (.returned (some ObjectCorrupted), fs1)
        | (none, fs1) => (.returned none, fs1)

/-- Go `Server.handleCreation`. -/
def Server.handleCreation (lib : Lib) (s : Server) (fs : FS) (w : ResponseWriter)
    (r : Request) : ResponseWriter × FS :=
  let target := getTarget r
  let finish (created : Bool) (fs1 : FS) : ResponseWriter × FS :=
    match s.handlePutMetadata lib fs1 r target with
    | (.returned (some e), fs2) => (httpError w e.Text e.StatusCode, fs2)
    | (.returned none, fs2) =>
      (if created then w.writeHeader 201 else w.writeHeader 202, fs2)
    | (.panic, fs2) => (w.panic, fs2)
  match (stringsSplit target '/').length with
  | 1 =>
    match osStat fs (filepathJoin [s.settings.StorageLocation, target]) with
    | .error Errno.ENOENT =>
      match osMkdir fs (filepathJoin [s.settings.StorageLocation, target]) with
      | .error _ => (httpError w (statusText 500) 500, fs)
      | .ok fs1 => finish true fs1
    | _ => finish false fs
  | 2 =>
    match osCreate fs (filepathJoin [s.settings.StorageLocation, target]) with
    | .error _ => (httpError w (statusText 404) 404, fs)
    | .ok fs1 =>
      finish true (writeFile fs1 (filepathJoin [s.settings.StorageLocation, target]) r.Body)
  | _ => (httpError w (statusText 400) 400, fs)

/-- Go `Server.handlePostMetadata`. -/
def Server.handlePostMetadata (lib : Lib) (s : Server) (fs : FS) (w : ResponseWriter)
    (r : Request) : ResponseWriter × FS :=
  let target := getTarget r
  match s.getMetadataFilePath target with
  | (_, _, some _) => (httpError w (statusText 500) 500, fs)
  | (metafilename, container, none) =>
    let newMeta := parseMetadata r
    if container then
      let finish (fs1 : FS) : ResponseWriter × FS :=
        let fs2 :=
          if newMeta.lookup "Status" = some "Complete" then
            match osCreate fs1
              (filepathJoin [s.settings.StorageLocation, target, "complete"]) with
            | .error _ => fs1
            | .ok fs3 => fs3
          else fs1
        (w.writeHeader 204, fs2)
      match loadMetadata lib fs metafilename with
      | .ok oldMeta =>
        match updateMap oldMeta newMeta with
        | none => (w.panic, fs)
        | some merged => finish (storeMetadata lib fs metafilename merged).2
      | .error err =>
        if err.isPathError then
          match storeMetadata lib fs metafilename newMeta with
          | (some _, fs1) => (httpError w (statusText 404) 404, fs1)
          | (none, fs1) => finish fs1
        else
          let fs1 := (backupMetadata fs metafilename).2
          finish (storeMetadata lib fs1 metafilename newMeta).2
    else
      match osStat fs (filepathJoin [s.settings.StorageLocation, target]) with
      | .error Errno.ENOENT => (httpError w (statusText 404) 404, fs)
      | _ =>
        match storeMetadata lib fs metafilename newMeta with
        | (some _, fs1) => (httpError w (statusText 500) 500, fs1)
        | (none, fs1) => (w.writeHeader 202, fs1)

/-- Go `Server.handleGetMetadata`. -/
def Server.handleGetMetadata (lib : Lib) (s : Server) (fs : FS) (w : ResponseWriter)
    (r : Request) : ResponseWriter × FS :=
  let target := getTarget r
  let notFound (container : Bool) : ResponseWriter × FS :=
    let e := if container then ContainerNotFound else ObjectNotFound
    (httpError w e.Text e.StatusCode, fs)
  match s.getMetadataFilePath target with
  | (_, container, some _) => notFound container
  | (metaPath, container, none) =>
    match loadMetadata lib fs metaPath with
    | .error _ => notFound container
    | .ok meta =>
      let tag := if container then ContainerMeta else ObjectMeta
      (meta.entries.foldl (fun w1 kv => w1.setHeader (tag ++ kv.1) (pathEscape kv.2)) w, fs)

/-- Go `Server.handleGet`. -/
def Server.handleGet (lib : Lib) (s : Server) (fs : FS) (w : ResponseWriter)
    (r : Request) : ResponseWriter × FS :=
  let target := getTarget r
  if target ≠ "System/Capabilities.json" then
    (httpError w Forbidden.Text Forbidden.StatusCode, fs)
  else
    match osReadFile fs (filepathJoin [s.settings.StorageLocation, target]) with
    | .error Errno.ENOENT => (httpError w ObjectNotFound.Text ObjectNotFound.StatusCode, fs)
    | .error _ => (httpError w (statusText 500) 500, fs)
    | .ok data =>
      let w1 := ((w.setHeader "Content-Type" "application/json").setHeader
        "Accept-Ranges" "bytes").setHeader "Etag" (lib.md5hex data)
      (w1.write data, fs)

/-- Go `Server.storageHandler`, at the time `now`: the response and the new state. -/
def Server.storageHandler (lib : Lib) (s : Server) (now : Int) (fs : FS)
    (w : ResponseWriter) (r : Request) : ResponseWriter × FS :=
  match verifyToken lib (r.Header.values TokenTag) s.settings.TokenSecret now with
  | .error _ => (httpError w (statusText 401) 401, fs)
  | .ok _ =>
    if r.Method = "HEAD" then s.handleGetMetadata lib fs w r
    else if r.Method = "PUT" then s.handleCreation lib fs w r
    else if r.Method = "POST" then s.handlePostMetadata lib fs w r
    else if r.Method = "GET" then s.handleGet lib fs w r
    else (httpError w (statusText 400) 400, fs)

/-! ## A sample instance of the libraries

A small concrete `Lib` on which the handlers can be run: JSON restricted to flat objects
of strings without escapes and to the document `null`, tokens whose segments are written
in the clear, and checksums in place of the hash functions. -/

/-- The states of the sample JSON reader. -/
inductive JsonState
  | start
  | afterOpen
  | inKey (acc : List Char)
  | afterKey (key : List Char)
  | beforeVal (key : List Char)
  | inVal (key acc : List Char)
  | afterVal
  | beforeKey
  | done

/-- Whether the sample JSON reader skips the character between tokens. -/
def jsonSpace (c : Char) : Bool :=
  c = ' ' ∨ c = '\n' ∨ c = '\t' ∨ c = '\r'

/-- The sample JSON reader: a flat object of strings without escapes. -/
def sampleJsonRead : JsonState → Meta → List Char → Option Meta
  | JsonState.done, m, [] => some m
  | _, _, [] => none
  | JsonState.start, m, c :: cs =>
    if jsonSpace c then sampleJsonRead JsonState.start m cs
    else if c = '{' then sampleJsonRead JsonState.afterOpen m cs else none
  | JsonState.afterOpen, m, c :: cs =>
    if jsonSpace c then sampleJsonRead JsonState.afterOpen m cs
    else if c = '}' then sampleJsonRead JsonState.done m cs
    else if c = '"' then sampleJsonRead (JsonState.inKey []) m cs else none
  | JsonState.inKey acc, m, c :: cs =>
    if c = '"' then sampleJsonRead (JsonState.afterKey acc) m cs
    else if c = '\\' then none else sampleJsonRead (JsonState.inKey (acc ++ [c])) m cs
  | JsonState.afterKey k, m, c :: cs =>
    if jsonSpace c then sampleJsonRead (JsonState.afterKey k) m cs
    else if c = ':' then sampleJsonRead (JsonState.beforeVal k) m cs else none
  | JsonState.beforeVal k, m, c :: cs =>
    if jsonSpace c then sampleJsonRead (JsonState.beforeVal k) m cs
    else if c = '"' then sampleJsonRead (JsonState.inVal k []) m cs else none
  | JsonState.inVal k acc, m, c :: cs =>
    if c = '"' then sampleJsonRead JsonState.afterVal (m.insert (String.mk k) (String.mk acc)) cs
    else if c = '\\' then none else sampleJsonRead (JsonState.inVal k (acc ++ [c])) m cs
  | JsonState.afterVal, m, c :: cs =>
    if jsonSpace c then sampleJsonRead JsonState.afterVal m cs
    else if c = ',' then sampleJsonRead JsonState.beforeKey m cs
    else if c = '}' then sampleJsonRead JsonState.done m cs else none
  | JsonState.beforeKey, m, c :: cs =>
    if jsonSpace c then sampleJsonRead JsonState.beforeKey m cs
    else if c = '"' then sampleJsonRead (JsonState.inKey []) m cs else none
  | JsonState.done, m, c :: cs =>
    if jsonSpace c then sampleJsonRead JsonState.done m cs else none

/-- The sample `json.Unmarshal` into a map: the document `null`, with blanks around it,
leaves the nil map, and a flat object is read by `sampleJsonRead`. -/
def sampleJsonDecode (s : String) : Option GoMap :=
  if ((s.toList.dropWhile jsonSpace).reverse.dropWhile jsonSpace).reverse = "null".toList
  then some GoMap.nil
  else (sampleJsonRead JsonState.start ∅ s.toList).map GoMap.map

/-- The sample JSON writer: one `"key": "value"` per line, as `json.MarshalIndent` with
empty prefix and indent lays an object out. -/
def sampleJsonWrite (m : Meta) : String :=
  match m.entries with
  | [] => "\x7b\x7d"
  | es =>
    "\x7b\n" ++ ",\n".intercalate (es.map fun kv => "\"" ++ kv.1 ++ "\": \"" ++ kv.2 ++ "\"")
      ++ "\n\x7d"

/-- A decimal digit string as a number. -/
def sampleReadNat : List Char → Option Nat
  | [] => none
  | cs => cs.foldl
      (fun acc c =>
        match acc with
        | none => none
        | some n => if c.isDigit then some (n * 10 + (c.toNat - 48)) else none)
      (some 0)

/-- A decimal string, with an optional sign, as an integer. -/
def sampleReadInt : List Char → Option Int
  | '-' :: cs => (sampleReadNat cs).map fun n => - (n : Int)
  | cs => (sampleReadNat cs).map fun n => (n : Int)

/-- The sample claims segment: the three times in decimal, separated by commas. -/
def sampleEncodeClaims (c : StandardClaims) : String :=
  toString c.ExpiresAt ++ "," ++ toString c.IssuedAt ++ "," ++ toString c.NotBefore

/-- Reading the sample claims segment. -/
def sampleDecodeClaims (s : String) : Option StandardClaims :=
  match splitOn ',' s.toList with
  | [e, i, n] =>
    match sampleReadInt e, sampleReadInt i, sampleReadInt n with
    | some e1, some i1, some n1 => some { ExpiresAt := e1, IssuedAt := i1, NotBefore := n1 }
    | _, _, _ => none
  | _ => none

/-- A checksum standing in for a hash function. -/
def sampleSum (s : String) : Nat :=
  s.toList.foldl (fun acc c => (acc * 31 + c.toNat) % 1000003) 7

/-- The sample libraries. -/
def sampleLib : Lib where
  jsonMarshalIndent := sampleJsonWrite
  jsonUnmarshal := sampleJsonDecode
  encodeHeader := fun alg => alg
  decodeHeader := fun h => some h
  encodeClaims := sampleEncodeClaims
  decodeClaims := sampleDecodeClaims
  encodeSegment := fun b => b
  decodeSegment := fun s => some s
  hmac := fun name key msg => toString (sampleSum (name ++ "|" ++ key ++ "|" ++ msg))
  acceptsAtExpiry := false
  bcryptMatches := fun hash password => hash = "$sample$" ++ password
  md5hex := fun data => toString (sampleSum data)



/-! ## Notions the statements use -/

deriving instance DecidableEq for Except

/-- What the jwt and base64 codecs guarantee for one compact token: none of its three
segments contains the separator `.`, and each segment decodes to what was encoded. -/
def Lib.DecodesBack (lib : Lib) (name : String) (claims : StandardClaims) (key : String) :
    Prop :=
  '.' ∉ (lib.encodeHeader name).toList
  ∧ '.' ∉ (lib.encodeClaims claims).toList
  ∧ '.' ∉ (lib.encodeSegment
      (lib.hmac name key (lib.encodeHeader name ++ "." ++ lib.encodeClaims claims))).toList
  ∧ lib.decodeHeader (lib.encodeHeader name) = some name
  ∧ lib.decodeClaims (lib.encodeClaims claims) = some claims
  ∧ lib.decodeSegment (lib.encodeSegment
      (lib.hmac name key (lib.encodeHeader name ++ "." ++ lib.encodeClaims claims)))
    = some (lib.hmac name key (lib.encodeHeader name ++ "." ++ lib.encodeClaims claims))

instance (lib : Lib) (name : String) (claims : StandardClaims) (key : String) :
    Decidable (lib.DecodesBack name claims key) := by
  unfold Lib.DecodesBack
  infer_instance

/-- A name of a container or of an object: one non-empty path element other than `.`
and `..`. -/
def PlainName (x : String) : Prop :=
  x ≠ "" ∧ '/' ∉ x.toList ∧ x ≠ "." ∧ x ≠ ".."

instance (x : String) : Decidable (PlainName x) := by
  unfold PlainName
  infer_instance

/-! ## Sample data -/

/-- A server on the storage root `/srv`. -/
def sampleServer : Server :=
  NewServer
    { StorageLocation := "/srv", Username := "test:tester", Password := "$sample$testing",
      TokenSecret := "secret" }

/-- The token the sample libraries issue for the secret `secret` at the time `1000`. -/
def sampleToken : String := "HS256.1900,0,0.826348"

/-- A request with the sample token and the given metadata headers. -/
def sampleRequest (method path : String) (meta : List (String × String)) (body : String) :
    Request :=
  { Method := method, Path := path, Host := "example.org", Body := body,
    Header := meta.foldr (fun kv h => h.insert kv.1 [kv.2])
      ((∅ : Header).insert "X-Auth-Token" [sampleToken]) }

/-- A storage root without containers. -/
def emptyStore : FS := fun p =>
  if p = "/" then some Node.dir else if p = "/srv" then some Node.dir else none

/-- A `GET` on the auth route with the credentials of the sample server. -/
def sampleLogin : Request :=
  { Method := "GET", Path := "/auth/v1.0", Host := "example.org:8080", Body := "",
    Header := ((∅ : Header).insert "X-Auth-User" ["test:tester"]).insert "X-Auth-Key"
      ["testing"] }


/-! ## Notions the path lemmas use -/

/-- Whether a path starts at the root. -/
def rootedOf (p : List Char) : Bool :=
  p.head? = some '/'

/-- The output buffer of `Clean` for a path. -/
def stackOf (p : List Char) : List (List Char) :=
  cleanStack (rootedOf p) (splitOn '/' p)

/-- The element `..`. -/
def dotdot : List Char := ['.', '.']

/-- A path element that `Clean` keeps as it is. -/
def NormalSeg (x : List Char) : Prop :=
  x ≠ [] ∧ '/' ∉ x ∧ x ≠ ['.'] ∧ x ≠ dotdot

/-- The shape of an output buffer of `Clean`: kept elements on top of the `..` elements
that a relative path starts with. -/
inductive NF (ro : Bool) : List (List Char) → Prop
  | nil : NF ro []
  | dots (S : List (List Char)) :
      ro = false → (∀ y ∈ S, y = dotdot) → NF ro S → NF ro (dotdot :: S)
  | seg (x : List Char) (S : List (List Char)) : NormalSeg x → NF ro S → NF ro (x :: S)

/-- The metadata of a container, as in the tests of the repository. -/
def sampleOld : Meta :=
  ((∅ : Meta).insert "Test-Container" "test").insert "Test-Delete-Me" "deleteme"

/-- An update that sets one key and deletes another. -/
def sampleNew : Meta :=
  ((∅ : Meta).insert "Test-Update-Container" "updateTest").insert "Test-Delete-Me" ""

/-- The storage root with the container `test` and its sidecar, as the first request of
the repository's tests leaves them. -/
def testStore : FS := fun p =>
  if p = "/" then some Node.dir
  else if p = "/srv" then some Node.dir
  else if p = "/srv/test" then some Node.dir
  else if p = "/srv/test/test.metadata.json" then
    some (Node.file "\x7b\n\"Test-Container\": \"test\"\n\x7d")
  else none

/-- The storage root with the container `test` whose sidecar holds the JSON document
`null`: the state that a `PUT` of an object named `test.metadata.json` with the body `null`
leaves of `testStore`, but for the sidecar of that object. -/
def nullStore : FS := fun p =>
  if p = "/" then some Node.dir
  else if p = "/srv" then some Node.dir
  else if p = "/srv/test" then some Node.dir
  else if p = "/srv/test/test.metadata.json" then some (Node.file "null")
  else none

/-- A filesystem state in which whatever exists lies in a directory. -/
def FS.WellFormed (fs : FS) : Prop :=
  ∀ p, fs p ≠ none → fs (pathDir p) = some Node.dir

/-- The storage root with the container `test`, its object `test.txt` and the sidecars
of both, as the repository's tests leave them after creating the object. -/
def objectStore : FS := fun p =>
  if p = "/" then some Node.dir
  else if p = "/srv" then some Node.dir
  else if p = "/srv/test" then some Node.dir
  else if p = "/srv/test/test.metadata.json" then
    some (Node.file "\x7b\n\"Test-Container\": \"test\"\n\x7d")
  else if p = "/srv/test/test.txt" then some (Node.file "BODY")
  else if p = "/srv/test/test.test.txt.metadata.json" then
    some (Node.file "\x7b\n\"Test\": \"testObjectData\"\n\x7d")
  else none

/-- The storage root with the capability manifest. -/
def manifestStore : FS := fun p =>
  if p = "/" then some Node.dir
  else if p = "/srv" then some Node.dir
  else if p = "/srv/System" then some Node.dir
  else if p = "/srv/System/Capabilities.json" then some (Node.file "\x7b\x7d")
  else none

/-- The storage root with the configuration file of the server, the container `test` and
a file `a_b` in it that has no sidecar. -/
def postStore : FS := fun p =>
  if p = "/" then some Node.dir
  else if p = "/srv" then some Node.dir
  else if p = "/srv/config.json" then some (Node.file "\x7b\x7d")
  else if p = "/srv/test" then some Node.dir
  else if p = "/srv/test/a_b" then some (Node.file "BODY")
  else none

/-- The storage root with the container `test`, whose sidecar holds two keys that differ
in case only. -/
def caseStore : FS := fun p =>
  if p = "/" then some Node.dir
  else if p = "/srv" then some Node.dir
  else if p = "/srv/test" then some Node.dir
  else if p = "/srv/test/test.metadata.json" then
    some (Node.file "\x7b\n\"a\": \"1\",\n\"A\": \"2\"\n\x7d")
  else none

/-! ## The status-override middleware (`server/middleware.go`) -/

/-- Go `strconv.Atoi` where `int` has 64 bits: an optional sign followed by decimal
digits, at least one, of a value that an `int` holds; a syntax error or a range error is
`none`. -/
def strconvAtoi (s : String) : Option Int :=
  let s0 := s.toList
  let digits := if s0.head? = some '-' ∨ s0.head? = some '+' then s0.tail else s0
  if digits = [] ∨ digits.all Char.isDigit = false then none
  else
    let n : Nat := digits.foldl (fun acc ch => acc * 10 + (ch.toNat - 48)) 0
    if s0.head? = some '-' then (if n ≤ 2 ^ 63 then some (-(n : Int)) else none)
    else if n < 2 ^ 63 then some (n : Int) else none

/-- The UTF-8 encodings of the code points that `unicode.IsSpace` accepts: the six ASCII
spaces, U+0085, U+00A0, U+1680, U+2000 to U+200A, U+2028, U+2029, U+202F, U+205F and
U+3000. -/
def spaceEncodings : List (List Char) :=
  ([[9], [10], [11], [12], [13], [32], [0xC2, 0x85], [0xC2, 0xA0], [0xE1, 0x9A, 0x80],
    [0xE2, 0x80, 0x80], [0xE2, 0x80, 0x81], [0xE2, 0x80, 0x82], [0xE2, 0x80, 0x83],
    [0xE2, 0x80, 0x84], [0xE2, 0x80, 0x85], [0xE2, 0x80, 0x86], [0xE2, 0x80, 0x87],
    [0xE2, 0x80, 0x88], [0xE2, 0x80, 0x89], [0xE2, 0x80, 0x8A], [0xE2, 0x80, 0xA8],
    [0xE2, 0x80, 0xA9], [0xE2, 0x80, 0xAF], [0xE2, 0x81, 0x9F], [0xE3, 0x80, 0x80]]
    : List (List Nat)).map (List.map Char.ofNat)

/-- Removing the spaces a byte string starts with, among the given encodings; every round
removes a space, so that as many rounds as the string has bytes remove them all. -/
def dropSpaces (encodings : List (List Char)) : Nat → List Char → List Char
  | 0, l => l
  | rounds + 1, l =>
    match encodings.find? (fun e => e.isPrefixOf l) with
    | some e => dropSpaces encodings rounds (l.drop e.length)
    | none => l

/-- Go `strings.TrimSpace`: the string without its leading and trailing spaces. -/
def trimSpace (s : String) : String :=
  let l1 := dropSpaces spaceEncodings s.toList.length s.toList
  String.mk (dropSpaces (spaceEncodings.map List.reverse) l1.length l1.reverse).reverse

/-- The Go map `map[string]int` of the middleware. -/
abbrev StatusMap := AList fun _ : String => Int

/-- One round of the loop of `statusOverrider` over `parts`: the entry that a part adds to
`overrides`, if it adds one. -/
def parsePart (part : String) : Option (String × Int) :=
  let subparts := stringsSplit (trimSpace part) ':'
  if subparts.length = 2 then
    match strconvAtoi (subparts.getD 1 "") with
    | none => none
    | some httpStatus => some (subparts.getD 0 "", httpStatus)
  else none

/-- The map `overrides` that `statusOverrider` builds from `parts`. -/
def parseOverrides (parts : List String) : StatusMap :=
  parts.foldl
    (fun overrides part =>
      match parsePart part with
      | none => overrides
      | some (url, httpStatus) => overrides.insert url httpStatus)
    ∅

/-- The first loop of the function that `statusOverrider` returns: the map `matches`,
from the entries of `overrides` in the order the loop visits them. -/
def collectMatches (url : String) (visited : List (Σ _ : String, Int)) : StatusMap :=
  visited.foldl
    (fun found kv => if hasPrefix url kv.1 then found.insert kv.1 kv.2 else found) ∅

/-- The second loop of the function that `statusOverrider` returns: the variables `n` and
`status` after the entries of `matches` in the order the loop visits them. -/
def pickLongest (visited : List (Σ _ : String, Int)) : Nat × Int :=
  visited.foldl (fun acc kv => if kv.1.length > acc.1 then (kv.1.length, kv.2) else acc)
    (0, 0)

/-- The function that `statusOverrider` returns for a map `overrides` that is not empty. -/
def overrideFor (overrides : StatusMap) (url : String) : Int × Bool :=
  let found := collectMatches url overrides.entries
  if found.entries.length = 0 then (0, false)
  else ((pickLongest found.entries).2, true)

/-- Go `statusOverrider`, of the value of the environment variable
`DEBUG_MSS_HTTP_STATUS`, which is `none` when the variable is unset; the result `none` is
the `nil` function. -/
def statusOverrider (env : Option String) : Option (String → Int × Bool) :=
  match env with
  | none => none
  | some val =>
    let parts := stringsSplit val ','
    if parts.length = 0 then none
    else
      let fromPairs : Option (String → Int × Bool) :=
        let overrides := parseOverrides parts
        if overrides.entries.length = 0 then none else some (overrideFor overrides)
      match strconvAtoi val with
      | some httpStatus =>
        if parts.length = 1 then some (fun _ => (httpStatus, true)) else fromPairs
      | none => fromPairs

/-- Go `w.WriteHeader(code)` of the server of `net/http`, for a code that is computed.  A
code that has not three digits makes `checkWriteHeaderCode` panic, which is `none`; a code
`1xx` other than `101` is sent as an informational response and is not the status of the
response. -/
def ResponseWriter.writeHeaderInt (w : ResponseWriter) (code : Int) : Option ResponseWriter :=
  match w.status with
  | some _ => some w
  | none =>
    if code < 100 ∨ code > 999 then none
    else if code ≤ 199 ∧ code ≠ 101 then some w
    else some { w with status := some code.toNat }

/-- Go `w.Write(data)` of the server of `net/http`, on the response to a request of the
method `method`; the middleware ignores its error.  The status line `200` is written first
when none was written.  The data are left out, with the error `ErrBodyNotAllowed`, when the
status allows no body (`1xx`, `204`, `304`), and they are discarded when the request is a
`HEAD`, whose response has no body. -/
def ResponseWriter.writeAllowed (w : ResponseWriter) (method : String) (data : String) :
    ResponseWriter :=
  let w1 := w.writeHeader 200
  if method = "HEAD" ∨ (100 ≤ w1.code ∧ w1.code ≤ 199) ∨ w1.code = 204 ∨ w1.code = 304 then w1
  else { w1 with body := w1.body ++ data }

/-- Go `returnStatusFromEnv`: the handler it returns, for the value `env` of the
environment variable and the wrapped `handler`, on a state of type `σ`.  The argument `url`
stands for `r.URL.String()`, the escaped path and the query of the request.  The result is
`none` when `WriteHeader` panics. -/
def returnStatusFromEnv {σ : Type} (env : Option String)
    (handler : σ → ResponseWriter → Request → ResponseWriter × σ) (url : String)
    (st : σ) (w : ResponseWriter) (r : Request) : Option (ResponseWriter × σ) :=
  match statusOverrider env with
  | none => some (handler st w r)
  | some statusOverrideForPrefix =>
    match statusOverrideForPrefix url with
    | (_, false) => some (handler st w r)
    | (httpStatus, true) =>
      match w.writeHeaderInt httpStatus with
      | none => none
      | some w1 =>
        some (w1.writeAllowed r.Method (statusText httpStatus.toNat ++ "\n"), st)

/-! ## Notions the later statements use -/

/-- The key that `parseMetadata` stores the value of a header under, if any: what follows
`X-Container-Meta-` or `X-Object-Meta-` in the name of the header, when something
follows. -/
def metaKey (h : String) : Option String :=
  if h.length > ContainerMeta.length ∧ hasPrefix h ContainerMeta then
    some (trimPrefix h ContainerMeta)
  else if h.length > ObjectMeta.length ∧ hasPrefix h ObjectMeta then
    some (trimPrefix h ObjectMeta)
  else none

/-- A request whose headers are `X-Container-Meta-K: 1` and `X-Object-Meta-K: 2`, visited in
that order. -/
def bothScopes : Request :=
  { Method := "POST", Path := "/v1.0/abc/test", Host := "example.org", Body := "",
    Header := ((∅ : Header).insert "X-Object-Meta-K" ["2"]).insert "X-Container-Meta-K"
      ["1"] }

/-- The request `bothScopes` with its headers visited in the other order. -/
def bothScopesSwapped : Request :=
  { Method := "POST", Path := "/v1.0/abc/test", Host := "example.org", Body := "",
    Header := ((∅ : Header).insert "X-Container-Meta-K" ["1"]).insert "X-Object-Meta-K"
      ["2"] }

/-- Every `%` of the string is followed by two hexadecimal digits. -/
def EveryPercentEscaped (l : List Char) : Prop :=
  ∀ i < l.length, l[i]? = some '%' →
    l[i + 1]?.map ishex = some true ∧ l[i + 2]?.map ishex = some true

instance (l : List Char) : Decidable (EveryPercentEscaped l) := by
  unfold EveryPercentEscaped
  infer_instance

/-- The percent-decoded string: every `%` with the two hexadecimal digits that follow it
is replaced by the byte of that value, and every other byte is kept. -/
def percentDecoded : List Char → List Char
  | [] => []
  | '%' :: a :: b :: rest => Char.ofNat (unhex a * 16 + unhex b) :: percentDecoded rest
  | c :: rest => c :: percentDecoded rest


/-! ## Strings -/

theorem splitOn_of_not_mem (sep : Char) (l : List Char) (h : sep ∉ l) :
    splitOn sep l = [l] := by
  induction l with
  | nil => rfl
  | cons c cs ih =>
    have hc : c ≠ sep := fun e => h (by simp [e])
    have hcs : sep ∉ cs := fun e => h (by simp [e])
    simp [splitOn, hc, ih hcs]

theorem splitOn_append (sep : Char) (a b : List Char) (h : sep ∉ a) :
    splitOn sep (a ++ sep :: b) = a :: splitOn sep b := by
  induction a with
  | nil => simp [splitOn]
  | cons c cs ih =>
    have hc : c ≠ sep := fun e => h (by simp [e])
    have hcs : sep ∉ cs := fun e => h (by simp [e])
    simp [splitOn, hc, ih hcs]

/-! ## Tokens -/

theorem verifyToken_cons (lib : Lib) (t : String) (rest : List String) (secret : String)
    (now : Int) : verifyToken lib (t :: rest) secret now = verifyToken lib [t] secret now :=
  rfl

/-- When `verifyToken` accepts: the token has three segments, its header names an HMAC
method, its claims decode and are valid now, and its signature is the HMAC of the first
two segments under the secret. -/
theorem verifyToken_ok_iff (lib : Lib) (t : String) (secret : String) (now : Int) :
    verifyToken lib [t] secret now = .ok () ↔
      ∃ h c sig alg claims,
        splitOn '.' t.toList = [h, c, sig]
        ∧ lib.decodeHeader (String.mk h) = some alg
        ∧ lib.decodeClaims (String.mk c) = some claims
        ∧ (alg = "HS256" ∨ alg = "HS384" ∨ alg = "HS512")
        ∧ claims.valid lib now = true
        ∧ lib.decodeSegment (String.mk sig)
            = some (lib.hmac alg secret (String.mk h ++ "." ++ String.mk c)) := by
  constructor
  · intro hv
    simp only [verifyToken, parseWithClaims] at hv
    have h3 : ∃ h c sig, splitOn '.' t.toList = [h, c, sig] := by
      rcases hs : splitOn '.' t.toList with _ | ⟨a, _ | ⟨b, _ | ⟨c, _ | ⟨d, e⟩⟩⟩⟩
      · rw [hs] at hv; simp at hv
      · rw [hs] at hv; simp at hv
      · rw [hs] at hv; simp at hv
      · exact ⟨a, b, c, rfl⟩
      · rw [hs] at hv; simp at hv
    obtain ⟨h, c, sig, hsplit⟩ := h3
    rw [hsplit] at hv
    simp only [] at hv
    cases halg : lib.decodeHeader (String.mk h) with
    | none => simp [halg] at hv
    | some alg =>
      simp only [halg] at hv
      cases hclaims : lib.decodeClaims (String.mk c) with
      | none => simp [hclaims] at hv
      | some claims =>
        simp only [hclaims] at hv
        by_cases hm : alg = "HS256" ∨ alg = "HS384" ∨ alg = "HS512"
        · refine ⟨h, c, sig, alg, claims, hsplit, halg, hclaims, hm, ?_⟩
          simp only [getSigningMethod, hm, if_true] at hv
          by_cases hc : claims.valid lib now = true
          · refine ⟨hc, ?_⟩
            simp only [hc, Bool.true_and, hmacVerify] at hv
            cases hd : lib.decodeSegment (String.mk sig) with
            | none => simp [hd] at hv
            | some sg =>
              simp only [hd] at hv
              by_cases he : sg = lib.hmac alg secret (String.mk h ++ "." ++ String.mk c)
              · rw [he]
              · simp [he] at hv
          · simp [hc] at hv
        · simp only [getSigningMethod, hm, if_false] at hv
          by_cases ho : alg ∈ ["RS256", "RS384", "RS512", "ES256", "ES384", "ES512", "PS256",
              "PS384", "PS512", "EdDSA", "none"]
          · simp [ho] at hv
          · simp [ho] at hv
  · rintro ⟨h, c, sig, alg, claims, hsplit, halg, hclaims, hm, hvalid, hsig⟩
    simp only [verifyToken, parseWithClaims]
    rw [hsplit]
    simp [halg, hclaims, getSigningMethod, hm, hvalid, hmacVerify, hsig]



/-! ## Merging metadata -/

/-- The step of `updateMetadata` for one entry of `newMeta`. -/
theorem updateStep_lookup (old : Meta) (kv : Σ _ : String, String) (k : String) :
    (if kv.2 ≠ "" then old.insert kv.1 kv.2 else old.erase kv.1).lookup k =
      if k = kv.1 then (if kv.2 ≠ "" then some kv.2 else none) else old.lookup k := by
  by_cases hk : k = kv.1
  · subst hk
    by_cases hv : kv.2 = ""
    · simp [hv]
    · simp [hv]
  · by_cases hv : kv.2 = ""
    · simp [hv, hk, AList.lookup_erase_ne hk]
    · simp [hv, hk, AList.lookup_insert_ne hk]

/-- Folding the steps of `updateMetadata` over entries with distinct keys: a key of the
entries ends with its non-empty value or absent, any other key keeps what it had. -/
theorem updateFold_lookup (l : List (Σ _ : String, String)) (hl : l.NodupKeys)
    (old : Meta) (k : String) :
    (l.foldl (fun old kv => if kv.2 ≠ "" then old.insert kv.1 kv.2 else old.erase kv.1)
        old).lookup k =
      match l.dlookup k with
      | some v => if v ≠ "" then some v else none
      | none => old.lookup k := by
  induction l generalizing old with
  | nil => simp
  | cons kv rest ih =>
    obtain ⟨hnot, hrest⟩ := List.nodupKeys_cons.mp hl
    rw [List.foldl_cons, ih hrest]
    by_cases hk : k = kv.1
    · subst hk
      have h1 : List.dlookup kv.1 rest = none := List.dlookup_eq_none.mpr hnot
      have h2 : List.dlookup kv.1 (kv :: rest) = some kv.2 := by
        cases kv; exact List.dlookup_cons_eq _ _ _
      rw [h1, h2]
      simp only []
      rw [updateStep_lookup]
      simp
    · rw [List.dlookup_cons_ne _ kv hk]
      cases hr : List.dlookup k rest with
      | some v => simp
      | none =>
        simp only []
        rw [updateStep_lookup]
        simp [hk]

/-- What `updateMetadata` leaves under each key. -/
theorem updateMetadata_lookup (existing incoming : Meta) (k : String) :
    (updateMetadata existing incoming).lookup k =
      match incoming.lookup k with
      | some v => if v ≠ "" then some v else none
      | none => existing.lookup k :=
  updateFold_lookup incoming.entries incoming.nodupKeys existing k


/-! ## Paths -/

theorem splitOn_ne_nil (sep : Char) (l : List Char) : splitOn sep l ≠ [] := by
  induction l with
  | nil => simp [splitOn]
  | cons c cs ih =>
    unfold splitOn
    split
    · simp
    · split
      · simp
      · simp

theorem splitOn_append_sep (sep : Char) (a b : List Char) :
    splitOn sep (a ++ sep :: b) = splitOn sep a ++ splitOn sep b := by
  induction a with
  | nil => simp [splitOn]
  | cons c cs ih =>
    by_cases hc : c = sep
    · simp [splitOn, hc, ih]
    · have hne := splitOn_ne_nil sep cs
      cases hs : splitOn sep cs with
      | nil => exact absurd hs hne
      | cons seg segs => simp [splitOn, hc, ih, hs]

theorem not_mem_of_mem_splitOn (sep : Char) (l : List Char) :
    ∀ seg ∈ splitOn sep l, sep ∉ seg := by
  induction l with
  | nil => simp [splitOn]
  | cons c cs ih =>
    intro seg hseg
    by_cases hc : c = sep
    · simp only [splitOn, hc, if_true, List.mem_cons] at hseg
      rcases hseg with h | h
      · simp [h]
      · exact ih seg h
    · have hne := splitOn_ne_nil sep cs
      cases hs : splitOn sep cs with
      | nil => exact absurd hs hne
      | cons s1 segs =>
        simp only [splitOn, hc, if_false, hs, List.mem_cons] at hseg
        rw [hs] at ih
        rcases hseg with h | h
        · subst h
          intro hm
          rcases List.mem_cons.mp hm with h1 | h1
          · exact hc h1.symm
          · exact ih s1 (by simp) h1
        · exact ih seg (by simp [h])

theorem cleanChars_eq (p : List Char) :
    cleanChars p = renderPath (rootedOf p) (stackOf p) := by
  unfold cleanChars
  by_cases hp : p = []
  · subst hp
    decide
  · simp [hp, rootedOf, stackOf]

theorem cleanStep_normal (ro : Bool) (S : List (List Char)) (x : List Char)
    (hx : NormalSeg x) : cleanStep ro S x = x :: S := by
  obtain ⟨h1, _, h3, h4⟩ := hx
  simp [cleanStep, h1, h3, show x ≠ ['.', '.'] from h4]

theorem cleanStep_skip (ro : Bool) (S : List (List Char)) (x : List Char)
    (hx : x = [] ∨ x = ['.']) : cleanStep ro S x = S := by
  simp [cleanStep, hx]

theorem NF_cleanStep (ro : Bool) (S : List (List Char)) (x : List Char) (hS : NF ro S)
    (hx : '/' ∉ x) : NF ro (cleanStep ro S x) := by
  by_cases h1 : x = [] ∨ x = ['.']
  · rw [cleanStep_skip ro S x h1]
    exact hS
  · by_cases h2 : x = dotdot
    · subst h2
      cases hS with
      | nil =>
        cases ro
        · exact NF.dots [] rfl (by simp) NF.nil
        · exact NF.nil
      | dots S0 hro hall hS0 =>
        subst hro
        have : cleanStep false (dotdot :: S0) dotdot = dotdot :: dotdot :: S0 := by
          simp [cleanStep, dotdot]
        rw [this]
        exact NF.dots _ rfl (by
          intro y hy
          rcases List.mem_cons.mp hy with h | h
          · exact h
          · exact hall y h) (NF.dots S0 rfl hall hS0)
      | seg top rest htop hrest =>
        have hne : top ≠ ['.', '.'] := htop.2.2.2
        have : cleanStep ro (top :: rest) dotdot = rest := by
          simp [cleanStep, dotdot, hne]
        rw [this]
        exact hrest
    · have hn : NormalSeg x := by
        refine ⟨?_, hx, ?_, h2⟩
        · exact fun e => h1 (Or.inl e)
        · exact fun e => h1 (Or.inr e)
      rw [cleanStep_normal ro S x hn]
      exact NF.seg x S hn hS

theorem NF_foldl (ro : Bool) (segs : List (List Char)) (S : List (List Char)) (hS : NF ro S)
    (hsegs : ∀ x ∈ segs, '/' ∉ x) : NF ro (segs.foldl (cleanStep ro) S) := by
  induction segs generalizing S with
  | nil => exact hS
  | cons x rest ih =>
    rw [List.foldl_cons]
    exact ih _ (NF_cleanStep ro S x hS (hsegs x (by simp)))
      (fun y hy => hsegs y (by simp [hy]))

theorem NF_stackOf (p : List Char) : NF (rootedOf p) (stackOf p) :=
  NF_foldl _ _ [] NF.nil (not_mem_of_mem_splitOn '/' p)

theorem NF_all_dots (S : List (List Char)) (h : ∀ y ∈ S, y = dotdot) : NF false S := by
  induction S with
  | nil => exact NF.nil
  | cons y rest ih =>
    have hy : y = dotdot := h y (by simp)
    subst hy
    exact NF.dots rest rfl (fun z hz => h z (by simp [hz])) (ih fun z hz => h z (by simp [hz]))

/-- Every element of an output buffer is non-empty and has no `/`. -/
theorem NF_mem (ro : Bool) (S : List (List Char)) (hS : NF ro S) :
    ∀ y ∈ S, y ≠ [] ∧ '/' ∉ y := by
  induction hS with
  | nil => simp
  | dots S0 _ hall _ _ =>
    intro y hy
    have : y = dotdot := by
      rcases List.mem_cons.mp hy with h | h
      · exact h
      · exact hall y h
    subst this
    decide
  | seg x S0 hx _ ih =>
    intro y hy
    rcases List.mem_cons.mp hy with h | h
    · subst h
      exact ⟨hx.1, hx.2.1⟩
    · exact ih y h

/-- The function `Clean` leaves its own output buffer as it is. -/
theorem cleanStack_fixed (ro : Bool) (S : List (List Char)) (hS : NF ro S) :
    S.reverse.foldl (cleanStep ro) [] = S := by
  induction hS with
  | nil => rfl
  | dots S0 hro hall _ ih =>
    subst hro
    rw [List.reverse_cons, List.foldl_append, ih]
    cases S0 with
    | nil => simp [cleanStep, dotdot]
    | cons top rest =>
      have : top = dotdot := hall top (by simp)
      subst this
      simp [cleanStep, dotdot]
  | seg x S0 hx _ ih =>
    rw [List.reverse_cons, List.foldl_append, ih]
    simp [cleanStep_normal ro S0 x hx]



theorem joinSlash_snoc (L : List (List Char)) (x : List Char) (hL : L ≠ []) :
    joinSlash (L ++ [x]) = joinSlash L ++ '/' :: x := by
  induction L with
  | nil => exact absurd rfl hL
  | cons a rest ih =>
    cases rest with
    | nil => simp [joinSlash]
    | cons b rest2 =>
      have := ih (by simp)
      simp only [List.cons_append] at this ⊢
      simp [joinSlash, this]

theorem splitOn_joinSlash (L : List (List Char)) (hL : L ≠ []) (h : ∀ y ∈ L, '/' ∉ y) :
    splitOn '/' (joinSlash L) = L := by
  induction L with
  | nil => exact absurd rfl hL
  | cons a rest ih =>
    cases rest with
    | nil => simpa [joinSlash] using splitOn_of_not_mem '/' a (h a (by simp))
    | cons b rest2 =>
      have h2 := ih (by simp) (fun y hy => h y (by simp [hy]))
      simp only [joinSlash]
      rw [splitOn_append '/' a _ (h a (by simp)), h2]

theorem joinSlash_head (a : List Char) (rest : List (List Char)) (ha : a ≠ []) :
    (joinSlash (a :: rest)).head? = a.head? := by
  cases a with
  | nil => exact absurd rfl ha
  | cons c cs =>
    cases rest with
    | nil => simp [joinSlash]
    | cons b rest2 => simp [joinSlash]

theorem joinSlash_ne_nil (a : List Char) (rest : List (List Char)) (ha : a ≠ []) :
    joinSlash (a :: rest) ≠ [] := by
  intro h
  have := joinSlash_head a rest ha
  rw [h] at this
  cases a with
  | nil => exact ha rfl
  | cons c cs => simp at this

/-- The body of a non-empty output buffer is not empty. -/
theorem body_ne_nil (ro : Bool) (S : List (List Char)) (hS : NF ro S) (hne : S ≠ []) :
    joinSlash S.reverse ≠ [] := by
  have hmem := NF_mem ro S hS
  cases hr : S.reverse with
  | nil => simp at hr; exact absurd hr hne
  | cons a rest =>
    have ha : a ∈ S := by
      have : a ∈ S.reverse := by rw [hr]; simp
      simpa using this
    exact joinSlash_ne_nil a rest (hmem a ha).1

theorem body_head (ro : Bool) (S : List (List Char)) (hS : NF ro S) (hne : S ≠ []) :
    (joinSlash S.reverse).head? ≠ some '/' := by
  have hmem := NF_mem ro S hS
  cases hr : S.reverse with
  | nil => simp at hr; exact absurd hr hne
  | cons a rest =>
    have ha : a ∈ S := by
      have : a ∈ S.reverse := by rw [hr]; simp
      simpa using this
    rw [joinSlash_head a rest (hmem a ha).1]
    intro h
    apply (hmem a ha).2
    cases a with
    | nil => simp at h
    | cons c cs =>
      simp only [List.head?_cons, Option.some.injEq] at h
      simp [h]

/-- The string of a buffer with one more element: the string of the buffer, `/`, and the
element. -/
theorem renderPath_cons (ro : Bool) (S : List (List Char)) (x : List Char) (hS : NF ro S)
    (hne : S ≠ []) : renderPath ro (x :: S) = renderPath ro S ++ '/' :: x := by
  have hb := body_ne_nil ro S hS hne
  have hr : S.reverse ≠ [] := by simpa using hne
  simp only [renderPath, List.reverse_cons]
  rw [joinSlash_snoc _ _ hr]
  cases ro
  · simp [hb]
  · simp

theorem dropWhile_upto (a b : List Char) (h : '/' ∉ a) :
    (a ++ '/' :: b).dropWhile (fun c => c ≠ '/') = '/' :: b := by
  induction a with
  | nil => simp [List.dropWhile]
  | cons c cs ih =>
    have hc : c ≠ '/' := fun e => h (by simp [e])
    have hcs : '/' ∉ cs := fun e => h (by simp [e])
    rw [List.cons_append, List.dropWhile_cons, if_pos (by simp [hc])]
    exact ih hcs

theorem dropWhile_all (a : List Char) (h : '/' ∉ a) :
    a.dropWhile (fun c => c ≠ '/') = [] := by
  induction a with
  | nil => rfl
  | cons c cs ih =>
    have hc : c ≠ '/' := fun e => h (by simp [e])
    have hcs : '/' ∉ cs := fun e => h (by simp [e])
    rw [List.dropWhile_cons, if_pos (by simp [hc])]
    exact ih hcs

theorem dirPart_append (l x : List Char) (hx : '/' ∉ x) :
    dirPart (l ++ '/' :: x) = l ++ ['/'] := by
  unfold dirPart
  have : (l ++ '/' :: x).reverse = x.reverse ++ '/' :: l.reverse := by simp
  rw [this, dropWhile_upto _ _ (by simpa using hx)]
  simp

theorem dirPart_of_not_mem (x : List Char) (hx : '/' ∉ x) : dirPart x = [] := by
  unfold dirPart
  rw [dropWhile_all _ (by simpa using hx)]
  rfl

theorem foldl_skip_last (ro : Bool) (L : List (List Char)) :
    (L ++ [[]]).foldl (cleanStep ro) [] = L.foldl (cleanStep ro) [] := by
  rw [List.foldl_append]
  simp [cleanStep]

/-- The `Dir` of a cleaned path with a kept last element is the cleaned path without it. -/
theorem cleanChars_dirPart_render (ro : Bool) (S : List (List Char)) (x : List Char)
    (hS : NF ro S) (hx : NormalSeg x) :
    cleanChars (dirPart (renderPath ro (x :: S))) = renderPath ro S := by
  have hxs : '/' ∉ x := hx.2.1
  have hmem := NF_mem ro S hS
  by_cases hne : S = []
  · subst hne
    cases ro
    · have : renderPath false [x] = x := by simp [renderPath, joinSlash, hx.1]
      rw [this, dirPart_of_not_mem x hxs]
      decide
    · have : renderPath true [x] = [] ++ '/' :: x := by simp [renderPath, joinSlash]
      rw [this, dirPart_append [] x hxs]
      decide
  · rw [renderPath_cons ro S x hS hne, dirPart_append _ _ hxs, cleanChars_eq]
    have hb := body_ne_nil ro S hS hne
    have hh := body_head ro S hS hne
    have hr : S.reverse ≠ [] := by simpa using hne
    have hsl : ∀ y ∈ S.reverse, '/' ∉ y := fun y hy => (hmem y (by simpa using hy)).2
    cases ro
    · have e1 : renderPath false S = joinSlash S.reverse := by simp [renderPath, hb]
      have e2 : rootedOf (joinSlash S.reverse ++ ['/']) = false := by
        cases hj : joinSlash S.reverse with
        | nil => exact absurd hj hb
        | cons c cs =>
          rw [hj] at hh
          simpa [rootedOf] using hh
      rw [e1]
      unfold stackOf
      rw [e2, splitOn_append_sep, splitOn_joinSlash _ hr hsl]
      simp only [splitOn, cleanStack]
      rw [foldl_skip_last, cleanStack_fixed false S hS]
      simp [renderPath, hb]
    · have e1 : renderPath true S = '/' :: joinSlash S.reverse := by simp [renderPath]
      rw [e1]
      have e2 : rootedOf ('/' :: joinSlash S.reverse ++ ['/']) = true := by simp [rootedOf]
      unfold stackOf
      rw [e2]
      have e3 : splitOn '/' ('/' :: joinSlash S.reverse ++ ['/'])
          = [] :: (S.reverse ++ [[]]) := by
        have : ('/' :: joinSlash S.reverse ++ ['/'])
            = [] ++ '/' :: (joinSlash S.reverse ++ '/' :: []) := by simp
        rw [this, splitOn_append_sep, splitOn_append_sep, splitOn_joinSlash _ hr hsl]
        simp [splitOn]
      rw [e3]
      simp only [cleanStack, List.foldl_cons]
      have e4 : cleanStep true [] [] = [] := by simp [cleanStep]
      rw [e4, foldl_skip_last, cleanStack_fixed true S hS]
      exact e1



theorem toList_ne_nil (x : String) (h : x ≠ "") : x.toList ≠ [] := by
  intro e
  apply h
  exact String.ext e

theorem PlainName.normal {x : String} (h : PlainName x) : NormalSeg x.toList := by
  obtain ⟨h1, h2, h3, h4⟩ := h
  refine ⟨toList_ne_nil x h1, h2, ?_, ?_⟩
  · intro e
    exact h3 (String.ext e)
  · intro e
    exact h4 (String.ext e)

theorem NormalSeg.head {x : List Char} (h : NormalSeg x) : x.head? ≠ some '/' := by
  obtain ⟨h1, h2, _, _⟩ := h
  cases x with
  | nil => simp
  | cons c cs =>
    intro e
    simp only [List.head?_cons, Option.some.injEq] at e
    exact h2 (by simp [e])

/-- The characters of `filepath.Join(R, t)` for a relative, non-empty `t`: the elements of
`t` applied to the output buffer of `R`. -/
theorem filepathJoin_two_chars (R t : String) (ht : t.toList ≠ [])
    (hh : t.toList.head? ≠ some '/') :
    (filepathJoin [R, t]).toList
      = renderPath (rootedOf R.toList)
          ((splitOn '/' t.toList).foldl (cleanStep (rootedOf R.toList)) (stackOf R.toList)) := by
  have htne : t ≠ "" := by
    intro e
    subst e
    exact ht rfl
  by_cases hR : R = ""
  · subst hR
    have e1 : filepathJoin ["", t] = String.mk (cleanChars t.toList) := by
      simp [filepathJoin, htne, joinSlash]
    rw [e1]
    show cleanChars t.toList = _
    rw [cleanChars_eq]
    have e2 : rootedOf t.toList = false := by simpa [rootedOf] using hh
    have e3 : rootedOf ("" : String).toList = false := by decide
    have e4 : stackOf ("" : String).toList = [] := by decide
    rw [e3, e4]
    unfold stackOf cleanStack
    rw [e2]
  · have hRl : R.toList ≠ [] := toList_ne_nil R hR
    have e1 : filepathJoin [R, t] = String.mk (cleanChars (R.toList ++ '/' :: t.toList)) := by
      simp [filepathJoin, hR, joinSlash]
    rw [e1]
    show cleanChars (R.toList ++ '/' :: t.toList) = _
    rw [cleanChars_eq]
    have e2 : rootedOf (R.toList ++ '/' :: t.toList) = rootedOf R.toList := by
      cases hl : R.toList with
      | nil => exact absurd hl hRl
      | cons c cs => simp [rootedOf]
    unfold stackOf cleanStack
    rw [e2, splitOn_append_sep, List.foldl_append]

/-- The characters of the path of a container. -/
theorem join_container_chars (R T : String) (hT : PlainName T) :
    (filepathJoin [R, T]).toList
      = renderPath (rootedOf R.toList) (T.toList :: stackOf R.toList) := by
  have hn := hT.normal
  rw [filepathJoin_two_chars R T hn.1 hn.head, splitOn_of_not_mem '/' _ hn.2.1]
  simp only [List.foldl_cons, List.foldl_nil]
  rw [cleanStep_normal _ _ _ hn]

theorem NF_container (R T : String) (hT : PlainName T) :
    NF (rootedOf R.toList) (T.toList :: stackOf R.toList) :=
  NF.seg _ _ hT.normal (NF_stackOf R.toList)

/-- The path of an entry of a container is the path of the container, `/`, and the name
of the entry. -/
theorem join_child (R T x : String) (hT : PlainName T) (hx : NormalSeg x.toList) :
    filepathJoin [R, T ++ "/" ++ x] = filepathJoin [R, T] ++ "/" ++ x := by
  apply String.ext
  have hn := hT.normal
  have e0 : (T ++ "/" ++ x).toList = T.toList ++ '/' :: x.toList := by
    simp [String.toList]
  have e1 : (filepathJoin [R, T] ++ "/" ++ x).toList
      = (filepathJoin [R, T]).toList ++ '/' :: x.toList := by
    simp [String.toList]
  show (filepathJoin [R, T ++ "/" ++ x]).toList = (filepathJoin [R, T] ++ "/" ++ x).toList
  rw [e1, join_container_chars R T hT, filepathJoin_two_chars R _ (by rw [e0]; simp [hn.1])
    (by
      rw [e0]
      cases hl : T.toList with
      | nil => exact absurd hl hn.1
      | cons c cs =>
        have := hn.head
        rw [hl] at this
        simpa using this),
    e0, splitOn_append '/' _ _ hn.2.1, splitOn_of_not_mem '/' _ hx.2.1]
  simp only [List.foldl_cons, List.foldl_nil]
  rw [cleanStep_normal _ _ _ hn, cleanStep_normal _ _ _ hx,
    renderPath_cons _ _ _ (NF_container R T hT) (by simp)]

/-- The `Dir` of the path of a container is the cleaned storage root. -/
theorem pathDir_container (R T : String) (hT : PlainName T) :
    pathDir (filepathJoin [R, T]) = filepathClean R := by
  apply String.ext
  show cleanChars (dirPart (filepathJoin [R, T]).toList) = cleanChars R.toList
  rw [join_container_chars R T hT,
    cleanChars_dirPart_render _ _ _ (NF_stackOf R.toList) hT.normal, cleanChars_eq]

/-- The `Dir` of the path of an entry of a container is the path of the container. -/
theorem pathDir_child (R T x : String) (hT : PlainName T) (hx : NormalSeg x.toList) :
    pathDir (filepathJoin [R, T] ++ "/" ++ x) = filepathJoin [R, T] := by
  apply String.ext
  have e1 : (filepathJoin [R, T] ++ "/" ++ x).toList
      = (filepathJoin [R, T]).toList ++ '/' :: x.toList := by
    simp [String.toList]
  show cleanChars (dirPart (filepathJoin [R, T] ++ "/" ++ x).toList) = (filepathJoin [R, T]).toList
  rw [e1, join_container_chars R T hT,
    ← renderPath_cons _ _ _ (NF_container R T hT) (by simp),
    cleanChars_dirPart_render _ _ _ (NF_container R T hT) hx]

/-- The `filepath.Join` of three elements, the second not empty. -/
theorem join_three (R T c : String) (hT : T ≠ "") :
    filepathJoin [R, T, c] = filepathJoin [R, T ++ "/" ++ c] := by
  by_cases hR : R = ""
  · subst hR
    have hne : T ++ "/" ++ c ≠ "" := by
      intro e
      have := congrArg String.length e
      simp at this
      exact absurd this.1.2 (by decide)
    simp [filepathJoin, hT, hne, joinSlash, String.toList]
  · simp [filepathJoin, hR, joinSlash, String.toList]

/-- The path `filepath.Join(T, T)` for a name. -/
theorem join_self (T : String) (hT : PlainName T) : filepathJoin [T, T] = T ++ "/" ++ T := by
  apply String.ext
  have hn := hT.normal
  have e1 : (T ++ "/" ++ T).toList = T.toList ++ '/' :: T.toList := by
    simp [String.toList]
  show (filepathJoin [T, T]).toList = (T ++ "/" ++ T).toList
  rw [e1, filepathJoin_two_chars T T hn.1 hn.head, splitOn_of_not_mem '/' _ hn.2.1]
  have e2 : rootedOf T.toList = false := by simpa [rootedOf] using hn.head
  have e3 : stackOf T.toList = [T.toList] := by
    unfold stackOf cleanStack
    rw [splitOn_of_not_mem '/' _ hn.2.1]
    simp only [List.foldl_cons, List.foldl_nil]
    rw [cleanStep_normal _ _ _ hn]
  rw [e2, e3]
  simp only [List.foldl_cons, List.foldl_nil]
  rw [cleanStep_normal _ _ _ hn]
  simp [renderPath, joinSlash, hn.1]



/-! ## Names and sidecar paths -/

theorem normalSeg_of_long (x : List Char) (h1 : '/' ∉ x) (h2 : 3 ≤ x.length) :
    NormalSeg x := by
  refine ⟨?_, h1, ?_, ?_⟩
  · intro e; subst e; simp at h2
  · intro e; subst e; simp at h2
  · intro e; subst e; simp [dotdot] at h2

theorem stringsSplit_name (T : String) (h : '/' ∉ T.toList) : stringsSplit T '/' = [T] := by
  unfold stringsSplit
  rw [splitOn_of_not_mem '/' _ h]
  rfl

theorem stringsSplit_pair (C O : String) (hC : '/' ∉ C.toList) (hO : '/' ∉ O.toList) :
    stringsSplit (C ++ "/" ++ O) '/' = [C, O] := by
  unfold stringsSplit
  have e : (C ++ "/" ++ O).toList = C.toList ++ '/' :: O.toList := by simp [String.toList]
  rw [e, splitOn_append '/' _ _ hC, splitOn_of_not_mem '/' _ hO]
  rfl

/-- The name of the sidecar of a container is a path element that `Clean` keeps. -/
theorem normalSeg_sidecar (T : String) (h : '/' ∉ T.toList) :
    NormalSeg (T ++ ".metadata.json").toList := by
  apply normalSeg_of_long
  · have e : (T ++ ".metadata.json").toList = T.toList ++ ".metadata.json".toList := by
      simp [String.toList]
    rw [e]
    intro hm
    rcases List.mem_append.mp hm with h1 | h1
    · exact h h1
    · revert h1; decide
  · have e : (T ++ ".metadata.json").toList = T.toList ++ ".metadata.json".toList := by
      simp [String.toList]
    rw [e, List.length_append]
    have : ".metadata.json".toList.length = 14 := by decide
    omega

/-- The name of the sidecar of an object is a path element that `Clean` keeps. -/
theorem normalSeg_objectSidecar (C O : String) (hC : '/' ∉ C.toList) (hO : '/' ∉ O.toList) :
    NormalSeg (C ++ "." ++ O ++ ".metadata.json").toList := by
  have e : (C ++ "." ++ O ++ ".metadata.json").toList
      = C.toList ++ '.' :: (O.toList ++ ".metadata.json".toList) := by
    simp [String.toList]
  apply normalSeg_of_long
  · rw [e]
    intro hm
    rcases List.mem_append.mp hm with h1 | h1
    · exact hC h1
    · rcases List.mem_cons.mp h1 with h2 | h2
      · revert h2; decide
      · rcases List.mem_append.mp h2 with h3 | h3
        · exact hO h3
        · revert h3; decide
  · rw [e]
    simp only [List.length_append, List.length_cons]
    have : ".metadata.json".toList.length = 14 := by decide
    omega

/-- The sidecar of a container with a plain name, as `getMetadataFilePath` computes it. -/
theorem getMetadataFilePath_container (s : Server) (T : String) (hT : PlainName T) :
    s.getMetadataFilePath T
      = (filepathJoin [s.settings.StorageLocation, T] ++ "/" ++ (T ++ ".metadata.json"),
          true, none) := by
  unfold Server.getMetadataFilePath
  rw [stringsSplit_name T hT.2.1]
  simp only [List.length_singleton, List.headD_cons]
  rw [join_self T hT]
  have e : T ++ "/" ++ T ++ ".metadata.json" = T ++ "/" ++ (T ++ ".metadata.json") := by
    simp [String.append_assoc]
  simp only [show ¬ (1 > 2) by decide, show ¬ (1 > 1) by decide, if_false]
  rw [e, join_child _ T _ hT (normalSeg_sidecar T hT.2.1)]

/-- The sidecar of an object with plain names, as `getMetadataFilePath` computes it. -/
theorem getMetadataFilePath_object (s : Server) (C O : String) (hC : PlainName C)
    (hO : '/' ∉ O.toList) :
    s.getMetadataFilePath (C ++ "/" ++ O)
      = (filepathJoin [s.settings.StorageLocation, C] ++ "/"
            ++ (C ++ "." ++ O ++ ".metadata.json"), false, none) := by
  unfold Server.getMetadataFilePath
  rw [stringsSplit_pair C O hC.2.1 hO]
  simp only [List.length_cons, List.length_nil, List.headD_cons]
  rw [join_self C hC]
  have e : C ++ "/" ++ C ++ "." ++ [C, O].getD 1 "" ++ ".metadata.json"
      = C ++ "/" ++ (C ++ "." ++ O ++ ".metadata.json") := by
    simp [String.append_assoc]
  simp only [show ¬ (0 + 1 + 1 > 2) by decide, show (0 + 1 + 1 > 1) by decide, if_false,
    if_true]
  rw [e, join_child _ C _ hC (normalSeg_objectSidecar C O hC.2.1 hO)]


/-! ## System calls -/

@[simp] theorem FS.set_same (fs : FS) (p : String) (n : Node) : (fs.set p n) p = some n := by
  simp [FS.set]

theorem FS.set_other (fs : FS) (p q : String) (n : Node) (h : q ≠ p) :
    (fs.set p n) q = fs q := by
  simp [FS.set, h]

/-- The call `os.Create` succeeds on a path that names no directory and that exists or lies in a
directory. -/
theorem osCreate_ok (fs : FS) (p : String) (h1 : fs p ≠ some Node.dir)
    (h2 : fs p ≠ none ∨ fs (pathDir p) = some Node.dir) :
    osCreate fs p = .ok (fs.set p (Node.file "")) := by
  unfold osCreate
  cases hp : fs p with
  | none =>
    rcases h2 with h | h
    · exact absurd hp h
    · simp [h]
  | some n =>
    cases n with
    | dir => exact absurd hp h1
    | file c => rfl

/-- The call `os.Create` changes at most the path it is given. -/
theorem osCreate_frame (fs fs1 : FS) (p q : String) (h : osCreate fs p = .ok fs1)
    (hq : q ≠ p) : fs1 q = fs q := by
  unfold osCreate at h
  cases hp : fs p with
  | none =>
    rw [hp] at h
    cases hd : fs (pathDir p) with
    | none => rw [hd] at h; simp at h
    | some n =>
      rw [hd] at h
      cases n with
      | dir =>
        simp only [Except.ok.injEq] at h
        rw [← h, FS.set_other _ _ _ _ hq]
      | file c => simp at h
  | some n =>
    rw [hp] at h
    cases n with
    | dir => simp at h
    | file c =>
      simp only [Except.ok.injEq] at h
      rw [← h, FS.set_other _ _ _ _ hq]

/-- The function `storeMetadata` changes at most the file it is given. -/
theorem storeMetadata_frame (lib : Lib) (fs : FS) (p q : String) (m : GoMap) (hq : q ≠ p) :
    (storeMetadata lib fs p m).2 q = fs q := by
  unfold storeMetadata
  cases hc : osCreate fs p with
  | error e => rfl
  | ok fs1 =>
    simp only [writeFile]
    rw [FS.set_other _ _ _ _ hq, osCreate_frame fs fs1 p q hc hq]

@[simp] theorem marshalMap_map (lib : Lib) (m : Meta) :
    lib.marshalMap (GoMap.map m) = lib.jsonMarshalIndent m := rfl

@[simp] theorem marshalMap_nil (lib : Lib) : lib.marshalMap GoMap.nil = "null" := rfl

/-- The function `storeMetadata` on a path that `os.Create` accepts: no error, and the file holds
the serialised mapping. -/
theorem storeMetadata_ok (lib : Lib) (fs : FS) (p : String) (m : GoMap)
    (h1 : fs p ≠ some Node.dir) (h2 : fs p ≠ none ∨ fs (pathDir p) = some Node.dir) :
    (storeMetadata lib fs p m).1 = none
    ∧ (storeMetadata lib fs p m).2 p = some (Node.file (lib.marshalMap m)) := by
  unfold storeMetadata
  rw [osCreate_ok fs p h1 h2]
  simp [writeFile]

/-- The function `backupMetadata` changes at most the backup file. -/
theorem backupMetadata_frame (fs : FS) (p q : String) (hq : q ≠ p ++ ".bac") :
    (backupMetadata fs p).2 q = fs q := by
  unfold backupMetadata
  cases hc : osCreate fs (p ++ ".bac") with
  | error e => rfl
  | ok fs1 =>
    simp only []
    cases ho : osOpen fs1 p with
    | error e => exact osCreate_frame fs fs1 _ q hc hq
    | ok f =>
      simp only []
      cases hr : readAll f with
      | error e => exact osCreate_frame fs fs1 _ q hc hq
      | ok data =>
        simp only [writeFile]
        rw [FS.set_other _ _ _ _ hq, osCreate_frame fs fs1 _ q hc hq]

theorem getTarget_of_path (r : Request) (C : String) (h : r.Path = "/v1.0/abc/" ++ C) :
    getTarget r = replaceAll C ':' '_' := by
  unfold getTarget
  rw [h]
  have e : ("/v1.0/abc/" ++ C).toList = "/v1.0/abc/".toList ++ C.toList := by
    simp [String.toList]
  have e2 : RootStorageEndpoint.length + 1 = "/v1.0/abc/".toList.length := by decide
  rw [e, e2, List.drop_left]
  rfl

theorem replaceAll_plain (C : String) (h : PlainName C) : PlainName (replaceAll C ':' '_') := by
  obtain ⟨h1, h2, h3, h4⟩ := h
  have hl : (replaceAll C ':' '_').toList
      = C.toList.map (fun c => if c = ':' then '_' else c) := rfl
  have hf : ∀ c d : Char, d ≠ ':' → d ≠ '_' → (if c = ':' then '_' else c) = d → c = d := by
    intro c d hd1 hd2 hc
    by_cases hcc : c = ':'
    · rw [if_pos hcc] at hc
      exact absurd hc.symm hd2
    · rw [if_neg hcc] at hc
      exact hc
  refine ⟨?_, ?_, ?_, ?_⟩
  · intro e
    have := congrArg String.toList e
    rw [hl] at this
    have hnil : C.toList = [] := by simpa using this
    exact h1 (String.ext hnil)
  · rw [hl]
    intro hm
    obtain ⟨c, hc, hcs⟩ := List.mem_map.mp hm
    have := hf c '/' (by decide) (by decide) hcs
    subst this
    exact h2 hc
  · intro e
    have := congrArg String.toList e
    rw [hl] at this
    apply h3
    apply String.ext
    show C.toList = ['.']
    cases hC : C.toList with
    | nil => rw [hC] at this; simp at this
    | cons c cs =>
      rw [hC] at this
      cases cs with
      | nil =>
        simp only [List.map_cons, List.map_nil] at this
        have hh : (if c = ':' then '_' else c) = '.' := by
          have := List.head_eq_of_cons_eq this
          exact this
        rw [hf c '.' (by decide) (by decide) hh]
      | cons d ds => simp at this
  · intro e
    have := congrArg String.toList e
    rw [hl] at this
    apply h4
    apply String.ext
    show C.toList = ['.', '.']
    cases hC : C.toList with
    | nil => rw [hC] at this; simp at this
    | cons c cs =>
      rw [hC] at this
      cases cs with
      | nil => simp at this
      | cons d ds =>
        cases ds with
        | nil =>
          simp only [List.map_cons, List.map_nil] at this
          have e1 : (if c = ':' then '_' else c) = '.' := by
            have := List.head_eq_of_cons_eq this
            exact this
          have e2 : (if d = ':' then '_' else d) = '.' := by
            have := List.tail_eq_of_cons_eq this
            exact List.head_eq_of_cons_eq this
          rw [hf c '.' (by decide) (by decide) e1, hf d '.' (by decide) (by decide) e2]
        | cons x xs => simp at this

/-! ## Storing the metadata of a container -/

theorem loadMetadata_file (lib : Lib) (fs : FS) (p B : String)
    (h : fs p = some (Node.file B)) :
    loadMetadata lib fs p =
      match lib.jsonUnmarshal B with
      | none => .error GoError.jsonError
      | some m => .ok m := by
  simp only [loadMetadata, osOpen, h, readAll]

/-- A map that `loadMetadata` returns is what decoding the bytes of the file gives. -/
theorem loadMetadata_ok_file (lib : Lib) (fs : FS) (p : String) (g : GoMap)
    (h : loadMetadata lib fs p = .ok g) :
    ∃ B, fs p = some (Node.file B) ∧ lib.jsonUnmarshal B = some g := by
  cases hm : fs p with
  | none => simp [loadMetadata, osOpen, hm] at h
  | some n =>
    cases n with
    | dir => simp [loadMetadata, osOpen, hm, readAll] at h
    | file B =>
      refine ⟨B, rfl, ?_⟩
      rw [loadMetadata_file lib fs p B hm] at h
      cases hu : lib.jsonUnmarshal B with
      | none => rw [hu] at h; simp at h
      | some m =>
        rw [hu] at h
        simp only [Except.ok.injEq] at h
        rw [h]

@[simp] theorem updateMap_map (O M : Meta) :
    updateMap (GoMap.map O) M = some (GoMap.map (updateMetadata O M)) := rfl

/-- The function `updateMap` panics on the nil map only. -/
theorem updateMap_ne_nil (g : GoMap) (M : Meta) (h : g ≠ GoMap.nil) :
    ∃ O, g = GoMap.map O ∧ updateMap g M = some (GoMap.map (updateMetadata O M)) := by
  cases g with
  | nil => exact absurd rfl h
  | map O => exact ⟨O, rfl, rfl⟩

/-- The function `handlePutMetadata` on a container, once the path of its sidecar is known. -/
theorem handlePutMetadata_container (lib : Lib) (s : Server) (fs : FS) (r : Request)
    (T M : String) (h : s.getMetadataFilePath T = (M, true, none)) :
    s.handlePutMetadata lib fs r T =
      match loadMetadata lib fs M with
      | .error err =>
        if err.isNotExist then
          match storeMetadata lib fs M (parseMetadata r) with
          | (some _, fs1) => (.returned (some ContainerNotFound), fs1)
          | (none, fs1) => (.returned none, fs1)
        else
          (.returned none, (storeMetadata lib (backupMetadata fs M).2 M (parseMetadata r)).2)
      | .ok oldMeta =>
        match updateMap oldMeta (parseMetadata r) with
        | none => (.panic, fs)
        | some merged => (.returned none, (storeMetadata lib fs M merged).2) := by
  unfold Server.handlePutMetadata
  rw [h]
  simp only [if_true]

/-- The function `handlePutMetadata` on a container changes at most the sidecar and its backup. -/
theorem handlePutMetadata_container_frame (lib : Lib) (s : Server) (fs : FS) (r : Request)
    (T M q : String) (h : s.getMetadataFilePath T = (M, true, none)) (h1 : q ≠ M)
    (h2 : q ≠ M ++ ".bac") : (s.handlePutMetadata lib fs r T).2 q = fs q := by
  rw [handlePutMetadata_container lib s fs r T M h]
  cases hl : loadMetadata lib fs M with
  | error err =>
    simp only []
    by_cases hn : err.isNotExist = true
    · simp only [hn, if_true]
      have hf := storeMetadata_frame lib fs M q (parseMetadata r) h1
      rcases hs : storeMetadata lib fs M (parseMetadata r) with ⟨e, fs1⟩
      rw [hs] at hf
      cases e <;> exact hf
    · simp only [hn, Bool.false_eq_true, if_false]
      rw [storeMetadata_frame lib _ M q _ h1, backupMetadata_frame fs M q h2]
  | ok oldMeta =>
    simp only []
    cases hu : updateMap oldMeta (parseMetadata r) with
    | none => rfl
    | some merged => exact storeMetadata_frame lib fs M q _ h1

/-- The function `handlePutMetadata` on a container returns without an error when the sidecar
lies in a directory and does not decode to the nil map. -/
theorem handlePutMetadata_container_ok (lib : Lib) (s : Server) (fs : FS) (r : Request)
    (T M : String) (h : s.getMetadataFilePath T = (M, true, none))
    (hd : fs (pathDir M) = some Node.dir)
    (hnn : ∀ B, fs M = some (Node.file B) → lib.jsonUnmarshal B ≠ some GoMap.nil) :
    (s.handlePutMetadata lib fs r T).1 = .returned none := by
  rw [handlePutMetadata_container lib s fs r T M h]
  cases hl : loadMetadata lib fs M with
  | error err =>
    simp only []
    by_cases hn : err.isNotExist = true
    · simp only [hn, if_true]
      have hM : fs M = none := by
        cases hm : fs M with
        | none => rfl
        | some n =>
          cases n with
          | dir =>
            simp [loadMetadata, osOpen, hm, readAll] at hl
            subst hl
            simp [GoError.isNotExist] at hn
          | file B =>
            rw [loadMetadata_file lib fs M B hm] at hl
            cases hu : lib.jsonUnmarshal B with
            | none =>
              rw [hu] at hl
              simp only [Except.error.injEq] at hl
              subst hl
              simp [GoError.isNotExist] at hn
            | some m => rw [hu] at hl; simp at hl
      have hs := (storeMetadata_ok lib fs M (parseMetadata r) (by rw [hM]; simp)
        (Or.inr hd)).1
      rcases hs2 : storeMetadata lib fs M (parseMetadata r) with ⟨e, fs1⟩
      rw [hs2] at hs
      simp only at hs
      subst hs
      rfl
    · simp only [hn, Bool.false_eq_true, if_false]
  | ok oldMeta =>
    simp only []
    obtain ⟨B, hB, hu⟩ := loadMetadata_ok_file lib fs M oldMeta hl
    have hne : oldMeta ≠ GoMap.nil := by
      intro e
      rw [e] at hu
      exact hnn B hB hu
    obtain ⟨O, _, hO⟩ := updateMap_ne_nil oldMeta (parseMetadata r) hne
    rw [hO]

/-- The function `handlePutMetadata` on a container panics exactly when the sidecar decodes to
the nil map and the request carries a value that is not empty; the state is then as it was. -/
theorem handlePutMetadata_container_panic (lib : Lib) (s : Server) (fs : FS) (r : Request)
    (T M B : String) (h : s.getMetadataFilePath T = (M, true, none))
    (hB : fs M = some (Node.file B)) (hnil : lib.jsonUnmarshal B = some GoMap.nil) :
    s.handlePutMetadata lib fs r T =
      if (parseMetadata r).entries.all (fun kv => kv.2 = "") then
        (.returned none, (storeMetadata lib fs M GoMap.nil).2)
      else (.panic, fs) := by
  rw [handlePutMetadata_container lib s fs r T M h, loadMetadata_file lib fs M B hB, hnil]
  simp only [updateMap]
  by_cases hall : (parseMetadata r).entries.all (fun kv => kv.2 = "") = true
  · simp only [hall, if_true]
  · simp only [hall, Bool.false_eq_true, if_false]

/-- The container branch of `handleCreation`: a target without `/`. -/
theorem handleCreation_container (lib : Lib) (s : Server) (fs : FS) (w : ResponseWriter)
    (r : Request) (h : '/' ∉ (getTarget r).toList) :
    s.handleCreation lib fs w r =
      match osStat fs (filepathJoin [s.settings.StorageLocation, getTarget r]) with
      | .error Errno.ENOENT =>
        match osMkdir fs (filepathJoin [s.settings.StorageLocation, getTarget r]) with
        | .error _ => (httpError w (statusText 500) 500, fs)
        | .ok fs1 =>
          match s.handlePutMetadata lib fs1 r (getTarget r) with
          | (.returned (some e), fs2) => (httpError w e.Text e.StatusCode, fs2)
          | (.returned none, fs2) => (w.writeHeader 201, fs2)
          | (.panic, fs2) => (w.panic, fs2)
      | _ =>
        match s.handlePutMetadata lib fs r (getTarget r) with
        | (.returned (some e), fs2) => (httpError w e.Text e.StatusCode, fs2)
        | (.returned none, fs2) => (w.writeHeader 202, fs2)
        | (.panic, fs2) => (w.panic, fs2) := by
  unfold Server.handleCreation
  simp only [stringsSplit_name _ h, List.length_singleton]
  rfl

/-- The `PUT` branch of `storageHandler`, for a request with a valid token. -/
theorem storageHandler_put (lib : Lib) (s : Server) (now : Int) (fs : FS)
    (w : ResponseWriter) (r : Request) (hm : r.Method = "PUT")
    (ht : verifyToken lib (r.Header.values TokenTag) s.settings.TokenSecret now = .ok ()) :
    s.storageHandler lib now fs w r = s.handleCreation lib fs w r := by
  unfold Server.storageHandler
  rw [ht, hm]
  simp

/-- The sidecar path of a target without `/`. -/
theorem getMetadataFilePath_depth1 (s : Server) (T : String) (h : '/' ∉ T.toList) :
    s.getMetadataFilePath T = ((s.getMetadataFilePath T).1, true, none) := by
  unfold Server.getMetadataFilePath
  rw [stringsSplit_name T h]
  simp


/-! ## Claims about authentication -/

/-- C1: whatever the method and the path, a request whose `X-Auth-Token` header is
missing, or whose first token `verifyToken` rejects, is answered `401`, the answer does
not depend on the filesystem, and the filesystem state is left as it was. -/
theorem storageHandler_rejects_bad_token (lib : Lib) (s : Server) (now : Int) (fs : FS)
    (r : Request)
    (h : r.Header.values TokenTag = [] ∨
      ∃ t, (r.Header.values TokenTag).head? = some t ∧
        verifyToken lib [t] s.settings.TokenSecret now ≠ .ok ()) :
    (s.storageHandler lib now fs ResponseWriter.new r).1.code = 401
    ∧ (s.storageHandler lib now fs ResponseWriter.new r).2 = fs
    ∧ (s.storageHandler lib now fs ResponseWriter.new r).1
        = httpError ResponseWriter.new "Unauthorized" 401 := by
  have hv : verifyToken lib (r.Header.values TokenTag) s.settings.TokenSecret now ≠ .ok () := by
    rcases h with h | ⟨t, ht, hbad⟩
    · rw [h]
      simp [verifyToken]
    · cases hl : r.Header.values TokenTag with
      | nil => simp [hl] at ht
      | cons t1 rest =>
        rw [hl] at ht
        simp only [List.head?_cons, Option.some.injEq] at ht
        subst ht
        rw [verifyToken_cons]
        exact hbad
  have hs : s.storageHandler lib now fs ResponseWriter.new r
      = (httpError ResponseWriter.new "Unauthorized" 401, fs) := by
    unfold Server.storageHandler
    cases hr : verifyToken lib (r.Header.values TokenTag) s.settings.TokenSecret now with
    | error e => rfl
    | ok u => exact absurd (by rw [hr]) hv
  rw [hs]
  exact ⟨rfl, rfl, rfl⟩

/-- The witness of C1: a `PUT` without a token. -/
theorem storageHandler_rejects_bad_token_witness :
    (sampleServer.storageHandler sampleLib 1000 emptyStore ResponseWriter.new
        { Method := "PUT", Path := "/v1.0/abc/test", Host := "", Header := ∅, Body := "" }).1.code
      = 401
    ∧ (sampleServer.storageHandler sampleLib 1000 emptyStore ResponseWriter.new
        { Method := "PUT", Path := "/v1.0/abc/test", Host := "", Header := ∅, Body := "" }).2
      = emptyStore :=
  have h := storageHandler_rejects_bad_token sampleLib sampleServer 1000 emptyStore
    { Method := "PUT", Path := "/v1.0/abc/test", Host := "", Header := ∅, Body := "" }
    (Or.inl (by decide))
  ⟨h.1, h.2.1⟩

/-- C2: a `GET` on the auth route that carries both credential headers is answered `200`,
with `X-Auth-Token` set to the token issued now and `X-Storage-Url` set to the scheme, the
host and `/v1.0/abc`, when the user is the configured one and the password matches the
stored hash; otherwise it is answered `401` and neither header is set. -/
theorem authentication_spec (lib : Lib) (s : Server) (now : Int) (r : Request)
    (user password : String) (users passwords : List String)
    (hmethod : r.Method = "GET")
    (huser : r.Header.values UserNameTag = user :: users)
    (hpass : r.Header.values PasswordTag = password :: passwords) :
    (user = s.settings.Username ∧ lib.bcryptMatches s.settings.Password password = true →
      (s.authentication lib now ResponseWriter.new r).code = 200
      ∧ (∃ token, createToken lib s.settings.TokenSecret now = .ok token
          ∧ (s.authentication lib now ResponseWriter.new r).header.lookup "X-Auth-Token"
            = some token)
      ∧ (s.authentication lib now ResponseWriter.new r).header.lookup "X-Storage-Url"
          = some (s.scheme.str ++ r.Host ++ "/v1.0/abc"))
    ∧ (¬ (user = s.settings.Username ∧ lib.bcryptMatches s.settings.Password password = true) →
      (s.authentication lib now ResponseWriter.new r).code = 401
      ∧ (s.authentication lib now ResponseWriter.new r).header.lookup "X-Auth-Token" = none
      ∧ (s.authentication lib now ResponseWriter.new r).header.lookup "X-Storage-Url" = none) := by
  have hk1 : canonicalMIMEHeaderKey TokenTag = "X-Auth-Token" := by decide
  have hk2 : canonicalMIMEHeaderKey StorageUrlTag = "X-Storage-Url" := by decide
  have hk3 : canonicalMIMEHeaderKey "Content-Type" = "Content-Type" := by decide
  have hk4 : canonicalMIMEHeaderKey "X-Content-Type-Options" = "X-Content-Type-Options" := by
    decide
  constructor
  · rintro ⟨hu, hp⟩
    have ha : s.authentication lib now ResponseWriter.new r
        = (ResponseWriter.new.setHeader TokenTag
            (signedString lib "HS256" ⟨now + 900, 0, 0⟩ s.settings.TokenSecret)).setHeader
          StorageUrlTag (s.scheme.str ++ r.Host ++ RootStorageEndpoint) := by
      simp [Server.authentication, hmethod, huser, hpass, auth, hu, hp, createToken]
    rw [ha]
    refine ⟨rfl, ⟨_, rfl, ?_⟩, ?_⟩
    · simp only [ResponseWriter.setHeader, ResponseWriter.new, hk1, hk2]
      rw [AList.lookup_insert_ne (by decide), AList.lookup_insert]
    · simp only [ResponseWriter.setHeader, ResponseWriter.new, hk1, hk2]
      rw [AList.lookup_insert]
      rfl
  · intro hn
    have ha : s.authentication lib now ResponseWriter.new r
        = httpError ResponseWriter.new (statusText 401) 401 := by
      by_cases hu : user = s.settings.Username
      · have hp : lib.bcryptMatches s.settings.Password password = false := by
          cases hb : lib.bcryptMatches s.settings.Password password with
          | false => rfl
          | true => exact absurd ⟨hu, hb⟩ hn
        simp [Server.authentication, hmethod, huser, hpass, auth, hu, hp]
      · simp [Server.authentication, hmethod, huser, hpass, auth, hu]
    rw [ha]
    refine ⟨rfl, ?_, ?_⟩
    · simp only [httpError, ResponseWriter.setHeader, ResponseWriter.new,
        ResponseWriter.writeHeader, ResponseWriter.write, hk3, hk4]
      rw [AList.lookup_insert_ne (by decide), AList.lookup_insert_ne (by decide)]
      rfl
    · simp only [httpError, ResponseWriter.setHeader, ResponseWriter.new,
        ResponseWriter.writeHeader, ResponseWriter.write, hk3, hk4]
      rw [AList.lookup_insert_ne (by decide), AList.lookup_insert_ne (by decide)]
      rfl



/-- The witness of C2: the sample login is answered `200` with both headers. -/
theorem authentication_spec_witness :
    (sampleServer.authentication sampleLib 1000 ResponseWriter.new sampleLogin).code = 200
    ∧ (sampleServer.authentication sampleLib 1000 ResponseWriter.new sampleLogin).header.lookup
        "X-Storage-Url" = some "example.org:8080/v1.0/abc" :=
  have h := (authentication_spec sampleLib sampleServer 1000 sampleLogin "test:tester"
    "testing" [] [] (by decide) (by decide) (by decide)).1 ⟨by decide, by decide⟩
  ⟨h.1, h.2.2⟩

/-- C3: the token `createToken` returns at the time `now` carries the expiry `now + 900`
in its claims segment, and `verifyToken` accepts it at the same time with the same
secret, whenever the codecs decode what they encoded for this token. -/
theorem createToken_accepted (lib : Lib) (secret : String) (now : Int)
    (hlib : lib.DecodesBack "HS256" ⟨now + 900, 0, 0⟩ secret) :
    ∃ token, createToken lib secret now = .ok token
      ∧ (∃ h c sig claims, splitOn '.' token.toList = [h, c, sig]
          ∧ lib.decodeClaims (String.mk c) = some claims
          ∧ claims.ExpiresAt = now + 900)
      ∧ verifyToken lib [token] secret now = .ok () := by
  obtain ⟨d1, d2, d3, hh, hc, hs⟩ := hlib
  have hsplit : splitOn '.' (signedString lib "HS256" ⟨now + 900, 0, 0⟩ secret).toList
      = [(lib.encodeHeader "HS256").toList, (lib.encodeClaims ⟨now + 900, 0, 0⟩).toList,
          (lib.encodeSegment (lib.hmac "HS256" secret
            (lib.encodeHeader "HS256" ++ "." ++ lib.encodeClaims ⟨now + 900, 0, 0⟩))).toList] := by
    have e : (signedString lib "HS256" ⟨now + 900, 0, 0⟩ secret).toList
        = (lib.encodeHeader "HS256").toList ++ '.' ::
            ((lib.encodeClaims ⟨now + 900, 0, 0⟩).toList ++ '.' ::
              (lib.encodeSegment (lib.hmac "HS256" secret
                (lib.encodeHeader "HS256" ++ "." ++ lib.encodeClaims ⟨now + 900, 0, 0⟩))).toList) := by
      simp [signedString, String.toList]
    rw [e, splitOn_append _ _ _ d1, splitOn_append _ _ _ d2, splitOn_of_not_mem _ _ d3]
  refine ⟨signedString lib "HS256" ⟨now + 900, 0, 0⟩ secret, rfl, ?_, ?_⟩
  · exact ⟨_, _, _, _, hsplit, hc, rfl⟩
  · rw [verifyToken_ok_iff]
    refine ⟨_, _, _, "HS256", ⟨now + 900, 0, 0⟩, hsplit, hh, hc, Or.inl rfl, ?_, hs⟩
    cases hb : lib.acceptsAtExpiry <;> simp [StandardClaims.valid, hb]

/-- The witness of C3: the sample libraries at the time `1000`. -/
theorem createToken_accepted_witness :
    createToken sampleLib "secret" 1000 = .ok sampleToken
    ∧ verifyToken sampleLib [sampleToken] "secret" 1000 = .ok () := by
  obtain ⟨token, h1, _, h3⟩ := createToken_accepted sampleLib "secret" 1000 (by decide)
  have h0 : createToken sampleLib "secret" 1000 = .ok sampleToken := by decide
  rw [h0] at h1
  cases h1
  exact ⟨h0, h3⟩

/-- C4: `verifyToken` returns an error for an empty token list, for a token whose header
names a method other than the HMAC ones, for a token whose signature is not the HMAC of
its first two segments under the secret, and for a token whose expiry lies before the
current time.  A token carries an expiry when its `exp` is not `0`, the value the jwt
package reads as an absent claim. -/
theorem verifyToken_rejects (lib : Lib) (secret : String) (now : Int) (t : String)
    (rest : List String) (h c sig : List Char) :
    verifyToken lib [] secret now ≠ .ok ()
    ∧ (∀ alg, splitOn '.' t.toList = [h, c, sig] → lib.decodeHeader (String.mk h) = some alg →
        ¬ (alg = "HS256" ∨ alg = "HS384" ∨ alg = "HS512") →
        verifyToken lib (t :: rest) secret now ≠ .ok ())
    ∧ (∀ alg, splitOn '.' t.toList = [h, c, sig] → lib.decodeHeader (String.mk h) = some alg →
        lib.decodeSegment (String.mk sig)
          ≠ some (lib.hmac alg secret (String.mk h ++ "." ++ String.mk c)) →
        verifyToken lib (t :: rest) secret now ≠ .ok ())
    ∧ (∀ claims, splitOn '.' t.toList = [h, c, sig] →
        lib.decodeClaims (String.mk c) = some claims →
        claims.ExpiresAt ≠ 0 → claims.ExpiresAt < now →
        verifyToken lib (t :: rest) secret now ≠ .ok ()) := by
  refine ⟨by simp [verifyToken], ?_, ?_, ?_⟩
  · intro alg hsplit halg hm hv
    rw [verifyToken_cons, verifyToken_ok_iff] at hv
    obtain ⟨h1, c1, sig1, alg1, claims1, hs1, ha1, _, hm1, _, _⟩ := hv
    rw [hsplit] at hs1
    simp only [List.cons.injEq, and_true] at hs1
    obtain ⟨e1, e2, e3⟩ := hs1
    subst e1 e2 e3
    rw [halg] at ha1
    simp only [Option.some.injEq] at ha1
    subst ha1
    exact hm hm1
  · intro alg hsplit halg hsig hv
    rw [verifyToken_cons, verifyToken_ok_iff] at hv
    obtain ⟨h1, c1, sig1, alg1, claims1, hs1, ha1, _, _, _, hg1⟩ := hv
    rw [hsplit] at hs1
    simp only [List.cons.injEq, and_true] at hs1
    obtain ⟨e1, e2, e3⟩ := hs1
    subst e1 e2 e3
    rw [halg] at ha1
    simp only [Option.some.injEq] at ha1
    subst ha1
    exact hsig hg1
  · intro claims hsplit hclaims hne hlt hv
    rw [verifyToken_cons, verifyToken_ok_iff] at hv
    obtain ⟨h1, c1, sig1, alg1, claims1, hs1, _, hc1, _, hval, _⟩ := hv
    rw [hsplit] at hs1
    simp only [List.cons.injEq, and_true] at hs1
    obtain ⟨e1, e2, e3⟩ := hs1
    subst e1 e2 e3
    rw [hclaims] at hc1
    simp only [Option.some.injEq] at hc1
    subst hc1
    simp only [StandardClaims.valid, hne, false_or, Bool.decide_and, Bool.and_eq_true,
      decide_eq_true_eq] at hval
    have h1 := hval.1
    cases hb : lib.acceptsAtExpiry
    · simp only [hb] at h1
      simp at h1
      omega
    · simp only [hb] at h1
      simp at h1
      omega

/-- The witness of C4: the sample token at the time `2000`, after its expiry `1900`;
a token with the header `none`; and the sample token with another signature. -/
theorem verifyToken_rejects_witness :
    verifyToken sampleLib [sampleToken] "secret" 2000 ≠ .ok ()
    ∧ verifyToken sampleLib ["none.1900,0,0."] "secret" 1000 ≠ .ok ()
    ∧ verifyToken sampleLib ["HS256.1900,0,0.826349"] "secret" 1000 ≠ .ok () :=
  ⟨(verifyToken_rejects sampleLib "secret" 2000 sampleToken [] "HS256".toList
      "1900,0,0".toList "826348".toList).2.2.2 ⟨1900, 0, 0⟩ (by decide) (by decide) (by decide)
      (by decide),
    (verifyToken_rejects sampleLib "secret" 1000 "none.1900,0,0." [] "none".toList
      "1900,0,0".toList []).2.1 "none" (by decide) (by decide) (by decide),
    (verifyToken_rejects sampleLib "secret" 1000 "HS256.1900,0,0.826349" [] "HS256".toList
      "1900,0,0".toList "826349".toList).2.2.1 "HS256" (by decide) (by decide) (by decide)⟩


/-! ## The claim about merging metadata -/

/-- C5: after `updateMetadata existing incoming`, a key that `incoming` holds with a
non-empty value has that value, a key that `incoming` holds with the empty value is
absent, and a key that `incoming` does not hold is as it was in `existing`.  In particular
merging `K: v1` and then `K: ""` leaves `K` absent, merging `K: v1` and then `K: v2`
leaves `K = v2`, and every other key survives both merges. -/
theorem updateMetadata_spec (existing incoming : Meta) (k : String) :
    (∀ v, incoming.lookup k = some v → v ≠ "" →
        (updateMetadata existing incoming).lookup k = some v)
    ∧ (incoming.lookup k = some "" → (updateMetadata existing incoming).lookup k = none)
    ∧ (incoming.lookup k = none →
        (updateMetadata existing incoming).lookup k = existing.lookup k)
    ∧ (∀ K v1 v2 : String, v1 ≠ "" → v2 ≠ "" →
        (updateMetadata (updateMetadata existing (AList.singleton K v1))
          (AList.singleton K "")).lookup K = none
        ∧ (updateMetadata (updateMetadata existing (AList.singleton K v1))
          (AList.singleton K v2)).lookup K = some v2
        ∧ (k ≠ K →
          (updateMetadata (updateMetadata existing (AList.singleton K v1))
            (AList.singleton K "")).lookup k = existing.lookup k
          ∧ (updateMetadata (updateMetadata existing (AList.singleton K v1))
            (AList.singleton K v2)).lookup k = existing.lookup k)) := by
  refine ⟨?_, ?_, ?_, ?_⟩
  · intro v hv hne
    rw [updateMetadata_lookup, hv]
    simp [hne]
  · intro hv
    rw [updateMetadata_lookup, hv]
    simp
  · intro hv
    rw [updateMetadata_lookup, hv]
  · intro K v1 v2 h1 h2
    have hs : ∀ v : String, (AList.singleton K v : Meta).lookup K = some v := by
      intro v
      simp [AList.lookup, AList.singleton]
    have hn : ∀ v : String, k ≠ K → (AList.singleton K v : Meta).lookup k = none := by
      intro v hk
      rw [AList.lookup_eq_none, AList.mem_keys]
      simp [AList.keys, AList.singleton, hk]
    refine ⟨?_, ?_, ?_⟩
    · rw [updateMetadata_lookup, hs]
      simp
    · rw [updateMetadata_lookup, hs]
      simp [h2]
    · intro hk
      constructor
      · rw [updateMetadata_lookup, hn _ hk]
        simp only []
        rw [updateMetadata_lookup, hn _ hk]
      · rw [updateMetadata_lookup, hn _ hk]
        simp only []
        rw [updateMetadata_lookup, hn _ hk]

/-- The witness of C5: the update of the repository's test sets one key, deletes one and
keeps one. -/
theorem updateMetadata_spec_witness :
    (updateMetadata sampleOld sampleNew).lookup "Test-Update-Container" = some "updateTest"
    ∧ (updateMetadata sampleOld sampleNew).lookup "Test-Delete-Me" = none
    ∧ (updateMetadata sampleOld sampleNew).lookup "Test-Container" = some "test" :=
  ⟨(updateMetadata_spec sampleOld sampleNew "Test-Update-Container").1 "updateTest"
      (by decide) (by decide),
    (updateMetadata_spec sampleOld sampleNew "Test-Delete-Me").2.1 (by decide),
    ((updateMetadata_spec sampleOld sampleNew "Test-Container").2.2.1 (by decide)).trans
      (by decide)⟩

/-! ## Claims about creating containers -/

theorem ne_child (D x : String) : D ≠ D ++ "/" ++ x := by
  intro e
  have := congrArg String.length e
  simp at this
  have h1 : "/".length = 1 := by decide
  omega

theorem ne_child_bac (D x : String) : D ≠ D ++ "/" ++ x ++ ".bac" := by
  intro e
  have := congrArg String.length e
  simp at this
  have h1 : "/".length = 1 := by decide
  omega

/-- C6, as the code has it: for a container name `C`, stored under the name `C` with
every `:` replaced by `_`, and a state in which the sidecar of the container does not hold
the JSON document `null`, a `PUT` to `/v1.0/abc/C` with a valid token is answered `201` and
leaves a directory of the stored name under the storage root when nothing had that name,
and is answered `202` and leaves the directory in place when the directory existed.  The
handler does not panic. -/
theorem put_container_creates (lib : Lib) (s : Server) (now : Int) (fs : FS) (r : Request)
    (C : String) (hC : PlainName C) (hm : r.Method = "PUT")
    (hp : r.Path = "/v1.0/abc/" ++ C)
    (ht : verifyToken lib (r.Header.values TokenTag) s.settings.TokenSecret now = .ok ())
    (hroot : fs (filepathClean s.settings.StorageLocation) = some Node.dir)
    (hnull : ∀ B, fs (s.getMetadataFilePath (replaceAll C ':' '_')).1 = some (Node.file B) →
      lib.jsonUnmarshal B ≠ some GoMap.nil) :
    (fs (filepathJoin [s.settings.StorageLocation, replaceAll C ':' '_']) = none →
      (s.storageHandler lib now fs ResponseWriter.new r).1.code = 201
      ∧ (s.storageHandler lib now fs ResponseWriter.new r).1.panicked = false
      ∧ (s.storageHandler lib now fs ResponseWriter.new r).2
          (filepathJoin [s.settings.StorageLocation, replaceAll C ':' '_']) = some Node.dir)
    ∧ (fs (filepathJoin [s.settings.StorageLocation, replaceAll C ':' '_']) = some Node.dir →
      (s.storageHandler lib now fs ResponseWriter.new r).1.code = 202
      ∧ (s.storageHandler lib now fs ResponseWriter.new r).1.panicked = false
      ∧ (s.storageHandler lib now fs ResponseWriter.new r).2
          (filepathJoin [s.settings.StorageLocation, replaceAll C ':' '_'])
        = some Node.dir) := by
  have hT := replaceAll_plain C hC
  have hg := getTarget_of_path r C hp
  have hM := getMetadataFilePath_container s _ hT
  have hdM := pathDir_child s.settings.StorageLocation _ _ hT
    (normalSeg_sidecar _ hT.2.1)
  have hdD := pathDir_container s.settings.StorageLocation _ hT
  have hslash : '/' ∉ (getTarget r).toList := by rw [hg]; exact hT.2.1
  rw [hM] at hnull
  simp only [] at hnull
  rw [storageHandler_put lib s now fs _ r hm ht, handleCreation_container lib s fs _ r hslash,
    hg]
  generalize hD : filepathJoin [s.settings.StorageLocation, replaceAll C ':' '_'] = D at *
  generalize hTT : replaceAll C ':' '_' = T at *
  have hne1 : D ≠ D ++ "/" ++ (T ++ ".metadata.json") := ne_child D _
  have hne2 : D ≠ D ++ "/" ++ (T ++ ".metadata.json") ++ ".bac" := ne_child_bac D _
  constructor
  · intro hnone
    have hst : osStat fs D = .error Errno.ENOENT := by
      simp [osStat, hnone, FS.missing, hdD, hroot]
    have hmk : osMkdir fs D = .ok (fs.set D Node.dir) := by
      simp [osMkdir, hnone, hdD, hroot]
    rw [hst, hmk]
    simp only []
    have hok := handlePutMetadata_container_ok lib s (fs.set D Node.dir) r T _ hM
      (by rw [hdM]; simp) (by
        intro B hB
        rw [FS.set_other _ _ _ _ hne1.symm] at hB
        exact hnull B hB)
    have hfr := handlePutMetadata_container_frame lib s (fs.set D Node.dir) r T _ D hM
      hne1 hne2
    rcases hh : s.handlePutMetadata lib (fs.set D Node.dir) r T with ⟨e, fs2⟩
    rw [hh] at hok hfr
    simp only at hok hfr
    subst hok
    simp only []
    exact ⟨rfl, rfl, by rw [hfr]; simp⟩
  · intro hdir
    have hst : osStat fs D = .ok Node.dir := by simp [osStat, hdir]
    rw [hst]
    simp only []
    have hok := handlePutMetadata_container_ok lib s fs r T _ hM (by rw [hdM]; exact hdir)
      hnull
    have hfr := handlePutMetadata_container_frame lib s fs r T _ D hM hne1 hne2
    rcases hh : s.handlePutMetadata lib fs r T with ⟨e, fs2⟩
    rw [hh] at hok hfr
    simp only at hok hfr
    subst hok
    simp only []
    exact ⟨rfl, rfl, by rw [hfr]; exact hdir⟩

/-- The witness of C6: creating the container `test` in an empty storage root, and
creating it again where it exists. -/
theorem put_container_creates_witness :
    ((sampleServer.storageHandler sampleLib 1000 emptyStore ResponseWriter.new
        (sampleRequest "PUT" "/v1.0/abc/test" [] "")).1.code = 201
      ∧ (sampleServer.storageHandler sampleLib 1000 emptyStore ResponseWriter.new
        (sampleRequest "PUT" "/v1.0/abc/test" [] "")).2 "/srv/test" = some Node.dir)
    ∧ ((sampleServer.storageHandler sampleLib 1000 testStore ResponseWriter.new
        (sampleRequest "PUT" "/v1.0/abc/test" [] "")).1.code = 202
      ∧ (sampleServer.storageHandler sampleLib 1000 testStore ResponseWriter.new
        (sampleRequest "PUT" "/v1.0/abc/test" [] "")).2 "/srv/test" = some Node.dir) :=
  have h1 := (put_container_creates sampleLib sampleServer 1000 emptyStore
      (sampleRequest "PUT" "/v1.0/abc/test" [] "") "test" (by decide) (by decide) (by decide)
      (by decide) (by decide) (by
        intro B hB
        rw [show emptyStore (sampleServer.getMetadataFilePath (replaceAll "test" ':' '_')).1
          = none by decide] at hB
        cases hB)).1 (by decide)
  have h2 := (put_container_creates sampleLib sampleServer 1000 testStore
      (sampleRequest "PUT" "/v1.0/abc/test" [] "") "test" (by decide) (by decide) (by decide)
      (by decide) (by decide) (by
        intro B hB
        rw [show testStore (sampleServer.getMetadataFilePath (replaceAll "test" ':' '_')).1
          = some (Node.file "\x7b\n\"Test-Container\": \"test\"\n\x7d") by decide] at hB
        cases hB
        decide)).2 (by decide)
  ⟨⟨h1.1, h1.2.2⟩, ⟨h2.1, h2.2.2⟩⟩

/-- The counterexample of C6: a `PUT` to `/v1.0/abc/a:b`, when nothing is named `a:b`
under the storage root, is answered `201` and leaves no directory `a:b`; the directory
it leaves is `a_b`. -/
theorem put_container_colon :
    emptyStore "/srv/a:b" = none
    ∧ (sampleServer.storageHandler sampleLib 1000 emptyStore ResponseWriter.new
        (sampleRequest "PUT" "/v1.0/abc/a:b" [] "")).1.code = 201
    ∧ (sampleServer.storageHandler sampleLib 1000 emptyStore ResponseWriter.new
        (sampleRequest "PUT" "/v1.0/abc/a:b" [] "")).2 "/srv/a:b" = none
    ∧ (sampleServer.storageHandler sampleLib 1000 emptyStore ResponseWriter.new
        (sampleRequest "PUT" "/v1.0/abc/a:b" [] "")).2 "/srv/a_b" = some Node.dir := by
  decide

/-- C7, where the sidecar decodes to a map that is not nil: a `PUT` with a valid token to
an existing container whose sidecar parses to the mapping `O` leaves the sidecar holding
the serialisation of `updateMetadata O M`, where `M` is the mapping parsed from the request
headers: a key that `M` holds with a non-empty value has that value, a key that `M` holds
with the empty value is absent, and a key that `M` does not hold is as it was in `O`.  The
response is `202` and the handler does not panic. -/
theorem put_container_merges (lib : Lib) (s : Server) (now : Int) (fs : FS) (r : Request)
    (C B : String) (O : Meta) (hm : r.Method = "PUT") (hp : r.Path = "/v1.0/abc/" ++ C)
    (hC : '/' ∉ C.toList)
    (ht : verifyToken lib (r.Header.values TokenTag) s.settings.TokenSecret now = .ok ())
    (hdir : fs (filepathJoin [s.settings.StorageLocation, replaceAll C ':' '_'])
      = some Node.dir)
    (hside : fs (s.getMetadataFilePath (replaceAll C ':' '_')).1 = some (Node.file B))
    (hparse : lib.jsonUnmarshal B = some (GoMap.map O)) :
    (s.storageHandler lib now fs ResponseWriter.new r).2
        (s.getMetadataFilePath (replaceAll C ':' '_')).1
      = some (Node.file (lib.jsonMarshalIndent (updateMetadata O (parseMetadata r))))
    ∧ (∀ k, (updateMetadata O (parseMetadata r)).lookup k
        = match (parseMetadata r).lookup k with
          | some v => if v ≠ "" then some v else none
          | none => O.lookup k)
    ∧ (s.storageHandler lib now fs ResponseWriter.new r).1.code = 202
    ∧ (s.storageHandler lib now fs ResponseWriter.new r).1.panicked = false := by
  have hg := getTarget_of_path r C hp
  have hsl : '/' ∉ (replaceAll C ':' '_').toList := by
    show '/' ∉ C.toList.map (fun c => if c = ':' then '_' else c)
    intro hmem
    obtain ⟨c, hc, hcs⟩ := List.mem_map.mp hmem
    by_cases hcc : c = ':'
    · rw [if_pos hcc] at hcs
      revert hcs
      decide
    · rw [if_neg hcc] at hcs
      subst hcs
      exact hC hc
  have hslash : '/' ∉ (getTarget r).toList := by rw [hg]; exact hsl
  have hM := getMetadataFilePath_depth1 s _ hsl
  rw [storageHandler_put lib s now fs _ r hm ht, handleCreation_container lib s fs _ r hslash,
    hg]
  have hst : osStat fs (filepathJoin [s.settings.StorageLocation, replaceAll C ':' '_'])
      = .ok Node.dir := by simp [osStat, hdir]
  rw [hst]
  simp only []
  rw [handlePutMetadata_container lib s fs r _ _ hM, loadMetadata_file lib fs _ B hside,
    hparse]
  simp only [updateMap_map]
  refine ⟨?_, fun k => updateMetadata_lookup O (parseMetadata r) k, rfl, rfl⟩
  exact (storeMetadata_ok lib fs _ _ (by rw [hside]; simp) (Or.inl (by rw [hside]; simp))).2

/-- The witness of C7: the second request of the repository's test, which adds a key to
the metadata of the container `test`. -/
theorem put_container_merges_witness :
    (sampleServer.storageHandler sampleLib 1000 testStore ResponseWriter.new
        (sampleRequest "PUT" "/v1.0/abc/test"
          [("X-Container-Meta-Test-Update-Container", "updateTest")] "")).2
        "/srv/test/test.metadata.json"
      = some (Node.file
          "\x7b\n\"Test-Update-Container\": \"updateTest\",\n\"Test-Container\": \"test\"\n\x7d")
    ∧ (sampleServer.storageHandler sampleLib 1000 testStore ResponseWriter.new
        (sampleRequest "PUT" "/v1.0/abc/test"
          [("X-Container-Meta-Test-Update-Container", "updateTest")] "")).1.code = 202 :=
  have h := put_container_merges sampleLib sampleServer 1000 testStore
    (sampleRequest "PUT" "/v1.0/abc/test"
      [("X-Container-Meta-Test-Update-Container", "updateTest")] "")
    "test" "\x7b\n\"Test-Container\": \"test\"\n\x7d"
    ((∅ : Meta).insert "Test-Container" "test")
    (by decide) (by decide) (by decide) (by decide) (by decide) (by decide) (by rfl)
  ⟨h.1.trans (by decide), h.2.2.1⟩

/-- The failing input of C7: the sidecar of the container `test` holds the JSON document
`null`, which decodes without an error to the nil map; an object `PUT` of the name
`test.metadata.json` with the body `null` leaves the sidecar so.  A `PUT` to the container
with the header `X-Container-Meta-Foo: bar` then panics in `updateMetadata`: no status line
is written, and the sidecar holds `null` as before, not the mapping with the key `Foo`. -/
theorem put_container_nil_map :
    (sampleServer.storageHandler sampleLib 1000 testStore ResponseWriter.new
        (sampleRequest "PUT" "/v1.0/abc/test/test.metadata.json" [] "null")).2
        "/srv/test/test.metadata.json" = some (Node.file "null")
    ∧ nullStore "/srv/test/test.metadata.json" = some (Node.file "null")
    ∧ sampleLib.jsonUnmarshal "null" = some GoMap.nil
    ∧ (sampleServer.storageHandler sampleLib 1000 nullStore ResponseWriter.new
        (sampleRequest "PUT" "/v1.0/abc/test" [("X-Container-Meta-Foo", "bar")] "")).1.panicked
        = true
    ∧ (sampleServer.storageHandler sampleLib 1000 nullStore ResponseWriter.new
        (sampleRequest "PUT" "/v1.0/abc/test" [("X-Container-Meta-Foo", "bar")] "")).1.status
        = none
    ∧ (sampleServer.storageHandler sampleLib 1000 nullStore ResponseWriter.new
        (sampleRequest "PUT" "/v1.0/abc/test" [("X-Container-Meta-Foo", "bar")] "")).2
        "/srv/test/test.metadata.json" = some (Node.file "null") := by
  decide

/-! ## The claim about the names of sidecars -/

/-- A leading `.` element does not change the joined path. -/
theorem join_dot (R x : String) (hx : NormalSeg x.toList) :
    filepathJoin [R, "." ++ "/" ++ x] = filepathJoin [R, x] := by
  apply String.ext
  have e0 : ("." ++ "/" ++ x).toList = ['.'] ++ '/' :: x.toList := by
    simp [String.toList]
  show (filepathJoin [R, "." ++ "/" ++ x]).toList = (filepathJoin [R, x]).toList
  rw [filepathJoin_two_chars R _ (by rw [e0]; simp) (by rw [e0]; simp),
    filepathJoin_two_chars R x hx.1 hx.head, e0,
    splitOn_append '/' _ _ (by decide), splitOn_of_not_mem '/' _ hx.2.1]
  simp only [List.foldl_cons, List.foldl_nil]
  rw [cleanStep_skip _ _ ['.'] (Or.inr rfl)]

/-- The path of a container under a cleaned storage root. -/
theorem join_clean_root (R c : String) (hc : PlainName c) (hclean : filepathClean R = R)
    (h1 : R ≠ "/") (h2 : R ≠ ".") : filepathJoin [R, c] = R ++ "/" ++ c := by
  apply String.ext
  have e1 : (R ++ "/" ++ c).toList = R.toList ++ '/' :: c.toList := by simp [String.toList]
  have hR : renderPath (rootedOf R.toList) (stackOf R.toList) = R.toList := by
    rw [← cleanChars_eq]
    exact congrArg String.toList hclean
  show (filepathJoin [R, c]).toList = (R ++ "/" ++ c).toList
  rw [e1, join_container_chars R c hc]
  by_cases hS : stackOf R.toList = []
  · rw [hS] at hR
    exfalso
    cases hro : rootedOf R.toList
    · rw [hro] at hR
      exact h2 (String.ext hR.symm)
    · rw [hro] at hR
      exact h1 (String.ext hR.symm)
  · rw [renderPath_cons _ _ _ (NF_stackOf R.toList) hS, hR]


/-- A name without `/` is `.`, `..`, or plain. -/
theorem name_cases (c : String) (hc : c ≠ "") (hcs : '/' ∉ c.toList) :
    c = "." ∨ c = ".." ∨ PlainName c := by
  by_cases h1 : c = "."
  · exact Or.inl h1
  · by_cases h2 : c = ".."
    · exact Or.inr (Or.inl h2)
    · exact Or.inr (Or.inr ⟨hc, hcs, h1, h2⟩)

/-- C8: for a container name `c` and an object name `o`, non-empty and without `/`,
`getMetadataFilePath c` returns the path joined from the storage root, `c` and
`c.metadata.json`, with the container flag set; `getMetadataFilePath (c/o)` returns the
path joined from the storage root, `c` and `c.o.metadata.json`, with the flag cleared;
and a carrier of more than two elements returns an error.  For a storage root `R` that is
a cleaned path other than `/` and `.`, and a name `c` other than `.` and `..`, the two
paths are the strings `R/c/c.metadata.json` and `R/c/c.o.metadata.json`. -/
theorem getMetadataFilePath_spec (s : Server) (c o : String) (hc : c ≠ "")
    (hcs : '/' ∉ c.toList) (hos : '/' ∉ o.toList) :
    s.getMetadataFilePath c
      = (filepathJoin [s.settings.StorageLocation, c, c ++ ".metadata.json"], true, none)
    ∧ s.getMetadataFilePath (c ++ "/" ++ o)
      = (filepathJoin [s.settings.StorageLocation, c, c ++ "." ++ o ++ ".metadata.json"],
          false, none)
    ∧ (∀ carrier, 2 < (stringsSplit carrier '/').length →
        (s.getMetadataFilePath carrier).1 = ""
        ∧ (s.getMetadataFilePath carrier).2.2 ≠ none)
    ∧ (PlainName c → filepathClean s.settings.StorageLocation = s.settings.StorageLocation →
        s.settings.StorageLocation ≠ "/" → s.settings.StorageLocation ≠ "." →
        (s.getMetadataFilePath c).1
          = s.settings.StorageLocation ++ "/" ++ c ++ "/" ++ c ++ ".metadata.json"
        ∧ (s.getMetadataFilePath (c ++ "/" ++ o)).1
          = s.settings.StorageLocation ++ "/" ++ c ++ "/" ++ c ++ "." ++ o
              ++ ".metadata.json") := by
  refine ⟨?_, ?_, ?_, ?_⟩
  · rcases name_cases c hc hcs with h | h | h
    · subst h
      unfold Server.getMetadataFilePath
      rw [stringsSplit_name "." hcs]
      simp only [List.length_singleton, List.headD_cons, show ¬ (1 > 2) by decide,
        show ¬ (1 > 1) by decide, if_false]
      rw [join_three _ "." _ (by decide), show filepathJoin [".", "."] = "." by decide,
        join_dot _ _ (normalSeg_sidecar "." hcs)]
    · subst h
      unfold Server.getMetadataFilePath
      rw [stringsSplit_name ".." hcs]
      simp only [List.length_singleton, List.headD_cons, show ¬ (1 > 2) by decide,
        show ¬ (1 > 1) by decide, if_false]
      rw [join_three _ ".." _ (by decide), show filepathJoin ["..", ".."] = "../.." by decide]
      rfl
    · rw [getMetadataFilePath_container s c h, join_three _ c _ h.1,
        join_child _ c _ h (normalSeg_sidecar c hcs)]
  · rcases name_cases c hc hcs with h | h | h
    · subst h
      unfold Server.getMetadataFilePath
      rw [stringsSplit_pair "." o hcs hos]
      simp only [List.length_cons, List.length_nil, List.headD_cons,
        show ¬ (0 + 1 + 1 > 2) by decide, show (0 + 1 + 1 > 1) by decide, if_false, if_true]
      rw [join_three _ "." _ (by decide), show filepathJoin [".", "."] = "." by decide,
        join_dot _ _ (normalSeg_objectSidecar "." o hcs hos)]
      rfl
    · subst h
      unfold Server.getMetadataFilePath
      rw [stringsSplit_pair ".." o hcs hos]
      simp only [List.length_cons, List.length_nil, List.headD_cons,
        show ¬ (0 + 1 + 1 > 2) by decide, show (0 + 1 + 1 > 1) by decide, if_false, if_true]
      rw [join_three _ ".." _ (by decide), show filepathJoin ["..", ".."] = "../.." by decide]
      have e : "../.." ++ "." ++ [(".." : String), o].getD 1 "" ++ ".metadata.json"
          = ".." ++ "/" ++ (".." ++ "." ++ o ++ ".metadata.json") := by
        apply String.ext
        simp [String.toList]
      rw [e]
    · rw [getMetadataFilePath_object s c o h hos, join_three _ c _ h.1,
        join_child _ c _ h (normalSeg_objectSidecar c o hcs hos)]
  · intro carrier hlen
    unfold Server.getMetadataFilePath
    simp [hlen]
  · intro hP hclean hr1 hr2
    rw [getMetadataFilePath_container s c hP, getMetadataFilePath_object s c o hP hos,
      join_clean_root _ c hP hclean hr1 hr2]
    simp [String.append_assoc]

/-- The witness of C8: the sidecars of the container `test` and of its object
`test.txt` under the storage root `/srv`. -/
theorem getMetadataFilePath_spec_witness :
    sampleServer.getMetadataFilePath "test" = ("/srv/test/test.metadata.json", true, none)
    ∧ sampleServer.getMetadataFilePath "test/test.txt"
      = ("/srv/test/test.test.txt.metadata.json", false, none)
    ∧ (sampleServer.getMetadataFilePath "a/b/c").2.2 ≠ none
    ∧ (sampleServer.getMetadataFilePath "test").1
      = "/srv" ++ "/" ++ "test" ++ "/" ++ "test" ++ ".metadata.json" :=
  have h := getMetadataFilePath_spec sampleServer "test" "test.txt" (by decide) (by decide)
    (by decide)
  ⟨h.1.trans (by decide), h.2.1.trans (by decide), (h.2.2.1 "a/b/c" (by decide)).2,
    (h.2.2.2 (by decide) (by decide) (by decide) (by decide)).1⟩

/-! ## Claims about a sidecar that does not parse -/

theorem child_ne (D a b : String) (h : a.length ≠ b.length) :
    D ++ "/" ++ a ≠ D ++ "/" ++ b := by
  intro e
  have := congrArg String.length e
  simp at this
  exact h this

theorem normalSeg_literal_complete : NormalSeg "complete".toList := by
  refine ⟨by decide, by decide, by decide, by decide⟩

/-- The path of the `complete` marker of a container. -/
theorem join_complete (R T : String) (hT : PlainName T) :
    filepathJoin [R, T, "complete"] = filepathJoin [R, T] ++ "/" ++ "complete" := by
  rw [join_three R T _ hT.1, join_child R T _ hT normalSeg_literal_complete]

/-- Creating a file, or failing to, changes at most its path. -/
theorem create_or_keep_frame (fs1 : FS) (p q : String) (hq : q ≠ p) :
    (match osCreate fs1 p with
      | .error _ => fs1
      | .ok fs3 => fs3) q = fs1 q := by
  cases hc : osCreate fs1 p with
  | error e => rfl
  | ok fs3 => exact osCreate_frame fs1 fs3 p q hc hq

/-- The `POST` branch of `storageHandler`, for a request with a valid token. -/
theorem storageHandler_post (lib : Lib) (s : Server) (now : Int) (fs : FS)
    (w : ResponseWriter) (r : Request) (hm : r.Method = "POST")
    (ht : verifyToken lib (r.Header.values TokenTag) s.settings.TokenSecret now = .ok ()) :
    s.storageHandler lib now fs w r = s.handlePostMetadata lib fs w r := by
  unfold Server.storageHandler
  rw [ht, hm]
  simp

theorem replaceAll_append (a b : String) :
    replaceAll (a ++ b) ':' '_' = replaceAll a ':' '_' ++ replaceAll b ':' '_' := by
  apply String.ext
  simp [replaceAll, String.toList]

theorem httpError_code (msg : String) (code : Nat) :
    (httpError ResponseWriter.new msg code).code = code := by
  simp [httpError, ResponseWriter.setHeader, ResponseWriter.new, ResponseWriter.writeHeader,
    ResponseWriter.write, ResponseWriter.code]

/-- The object branch of `handleCreation`: a target of two elements. -/
theorem handleCreation_object (lib : Lib) (s : Server) (fs : FS) (w : ResponseWriter)
    (r : Request) (C O : String) (hg : getTarget r = C ++ "/" ++ O) (hC : '/' ∉ C.toList)
    (hO : '/' ∉ O.toList) :
    s.handleCreation lib fs w r =
      match osCreate fs (filepathJoin [s.settings.StorageLocation, C ++ "/" ++ O]) with
      | .error _ => (httpError w (statusText 404) 404, fs)
      | .ok fs1 =>
        match s.handlePutMetadata lib
          (writeFile fs1 (filepathJoin [s.settings.StorageLocation, C ++ "/" ++ O]) r.Body) r
          (C ++ "/" ++ O) with
        | (.returned (some e), fs2) => (httpError w e.Text e.StatusCode, fs2)
        | (.returned none, fs2) => (w.writeHeader 201, fs2)
        | (.panic, fs2) => (w.panic, fs2) := by
  unfold Server.handleCreation
  simp only [hg, stringsSplit_pair C O hC hO, List.length_cons, List.length_nil]
  rfl

/-- The function `handlePutMetadata` on an object, once the path of its sidecar is known. -/
theorem handlePutMetadata_object (lib : Lib) (s : Server) (fs : FS) (r : Request)
    (T M : String) (h : s.getMetadataFilePath T = (M, false, none)) :
    s.handlePutMetadata lib fs r T =
      match osStat fs (pathDir (filepathJoin [s.settings.StorageLocation, T])) with
      | .error Errno.ENOENT => (.returned (some ObjectNotFound), fs)
      | _ =>
        match storeMetadata lib fs M (parseMetadata r) with
        | (some _, fs1) => (.returned (some ObjectCorrupted), fs1)
        | (none, fs1) => (.returned none, fs1) := by
  unfold Server.handlePutMetadata
  rw [h]
  simp

theorem emptyStore_wellFormed : emptyStore.WellFormed := by
  intro p h
  by_cases h1 : p = "/"
  · subst h1; decide
  · by_cases h2 : p = "/srv"
    · subst h2; decide
    · exact absurd (by simp [emptyStore, h1, h2]) h

/-- The `HEAD` branch of `storageHandler`, for a request with a valid token. -/
theorem storageHandler_head (lib : Lib) (s : Server) (now : Int) (fs : FS)
    (w : ResponseWriter) (r : Request) (hm : r.Method = "HEAD")
    (ht : verifyToken lib (r.Header.values TokenTag) s.settings.TokenSecret now = .ok ()) :
    s.storageHandler lib now fs w r = s.handleGetMetadata lib fs w r := by
  unfold Server.storageHandler
  rw [ht, hm]
  simp

/-- The `GET` branch of `storageHandler`, for a request with a valid token. -/
theorem storageHandler_get (lib : Lib) (s : Server) (now : Int) (fs : FS)
    (w : ResponseWriter) (r : Request) (hm : r.Method = "GET")
    (ht : verifyToken lib (r.Header.values TokenTag) s.settings.TokenSecret now = .ok ()) :
    s.storageHandler lib now fs w r = s.handleGet lib fs w r := by
  unfold Server.storageHandler
  rw [ht, hm]
  simp

/-- Replacing `:` by `_` keeps the elements of a path apart. -/
theorem splitOn_map_colon (l : List Char) :
    splitOn '/' (l.map fun c => if c = ':' then '_' else c)
      = (splitOn '/' l).map (List.map fun c => if c = ':' then '_' else c) := by
  induction l with
  | nil => rfl
  | cons c cs ih =>
    by_cases hc : c = '/'
    · subst hc
      simp [splitOn, ih]
    · have hc2 : (if c = ':' then '_' else c) ≠ '/' := by
        by_cases h : c = ':'
        · rw [if_pos h]; decide
        · rw [if_neg h]; exact hc
      have hne := splitOn_ne_nil '/' cs
      cases hs : splitOn '/' cs with
      | nil => exact absurd hs hne
      | cons seg segs =>
        rw [hs] at ih
        simp only [List.map_cons, splitOn, hc2, hc, if_false, ih, hs]

theorem stringsSplit_replaceAll_length (X : String) :
    (stringsSplit (replaceAll X ':' '_') '/').length = (stringsSplit X '/').length := by
  unfold stringsSplit
  have e : (replaceAll X ':' '_').toList = X.toList.map fun c => if c = ':' then '_' else c :=
    rfl
  rw [e, splitOn_map_colon]
  simp

/-! ## The branches of `handlePostMetadata` -/

/-- The object branch of `handlePostMetadata`, once the path of the sidecar is known. -/
theorem handlePostMetadata_object (lib : Lib) (s : Server) (fs : FS) (w : ResponseWriter)
    (r : Request) (T M : String) (hg : getTarget r = T)
    (hM : s.getMetadataFilePath T = (M, false, none)) :
    s.handlePostMetadata lib fs w r =
      match osStat fs (filepathJoin [s.settings.StorageLocation, T]) with
      | .error Errno.ENOENT => (httpError w (statusText 404) 404, fs)
      | _ =>
        match storeMetadata lib fs M (parseMetadata r) with
        | (some _, fs1) => (httpError w (statusText 500) 500, fs1)
        | (none, fs1) => (w.writeHeader 202, fs1) := by
  simp only [Server.handlePostMetadata, hg, hM, Bool.false_eq_true, if_false]

/-- The function `storeMetadata` reports no error only where `os.Create` succeeds: on a path
that exists or lies in a directory. The state is unchanged when it reports one. -/
theorem storeMetadata_cases (lib : Lib) (fs : FS) (p : String) (m : GoMap) :
    ((storeMetadata lib fs p m).1 ≠ none ∧ (storeMetadata lib fs p m).2 = fs)
    ∨ ((storeMetadata lib fs p m).1 = none
      ∧ (fs p ≠ none ∨ fs (pathDir p) = some Node.dir)) := by
  unfold storeMetadata
  cases hc : osCreate fs p with
  | error e => left; simp
  | ok fs1 =>
    right
    refine ⟨rfl, ?_⟩
    unfold osCreate at hc
    cases hp : fs p with
    | some n => left; simp
    | none =>
      right
      rw [hp] at hc
      cases hd : fs (pathDir p) with
      | none => rw [hd] at hc; simp at hc
      | some n =>
        cases n with
        | dir => rfl
        | file b => rw [hd] at hc; simp at hc

/-- C11, as the code has it: for names `C` and `O`, stored under the names with every
`:` replaced by `_`, a `POST` to `/v1.0/abc/C/O` with a valid token, when nothing exists
at the stored path of the object and the stored path of the container is not a regular
file, is answered `404` and leaves the filesystem state as it was. -/
theorem post_object_missing (lib : Lib) (s : Server) (now : Int) (fs : FS) (r : Request)
    (C O : String) (hC : PlainName C) (hO : PlainName O) (hm : r.Method = "POST")
    (hp : r.Path = "/v1.0/abc/" ++ (C ++ "/" ++ O))
    (ht : verifyToken lib (r.Header.values TokenTag) s.settings.TokenSecret now = .ok ())
    (hnone : fs (filepathJoin [s.settings.StorageLocation,
      replaceAll C ':' '_' ++ "/" ++ replaceAll O ':' '_']) = none)
    (hdir : ∀ b, fs (filepathJoin [s.settings.StorageLocation, replaceAll C ':' '_'])
      ≠ some (Node.file b)) :
    (s.storageHandler lib now fs ResponseWriter.new r).1.code = 404
    ∧ (s.storageHandler lib now fs ResponseWriter.new r).2 = fs := by
  have hTC := replaceAll_plain C hC
  have hTO := replaceAll_plain O hO
  have hg : getTarget r = replaceAll C ':' '_' ++ "/" ++ replaceAll O ':' '_' := by
    rw [getTarget_of_path r _ hp, replaceAll_append, replaceAll_append]
    rfl
  generalize replaceAll C ':' '_' = c at *
  generalize replaceAll O ':' '_' = o at *
  have hM := getMetadataFilePath_object s c o hTC hTO.2.1
  have hobj := join_child s.settings.StorageLocation c o hTC hTO.normal
  have hdobj := pathDir_child s.settings.StorageLocation c o hTC hTO.normal
  rw [storageHandler_post lib s now fs _ r hm ht,
    handlePostMetadata_object lib s fs _ r _ _ hg hM]
  rw [hobj] at hnone ⊢
  have hst : osStat fs (filepathJoin [s.settings.StorageLocation, c] ++ "/" ++ o)
      = .error Errno.ENOENT := by
    unfold osStat
    rw [hnone]
    have hmiss : fs.missing (filepathJoin [s.settings.StorageLocation, c] ++ "/" ++ o)
        = Errno.ENOENT := by
      unfold FS.missing
      rw [hdobj]
      cases hd : fs (filepathJoin [s.settings.StorageLocation, c]) with
      | none => rfl
      | some n =>
        cases n with
        | dir => rfl
        | file b => exact absurd hd (hdir b)
    rw [hmiss]
  rw [hst]
  exact ⟨httpError_code _ _, rfl⟩

/-- The witness of C11: the repository's test of a `POST` to an object that was never
created. -/
theorem post_object_missing_witness :
    (sampleServer.storageHandler sampleLib 1000 testStore ResponseWriter.new
        (sampleRequest "POST" "/v1.0/abc/test/test.txt" [("X-Object-Meta-Test", "data")]
          "")).1.code = 404
    ∧ (sampleServer.storageHandler sampleLib 1000 testStore ResponseWriter.new
        (sampleRequest "POST" "/v1.0/abc/test/test.txt" [("X-Object-Meta-Test", "data")]
          "")).2 = testStore :=
  post_object_missing sampleLib sampleServer 1000 testStore
    (sampleRequest "POST" "/v1.0/abc/test/test.txt" [("X-Object-Meta-Test", "data")] "")
    "test" "test.txt" (by decide) (by decide) (by decide) (by decide) (by decide) (by decide)
    (by
      intro b h
      rw [show testStore (filepathJoin [sampleServer.settings.StorageLocation,
        replaceAll "test" ':' '_']) = some Node.dir by decide] at h
      cases h)

/-- The counterexample of C11: no file `test/a:b` exists, and a `POST` to
`/v1.0/abc/test/a:b` is answered `202` and creates the sidecar of `test/a_b`; no file
`config.json/x` exists, and a `POST` to `/v1.0/abc/config.json/x` is answered `500`. -/
theorem post_object_colon :
    postStore "/srv/test/a:b" = none
    ∧ (sampleServer.storageHandler sampleLib 1000 postStore ResponseWriter.new
        (sampleRequest "POST" "/v1.0/abc/test/a:b" [("X-Object-Meta-Test", "data")]
          "")).1.code = 202
    ∧ postStore "/srv/test/test.a_b.metadata.json" = none
    ∧ (sampleServer.storageHandler sampleLib 1000 postStore ResponseWriter.new
        (sampleRequest "POST" "/v1.0/abc/test/a:b" [("X-Object-Meta-Test", "data")]
          "")).2 "/srv/test/test.a_b.metadata.json"
        = some (Node.file "\x7b\n\"Test\": \"data\"\n\x7d")
    ∧ postStore "/srv/config.json/x" = none
    ∧ (sampleServer.storageHandler sampleLib 1000 postStore ResponseWriter.new
        (sampleRequest "POST" "/v1.0/abc/config.json/x" [("X-Object-Meta-Test", "data")]
          "")).1.code = 500 := by
  decide

theorem sidecar_ne_complete (D T : String) :
    D ++ "/" ++ (T ++ ".metadata.json") ≠ D ++ "/" ++ "complete" := by
  apply child_ne
  have h1 : "complete".length = 8 := by decide
  have h2 : ".metadata.json".length = 14 := by decide
  rw [String.length_append]
  omega

/-- A `POST` to a container whose sidecar parses to a map that is not nil: the sidecar is
merged with the metadata of the request, and nothing but the sidecar and the marker
`complete` changes. -/
theorem post_container_loaded (lib : Lib) (s : Server) (now : Int) (fs : FS) (r : Request)
    (C B : String) (O : Meta) (hC : PlainName C) (hm : r.Method = "POST")
    (hp : r.Path = "/v1.0/abc/" ++ C)
    (ht : verifyToken lib (r.Header.values TokenTag) s.settings.TokenSecret now = .ok ())
    (hside : fs (s.getMetadataFilePath (replaceAll C ':' '_')).1 = some (Node.file B))
    (hparse : lib.jsonUnmarshal B = some (GoMap.map O)) :
    (s.storageHandler lib now fs ResponseWriter.new r).1.code = 204
    ∧ (s.storageHandler lib now fs ResponseWriter.new r).2
        (s.getMetadataFilePath (replaceAll C ':' '_')).1
      = some (Node.file (lib.jsonMarshalIndent (updateMetadata O (parseMetadata r))))
    ∧ ∀ q, q ≠ (s.getMetadataFilePath (replaceAll C ':' '_')).1 →
      q ≠ filepathJoin [s.settings.StorageLocation, replaceAll C ':' '_', "complete"] →
      (s.storageHandler lib now fs ResponseWriter.new r).2 q = fs q := by
  have hT := replaceAll_plain C hC
  have hg := getTarget_of_path r C hp
  have hM := getMetadataFilePath_container s _ hT
  have hcomp := join_complete s.settings.StorageLocation _ hT
  generalize hTT : replaceAll C ':' '_' = T at *
  generalize hD : filepathJoin [s.settings.StorageLocation, T] = D at *
  rw [hM] at hside ⊢
  simp only [] at hside ⊢
  have hload : loadMetadata lib fs (D ++ "/" ++ (T ++ ".metadata.json"))
      = .ok (GoMap.map O) := by
    rw [loadMetadata_file lib fs _ B hside, hparse]
  rw [storageHandler_post lib s now fs _ r hm ht]
  simp only [Server.handlePostMetadata, hg, hM, if_true, hload, hcomp, updateMap_map]
  have hc2 := sidecar_ne_complete D T
  obtain ⟨_, s2⟩ := storeMetadata_ok lib fs (D ++ "/" ++ (T ++ ".metadata.json"))
    (updateMetadata O (parseMetadata r)) (by rw [hside]; simp) (Or.inl (by rw [hside]; simp))
  refine ⟨rfl, ?_, ?_⟩
  · by_cases hs : (parseMetadata r).lookup "Status" = some "Complete"
    · simp only [hs, if_true]
      rw [create_or_keep_frame _ _ _ hc2]
      exact s2
    · simp only [hs, if_false]
      exact s2
  · intro q h1 h2
    by_cases hs : (parseMetadata r).lookup "Status" = some "Complete"
    · simp only [hs, if_true]
      rw [create_or_keep_frame _ _ _ h2]
      exact storeMetadata_frame lib fs _ q _ h1
    · simp only [hs, if_false]
      exact storeMetadata_frame lib fs _ q _ h1

/-- A `POST` to a container whose sidecar parses to a map that is not nil does not panic. -/
theorem post_container_calm (lib : Lib) (s : Server) (now : Int) (fs : FS) (r : Request)
    (C B : String) (O : Meta) (hC : PlainName C) (hm : r.Method = "POST")
    (hp : r.Path = "/v1.0/abc/" ++ C)
    (ht : verifyToken lib (r.Header.values TokenTag) s.settings.TokenSecret now = .ok ())
    (hside : fs (s.getMetadataFilePath (replaceAll C ':' '_')).1 = some (Node.file B))
    (hparse : lib.jsonUnmarshal B = some (GoMap.map O)) :
    (s.storageHandler lib now fs ResponseWriter.new r).1.panicked = false := by
  have hT := replaceAll_plain C hC
  have hg := getTarget_of_path r C hp
  have hM := getMetadataFilePath_container s _ hT
  rw [hM] at hside
  simp only [] at hside
  have hload : loadMetadata lib fs
      (filepathJoin [s.settings.StorageLocation, replaceAll C ':' '_'] ++ "/"
        ++ (replaceAll C ':' '_' ++ ".metadata.json")) = .ok (GoMap.map O) := by
    rw [loadMetadata_file lib fs _ B hside, hparse]
  rw [storageHandler_post lib s now fs _ r hm ht]
  simp only [Server.handlePostMetadata, hg, hM, if_true, hload, updateMap_map]
  rfl

/-- C13, where the sidecar decodes to a map that is not nil: a `POST` with a valid token to
a container whose sidecar parses to the mapping `O` is answered `204` and leaves the sidecar
holding the serialisation of `updateMetadata O M`, where `M` is the mapping parsed from the
request headers; nothing but the sidecar and the marker `complete` changes, and the handler
does not panic. -/
theorem post_container_merges (lib : Lib) (s : Server) (now : Int) (fs : FS) (r : Request)
    (C B : String) (O : Meta) (hC : PlainName C) (hm : r.Method = "POST")
    (hp : r.Path = "/v1.0/abc/" ++ C)
    (ht : verifyToken lib (r.Header.values TokenTag) s.settings.TokenSecret now = .ok ())
    (hdir : fs (filepathJoin [s.settings.StorageLocation, replaceAll C ':' '_'])
      = some Node.dir)
    (hside : fs (s.getMetadataFilePath (replaceAll C ':' '_')).1 = some (Node.file B))
    (hparse : lib.jsonUnmarshal B = some (GoMap.map O)) :
    (s.storageHandler lib now fs ResponseWriter.new r).1.code = 204
    ∧ (s.storageHandler lib now fs ResponseWriter.new r).1.panicked = false
    ∧ (s.storageHandler lib now fs ResponseWriter.new r).2
        (s.getMetadataFilePath (replaceAll C ':' '_')).1
      = some (Node.file (lib.jsonMarshalIndent (updateMetadata O (parseMetadata r))))
    ∧ (s.storageHandler lib now fs ResponseWriter.new r).2
        (filepathJoin [s.settings.StorageLocation, replaceAll C ':' '_']) = some Node.dir
    ∧ ∀ q, q ≠ (s.getMetadataFilePath (replaceAll C ':' '_')).1 →
      q ≠ filepathJoin [s.settings.StorageLocation, replaceAll C ':' '_', "complete"] →
      (s.storageHandler lib now fs ResponseWriter.new r).2 q = fs q := by
  obtain ⟨h1, h2, h3⟩ := post_container_loaded lib s now fs r C B O hC hm hp ht hside hparse
  refine ⟨h1, post_container_calm lib s now fs r C B O hC hm hp ht hside hparse, h2, ?_, h3⟩
  have hT := replaceAll_plain C hC
  rw [h3 _ ?_ ?_, hdir]
  · rw [getMetadataFilePath_container s _ hT]
    exact ne_child _ _
  · rw [join_complete _ _ hT]
    exact ne_child _ _

/-- The witness of C13: a `POST` to the container `test` of the repository's tests. -/
theorem post_container_merges_witness :
    (sampleServer.storageHandler sampleLib 1000 testStore ResponseWriter.new
        (sampleRequest "POST" "/v1.0/abc/test" [("X-Container-Meta-Foo", "bar")] "")).1.code
      = 204
    ∧ (sampleServer.storageHandler sampleLib 1000 testStore ResponseWriter.new
        (sampleRequest "POST" "/v1.0/abc/test" [("X-Container-Meta-Foo", "bar")] "")).2
          "/srv/test/test.metadata.json"
      = some (Node.file "\x7b\n\"Foo\": \"bar\",\n\"Test-Container\": \"test\"\n\x7d") :=
  have h := post_container_merges sampleLib sampleServer 1000 testStore
    (sampleRequest "POST" "/v1.0/abc/test" [("X-Container-Meta-Foo", "bar")] "")
    "test" "\x7b\n\"Test-Container\": \"test\"\n\x7d" ((∅ : Meta).insert "Test-Container" "test")
    (by decide) (by decide) (by decide) (by decide) (by decide) (by decide) (by rfl)
  ⟨h.1, h.2.2.1.trans (by decide)⟩

/-- The failing input of C13: the sidecar of the container `test` holds the JSON document
`null`, which decodes without an error to the nil map.  A `POST` to the container with the
header `X-Container-Meta-Foo: bar` panics in `updateMetadata`: no status line is written,
and the sidecar holds `null` as before, not the mapping with the key `Foo`. -/
theorem post_container_nil_map :
    nullStore "/srv/test" = some Node.dir
    ∧ nullStore "/srv/test/test.metadata.json" = some (Node.file "null")
    ∧ sampleLib.jsonUnmarshal "null" = some GoMap.nil
    ∧ (sampleServer.storageHandler sampleLib 1000 nullStore ResponseWriter.new
        (sampleRequest "POST" "/v1.0/abc/test" [("X-Container-Meta-Foo", "bar")] "")).1.panicked
        = true
    ∧ (sampleServer.storageHandler sampleLib 1000 nullStore ResponseWriter.new
        (sampleRequest "POST" "/v1.0/abc/test" [("X-Container-Meta-Foo", "bar")] "")).1.status
        = none
    ∧ (sampleServer.storageHandler sampleLib 1000 nullStore ResponseWriter.new
        (sampleRequest "POST" "/v1.0/abc/test" [("X-Container-Meta-Foo", "bar")] "")).2
        "/srv/test/test.metadata.json" = some (Node.file "null") := by
  decide

/-- In a well-formed state nothing exists below a path that is not a directory. -/
theorem FS.WellFormed.child_none {fs : FS} (hwf : fs.WellFormed) (D p : String)
    (hd : pathDir p = D) (hD : fs D ≠ some Node.dir) : fs p = none := by
  cases hx : fs p with
  | none => rfl
  | some n =>
    have := hwf p (by rw [hx]; simp)
    rw [hd] at this
    exact absurd this hD

/-- A `PUT` that creates a container stores the metadata of the request in its sidecar. -/
theorem put_new_container_sidecar (lib : Lib) (s : Server) (now : Int) (fs : FS)
    (r : Request) (C : String) (hC : PlainName C) (hm : r.Method = "PUT")
    (hp : r.Path = "/v1.0/abc/" ++ C)
    (ht : verifyToken lib (r.Header.values TokenTag) s.settings.TokenSecret now = .ok ())
    (hroot : fs (filepathClean s.settings.StorageLocation) = some Node.dir)
    (hnone : fs (filepathJoin [s.settings.StorageLocation, replaceAll C ':' '_']) = none)
    (hside : fs (s.getMetadataFilePath (replaceAll C ':' '_')).1 = none) :
    (s.storageHandler lib now fs ResponseWriter.new r).2
        (s.getMetadataFilePath (replaceAll C ':' '_')).1
      = some (Node.file (lib.jsonMarshalIndent (parseMetadata r))) := by
  have hT := replaceAll_plain C hC
  have hg := getTarget_of_path r C hp
  have hM := getMetadataFilePath_container s _ hT
  have hdM := pathDir_child s.settings.StorageLocation _ _ hT
    (normalSeg_sidecar _ hT.2.1)
  have hdD := pathDir_container s.settings.StorageLocation _ hT
  have hslash : '/' ∉ (getTarget r).toList := by rw [hg]; exact hT.2.1
  rw [storageHandler_put lib s now fs _ r hm ht, handleCreation_container lib s fs _ r hslash,
    hg]
  generalize hD : filepathJoin [s.settings.StorageLocation, replaceAll C ':' '_'] = D at *
  generalize hTT : replaceAll C ':' '_' = T at *
  rw [hM] at hside ⊢
  simp only [] at hside ⊢
  have hne1 : D ++ "/" ++ (T ++ ".metadata.json") ≠ D := (ne_child D _).symm
  have hst : osStat fs D = .error Errno.ENOENT := by
    simp [osStat, hnone, FS.missing, hdD, hroot]
  have hmk : osMkdir fs D = .ok (fs.set D Node.dir) := by
    simp [osMkdir, hnone, hdD, hroot]
  rw [hst, hmk]
  simp only []
  rw [handlePutMetadata_container lib s _ r T _ hM]
  have hload : loadMetadata lib (fs.set D Node.dir) (D ++ "/" ++ (T ++ ".metadata.json"))
      = .error (GoError.pathError Errno.ENOENT) := by
    simp [loadMetadata, osOpen, FS.set_other _ _ _ _ hne1, hside, FS.missing, hdM, FS.set_same]
  rw [hload]
  simp only [GoError.isNotExist, if_true]
  obtain ⟨s1, s2⟩ := storeMetadata_ok lib (fs.set D Node.dir)
    (D ++ "/" ++ (T ++ ".metadata.json")) (parseMetadata r)
    (by rw [FS.set_other _ _ _ _ hne1, hside]; simp)
    (Or.inr (by rw [hdM]; exact FS.set_same _ _ _))
  rcases hh : storeMetadata lib (fs.set D Node.dir) (D ++ "/" ++ (T ++ ".metadata.json"))
    (parseMetadata r) with ⟨e, fs3⟩
  rw [hh] at s1 s2
  simp only at s1 s2
  subst s1
  exact s2

/-- C14: in a well-formed state where the directory of the container does not exist, a
`POST` to the container with a valid token is answered `404` and leaves the filesystem
state as it was, whatever metadata it carries.  After a `PUT` without metadata headers has
created the container, the `POST` is answered `204` and leaves the sidecar holding the
serialisation of the metadata it carries alone: of the single key `Test-Container` with
the value `test` when that is what it carries. -/
theorem post_container_needs_put (lib : Lib) (s : Server) (now : Int) (fs : FS)
    (r1 r2 : Request) (C : String) (hC : PlainName C)
    (hm1 : r1.Method = "PUT") (hp1 : r1.Path = "/v1.0/abc/" ++ C)
    (ht1 : verifyToken lib (r1.Header.values TokenTag) s.settings.TokenSecret now = .ok ())
    (hm2 : r2.Method = "POST") (hp2 : r2.Path = "/v1.0/abc/" ++ C)
    (ht2 : verifyToken lib (r2.Header.values TokenTag) s.settings.TokenSecret now = .ok ())
    (hwf : fs.WellFormed)
    (hnodir : fs (filepathJoin [s.settings.StorageLocation, replaceAll C ':' '_'])
      ≠ some Node.dir) :
    ((s.storageHandler lib now fs ResponseWriter.new r2).1.code = 404
      ∧ (s.storageHandler lib now fs ResponseWriter.new r2).2 = fs)
    ∧ (fs (filepathJoin [s.settings.StorageLocation, replaceAll C ':' '_']) = none →
      fs (filepathClean s.settings.StorageLocation) = some Node.dir →
      parseMetadata r1 = ∅ →
      lib.jsonUnmarshal (lib.jsonMarshalIndent ∅) = some (GoMap.map ∅) →
      (s.storageHandler lib now (s.storageHandler lib now fs ResponseWriter.new r1).2
          ResponseWriter.new r2).1.code = 204
      ∧ (s.storageHandler lib now (s.storageHandler lib now fs ResponseWriter.new r1).2
          ResponseWriter.new r2).2 (s.getMetadataFilePath (replaceAll C ':' '_')).1
        = some (Node.file (lib.jsonMarshalIndent (updateMetadata ∅ (parseMetadata r2))))
      ∧ (parseMetadata r2 = (∅ : Meta).insert "Test-Container" "test" →
        (s.storageHandler lib now (s.storageHandler lib now fs ResponseWriter.new r1).2
          ResponseWriter.new r2).2 (s.getMetadataFilePath (replaceAll C ':' '_')).1
        = some (Node.file
            (lib.jsonMarshalIndent ((∅ : Meta).insert "Test-Container" "test"))))) := by
  have hT := replaceAll_plain C hC
  have hM := getMetadataFilePath_container s _ hT
  have hdM := pathDir_child s.settings.StorageLocation _ _ hT
    (normalSeg_sidecar _ hT.2.1)
  have hMnone : fs (s.getMetadataFilePath (replaceAll C ':' '_')).1 = none := by
    rw [hM]
    exact hwf.child_none _ _ hdM hnodir
  constructor
  · have hg := getTarget_of_path r2 C hp2
    rw [storageHandler_post lib s now fs _ r2 hm2 ht2]
    rw [hM] at hMnone
    simp only [] at hMnone
    have hload : loadMetadata lib fs
        (filepathJoin [s.settings.StorageLocation, replaceAll C ':' '_'] ++ "/"
          ++ (replaceAll C ':' '_' ++ ".metadata.json"))
        = .error (GoError.pathError (fs.missing
          (filepathJoin [s.settings.StorageLocation, replaceAll C ':' '_'] ++ "/"
            ++ (replaceAll C ':' '_' ++ ".metadata.json")))) := by
      simp [loadMetadata, osOpen, hMnone]
    rcases storeMetadata_cases lib fs
      (filepathJoin [s.settings.StorageLocation, replaceAll C ':' '_'] ++ "/"
        ++ (replaceAll C ':' '_' ++ ".metadata.json")) (parseMetadata r2)
      with ⟨k1, k2⟩ | ⟨_, k2⟩
    · rcases hs : storeMetadata lib fs
        (filepathJoin [s.settings.StorageLocation, replaceAll C ':' '_'] ++ "/"
          ++ (replaceAll C ':' '_' ++ ".metadata.json")) (parseMetadata r2) with ⟨e, fs1⟩
      rw [hs] at k1 k2
      simp only at k1 k2
      subst k2
      cases e with
      | none => exact absurd rfl k1
      | some e1 =>
        simp only [Server.handlePostMetadata, hg, hM, if_true, hload, GoError.isPathError, hs,
          and_true]
        exact httpError_code _ _
    · rcases k2 with k2 | k2
      · exact absurd hMnone k2
      · rw [hdM] at k2
        exact absurd k2 hnodir
  · intro hnone hroot hmeta1 hjson
    have hput := put_new_container_sidecar lib s now fs r1 C hC hm1 hp1 ht1 hroot hnone hMnone
    rw [hmeta1] at hput
    obtain ⟨h1, h2, _⟩ := post_container_loaded lib s now
      (s.storageHandler lib now fs ResponseWriter.new r1).2 r2 C _ ∅ hC hm2 hp2 ht2 hput hjson
    refine ⟨h1, h2, ?_⟩
    intro hmeta2
    rw [h2, hmeta2]
    rfl

/-- The witness of C14: the repository's test of a `POST` to the container `test` before
and after the `PUT` that creates it. -/
theorem post_container_needs_put_witness :
    ((sampleServer.storageHandler sampleLib 1000 emptyStore ResponseWriter.new
        (sampleRequest "POST" "/v1.0/abc/test" [("X-Container-Meta-Test-Container", "test")]
          "")).1.code = 404
      ∧ (sampleServer.storageHandler sampleLib 1000 emptyStore ResponseWriter.new
        (sampleRequest "POST" "/v1.0/abc/test" [("X-Container-Meta-Test-Container", "test")]
          "")).2 = emptyStore)
    ∧ ((sampleServer.storageHandler sampleLib 1000
          (sampleServer.storageHandler sampleLib 1000 emptyStore ResponseWriter.new
            (sampleRequest "PUT" "/v1.0/abc/test" [] "")).2 ResponseWriter.new
        (sampleRequest "POST" "/v1.0/abc/test" [("X-Container-Meta-Test-Container", "test")]
          "")).1.code = 204
      ∧ (sampleServer.storageHandler sampleLib 1000
          (sampleServer.storageHandler sampleLib 1000 emptyStore ResponseWriter.new
            (sampleRequest "PUT" "/v1.0/abc/test" [] "")).2 ResponseWriter.new
        (sampleRequest "POST" "/v1.0/abc/test" [("X-Container-Meta-Test-Container", "test")]
          "")).2 "/srv/test/test.metadata.json"
        = some (Node.file "\x7b\n\"Test-Container\": \"test\"\n\x7d")) :=
  have h := post_container_needs_put sampleLib sampleServer 1000 emptyStore
    (sampleRequest "PUT" "/v1.0/abc/test" [] "")
    (sampleRequest "POST" "/v1.0/abc/test" [("X-Container-Meta-Test-Container", "test")] "")
    "test" (by decide) (by decide) (by decide) (by decide) (by decide) (by decide) (by decide)
    emptyStore_wellFormed (by decide)
  have h2 := h.2 (by decide) (by decide) (by rfl) (by rfl)
  ⟨h.1, h2.1, (h2.2.2 (by rfl)).trans (by decide)⟩

/-- Whether the carrier is a container, and that no error is returned, for a carrier of
one or two elements. -/
theorem getMetadataFilePath_flag (s : Server) (T : String)
    (h : (stringsSplit T '/').length ≤ 2) :
    s.getMetadataFilePath T
      = ((s.getMetadataFilePath T).1, decide ((stringsSplit T '/').length = 1), none) := by
  have hpos : 1 ≤ (stringsSplit T '/').length := by
    unfold stringsSplit
    rw [List.length_map]
    have := splitOn_ne_nil '/' T.toList
    cases hs : splitOn '/' T.toList with
    | nil => exact absurd hs this
    | cons a l => simp
  by_cases h1 : (stringsSplit T '/').length = 1
  · simp [Server.getMetadataFilePath, h1]
  · have h2 : (stringsSplit T '/').length = 2 := by omega
    simp [Server.getMetadataFilePath, h2]

/-- Setting headers leaves the status line as it was. -/
theorem foldl_setHeader_status (tag : String) (l : List (Σ _ : String, String))
    (w : ResponseWriter) :
    (l.foldl (fun w1 kv => w1.setHeader (tag ++ kv.1) (pathEscape kv.2)) w).status
      = w.status := by
  induction l generalizing w with
  | nil => rfl
  | cons kv rest ih =>
    rw [List.foldl_cons, ih]
    unfold ResponseWriter.setHeader
    cases hs : w.status with
    | some c => simp only [hs]
    | none => rfl

/-- Setting headers leaves a header of another canonical name as it was. -/
theorem foldl_setHeader_frame (tag K : String) (l : List (Σ _ : String, String))
    (w : ResponseWriter) (h : ∀ kv ∈ l, canonicalMIMEHeaderKey (tag ++ kv.1) ≠ K) :
    (l.foldl (fun w1 kv => w1.setHeader (tag ++ kv.1) (pathEscape kv.2)) w).header.lookup K
      = w.header.lookup K := by
  induction l generalizing w with
  | nil => rfl
  | cons kv rest ih =>
    rw [List.foldl_cons, ih _ (fun kv2 h2 => h kv2 (List.mem_cons_of_mem _ h2))]
    unfold ResponseWriter.setHeader
    cases w.status with
    | some c => rfl
    | none =>
      simp only []
      exact AList.lookup_insert_ne (h kv (List.mem_cons_self _ _)).symm

/-- The header that a key of the mapping is emitted as holds the escaped value of the key,
when no other key has the same canonical header name. -/
theorem foldl_setHeader_lookup (tag : String) (l : List (Σ _ : String, String))
    (hl : l.NodupKeys) (w : ResponseWriter) (hw : w.status = none) (k v : String)
    (hmem : (⟨k, v⟩ : Σ _ : String, String) ∈ l)
    (hinj : ∀ kv ∈ l,
      canonicalMIMEHeaderKey (tag ++ kv.1) = canonicalMIMEHeaderKey (tag ++ k) → kv.1 = k) :
    (l.foldl (fun w1 kv => w1.setHeader (tag ++ kv.1) (pathEscape kv.2)) w).header.lookup
        (canonicalMIMEHeaderKey (tag ++ k)) = some (pathEscape v) := by
  induction l generalizing w with
  | nil => cases hmem
  | cons kv rest ih =>
    rw [List.nodupKeys_cons] at hl
    rw [List.foldl_cons]
    rcases List.mem_cons.mp hmem with he | hr
    · subst he
      rw [foldl_setHeader_frame]
      · simp only [ResponseWriter.setHeader, hw]
        exact AList.lookup_insert _
      · intro kv2 h2 e
        have hk2 := hinj kv2 (List.mem_cons_of_mem _ h2) e
        have hk : kv2.1 ∈ rest.keys := List.mem_keys.mpr ⟨kv2.2, h2⟩
        rw [hk2] at hk
        exact hl.1 hk
    · apply ih hl.2 _ _ hr
      · intro kv2 h2
        exact hinj kv2 (List.mem_cons_of_mem _ h2)
      · simp only [ResponseWriter.setHeader, hw]

/-- The upper-case hexadecimal digits are read back as their values. -/
theorem unhex_upperhex : ∀ d, d < 16 → ishex (upperhex d) = true ∧ unhex (upperhex d) = d := by
  decide

/-- Unescaping a byte that is not `%` keeps it. -/
theorem unescape_cons_ne (c : Char) (rest : List Char) (h : c ≠ '%') :
    unescape (c :: rest) = (unescape rest).map fun t => c :: t := by
  rw [unescape]
  · intro a b t e _
    exact h e
  · intro e
    exact h e

/-- Unescaping undoes escaping, on bytes. -/
theorem unescape_escape (l : List Char) (h : ∀ c ∈ l, c.toNat < 256) :
    unescape (l.flatMap fun c =>
      if shouldEscape c then ['%', upperhex (c.toNat / 16), upperhex (c.toNat % 16)]
      else [c]) = some l := by
  induction l with
  | nil => rfl
  | cons c rest ih =>
    have hc := h c (List.mem_cons_self _ _)
    have ih1 := ih (fun c2 h2 => h c2 (List.mem_cons_of_mem _ h2))
    rw [List.flatMap_cons]
    by_cases hs : shouldEscape c = true
    · rw [if_pos hs]
      obtain ⟨a1, a2⟩ := unhex_upperhex (c.toNat / 16) (by omega)
      obtain ⟨b1, b2⟩ := unhex_upperhex (c.toNat % 16) (by omega)
      have e : c.toNat / 16 * 16 + c.toNat % 16 = c.toNat := by omega
      rw [List.cons_append, List.cons_append, List.cons_append, List.nil_append, unescape,
        if_pos ⟨a1, b1⟩, ih1, a2, b2, e, Char.ofNat_toNat]
      rfl
    · rw [if_neg hs]
      have hne : c ≠ '%' := by
        intro e
        rw [e] at hs
        exact hs (by decide)
      rw [List.cons_append, List.nil_append, unescape_cons_ne _ _ hne, ih1]
      rfl

/-- The function `URLDecode` undoes `url.PathEscape`, on strings of bytes. -/
theorem URLDecode_pathEscape (v : String) (h : ∀ c ∈ v.toList, c.toNat < 256) :
    URLDecode (pathEscape v) = v := by
  unfold URLDecode pathUnescape pathEscape
  simp only [String.toList]
  rw [unescape_escape v.data h]
  rfl

/-- C16, as the code has it: for a `HEAD` with a valid token whose target has one or two
elements, when the sidecar of the resource holds bytes that parse to the mapping `M`, the
answer is `200`, the filesystem state is left as it was, and for every key `k` of `M`
with the value `v`, when no other key of `M` is emitted under the same canonical header
name, the response header of the canonical name of `X-Container-Meta-k` (one element) or
`X-Object-Meta-k` (two elements) holds `url.PathEscape v`, which `URLDecode` turns back
into `v` when `v` is a string of bytes; when nothing exists at the path of the sidecar
the answer is `404`.  When the sidecar holds a document that decodes to the nil map, as
`null` does, the answer is `200` without a header. -/
theorem head_emits_metadata (lib : Lib) (s : Server) (now : Int) (fs : FS) (r : Request)
    (hm : r.Method = "HEAD")
    (ht : verifyToken lib (r.Header.values TokenTag) s.settings.TokenSecret now = .ok ())
    (hdepth : (stringsSplit (getTarget r) '/').length ≤ 2) :
    (∀ (B : String) (M : Meta),
      fs (s.getMetadataFilePath (getTarget r)).1 = some (Node.file B) →
      lib.jsonUnmarshal B = some (GoMap.map M) →
      (s.storageHandler lib now fs ResponseWriter.new r).1.code = 200
      ∧ (s.storageHandler lib now fs ResponseWriter.new r).2 = fs
      ∧ ∀ k v, M.lookup k = some v →
        (∀ k2 ∈ M.keys,
          canonicalMIMEHeaderKey
              ((if (stringsSplit (getTarget r) '/').length = 1 then ContainerMeta
                else ObjectMeta) ++ k2)
            = canonicalMIMEHeaderKey
              ((if (stringsSplit (getTarget r) '/').length = 1 then ContainerMeta
                else ObjectMeta) ++ k) → k2 = k) →
        (s.storageHandler lib now fs ResponseWriter.new r).1.header.lookup
            (canonicalMIMEHeaderKey
              ((if (stringsSplit (getTarget r) '/').length = 1 then ContainerMeta
                else ObjectMeta) ++ k))
          = some (pathEscape v)
        ∧ ((∀ c ∈ v.toList, c.toNat < 256) → URLDecode (pathEscape v) = v))
    ∧ (fs (s.getMetadataFilePath (getTarget r)).1 = none →
      (s.storageHandler lib now fs ResponseWriter.new r).1.code = 404
      ∧ (s.storageHandler lib now fs ResponseWriter.new r).2 = fs)
    ∧ (∀ (B : String),
      fs (s.getMetadataFilePath (getTarget r)).1 = some (Node.file B) →
      lib.jsonUnmarshal B = some GoMap.nil →
      (s.storageHandler lib now fs ResponseWriter.new r).1.code = 200
      ∧ (s.storageHandler lib now fs ResponseWriter.new r).1.header = ∅
      ∧ (s.storageHandler lib now fs ResponseWriter.new r).2 = fs) := by
  rw [storageHandler_head lib s now fs _ r hm ht]
  have hflag := getMetadataFilePath_flag s (getTarget r) hdepth
  generalize hP : (s.getMetadataFilePath (getTarget r)).1 = P at *
  refine ⟨?_, ?_, ?_⟩
  · intro B M hside hparse
    have hload : loadMetadata lib fs P = .ok (GoMap.map M) := by
      rw [loadMetadata_file lib fs _ B hside, hparse]
    have e : s.handleGetMetadata lib fs ResponseWriter.new r
        = (M.entries.foldl
            (fun w1 kv => w1.setHeader
              ((if (stringsSplit (getTarget r) '/').length = 1 then ContainerMeta
                else ObjectMeta) ++ kv.1) (pathEscape kv.2)) ResponseWriter.new, fs) := by
      simp only [Server.handleGetMetadata]
      rw [hflag]
      simp only [hload, decide_eq_true_eq, GoMap.entries]
    rw [e]
    refine ⟨?_, rfl, ?_⟩
    · simp only [ResponseWriter.code]
      rw [foldl_setHeader_status]
      rfl
    · intro k v hk hinj
      refine ⟨?_, URLDecode_pathEscape v⟩
      apply foldl_setHeader_lookup _ _ M.nodupKeys _ rfl k v (AList.mem_lookup_iff.mp hk)
      intro kv hkv
      exact hinj kv.1 (List.mem_keys.mpr ⟨kv.2, hkv⟩)
  · intro hnone
    have hload : loadMetadata lib fs P = .error (GoError.pathError (fs.missing P)) := by
      simp [loadMetadata, osOpen, hnone]
    have e : s.handleGetMetadata lib fs ResponseWriter.new r
        = (httpError ResponseWriter.new
            (if decide ((stringsSplit (getTarget r) '/').length = 1) = true
              then ContainerNotFound else ObjectNotFound).Text
            (if decide ((stringsSplit (getTarget r) '/').length = 1) = true
              then ContainerNotFound else ObjectNotFound).StatusCode, fs) := by
      simp only [Server.handleGetMetadata]
      rw [hflag]
      simp only [hload]
    rw [e]
    refine ⟨?_, rfl⟩
    rw [httpError_code]
    split <;> rfl
  · intro B hside hnil
    have hload : loadMetadata lib fs P = .ok GoMap.nil := by
      rw [loadMetadata_file lib fs _ B hside, hnil]
    have e : s.handleGetMetadata lib fs ResponseWriter.new r = (ResponseWriter.new, fs) := by
      simp only [Server.handleGetMetadata]
      rw [hflag]
      simp only [hload, GoMap.entries, List.foldl_nil]
    rw [e]
    exact ⟨rfl, rfl, rfl⟩

/-- The witness of C16: the repository's tests of a `HEAD` of a container with metadata
and of a container that does not exist. -/
theorem head_emits_metadata_witness :
    ((sampleServer.storageHandler sampleLib 1000 testStore ResponseWriter.new
        (sampleRequest "HEAD" "/v1.0/abc/test" [] "")).1.code = 200
      ∧ (sampleServer.storageHandler sampleLib 1000 testStore ResponseWriter.new
        (sampleRequest "HEAD" "/v1.0/abc/test" [] "")).1.header.lookup
          "X-Container-Meta-Test-Container" = some "test"
      ∧ URLDecode "test" = "test")
    ∧ (sampleServer.storageHandler sampleLib 1000 emptyStore ResponseWriter.new
        (sampleRequest "HEAD" "/v1.0/abc/test" [] "")).1.code = 404 :=
  have h := head_emits_metadata sampleLib sampleServer 1000 testStore
    (sampleRequest "HEAD" "/v1.0/abc/test" [] "") (by decide) (by decide) (by decide)
  have h1 := h.1 "\x7b\n\"Test-Container\": \"test\"\n\x7d"
    ((∅ : Meta).insert "Test-Container" "test") (by decide) (by rfl)
  have h2 := h1.2.2 "Test-Container" "test" (by decide) (by
    intro k2 hk2 _
    simpa using hk2)
  have h3 := head_emits_metadata sampleLib sampleServer 1000 emptyStore
    (sampleRequest "HEAD" "/v1.0/abc/test" [] "") (by decide) (by decide) (by decide)
  ⟨⟨h1.1, h2.1, h2.2 (by decide)⟩, (h3.2.1 (by decide)).1⟩

/-- The counterexample of C16: the sidecar of the container `test` parses to a mapping
with the keys `a` and `A`, of the values `1` and `2`; both are emitted under the canonical
header name `X-Container-Meta-A`, so the response to a `HEAD` has that one metadata header,
with the value of the key visited last (here `1`), and carries one of the two pairs
only. -/
theorem head_case_collision :
    (sampleLib.jsonUnmarshal "\x7b\n\"a\": \"1\",\n\"A\": \"2\"\n\x7d").map
        (fun M => (M.lookup "a", M.lookup "A")) = some (some "1", some "2")
    ∧ caseStore "/srv/test/test.metadata.json"
      = some (Node.file "\x7b\n\"a\": \"1\",\n\"A\": \"2\"\n\x7d")
    ∧ (sampleServer.storageHandler sampleLib 1000 caseStore ResponseWriter.new
        (sampleRequest "HEAD" "/v1.0/abc/test" [] "")).1.code = 200
    ∧ (sampleServer.storageHandler sampleLib 1000 caseStore ResponseWriter.new
        (sampleRequest "HEAD" "/v1.0/abc/test" [] "")).1.header.keys = ["X-Container-Meta-A"]
    ∧ (sampleServer.storageHandler sampleLib 1000 caseStore ResponseWriter.new
        (sampleRequest "HEAD" "/v1.0/abc/test" [] "")).1.header.lookup "X-Container-Meta-A"
      = some "1"
    ∧ pathEscape "2" = "2" := by
  decide

/-! ## The claim about reading the capability manifest -/

/-- The path of the capability manifest. -/
theorem manifest_path (R : String) :
    filepathJoin [R, "System/Capabilities.json"]
      = filepathJoin [R, "System"] ++ "/" ++ "Capabilities.json" :=
  join_child R "System" "Capabilities.json" (by decide)
    ⟨by decide, by decide, by decide, by decide⟩

/-- C17, as the code has it: a `GET` with a valid token is answered `403`, whatever the
filesystem holds, when its target is not `System/Capabilities.json`.  When the target is that path and the file
under the storage root holds the bytes `B`, the answer is `200`, its body is `B` and its
`Etag` header is the hexadecimal MD5 digest of `B`.  When nothing exists at that path, in a
`System` that is not a regular file, the answer is `404`.  The filesystem state is left as
it was. -/
theorem get_manifest_only (lib : Lib) (s : Server) (now : Int) (fs : FS) (r : Request)
    (hm : r.Method = "GET")
    (ht : verifyToken lib (r.Header.values TokenTag) s.settings.TokenSecret now = .ok ()) :
    (getTarget r ≠ "System/Capabilities.json" →
      (s.storageHandler lib now fs ResponseWriter.new r).1
          = httpError ResponseWriter.new "Operation forbidden" 403
      ∧ (s.storageHandler lib now fs ResponseWriter.new r).1.code = 403
      ∧ (s.storageHandler lib now fs ResponseWriter.new r).2 = fs)
    ∧ (getTarget r = "System/Capabilities.json" →
      (∀ B, fs (filepathJoin [s.settings.StorageLocation, "System/Capabilities.json"])
            = some (Node.file B) →
        (s.storageHandler lib now fs ResponseWriter.new r).1.code = 200
        ∧ (s.storageHandler lib now fs ResponseWriter.new r).1.body = B
        ∧ (s.storageHandler lib now fs ResponseWriter.new r).1.header.lookup "Etag"
            = some (lib.md5hex B)
        ∧ (s.storageHandler lib now fs ResponseWriter.new r).2 = fs)
      ∧ (fs (filepathJoin [s.settings.StorageLocation, "System/Capabilities.json"]) = none →
        (∀ b, fs (filepathJoin [s.settings.StorageLocation, "System"])
          ≠ some (Node.file b)) →
        (s.storageHandler lib now fs ResponseWriter.new r).1.code = 404
        ∧ (s.storageHandler lib now fs ResponseWriter.new r).2 = fs)) := by
  rw [storageHandler_get lib s now fs _ r hm ht]
  constructor
  · intro hne
    have e : s.handleGet lib fs ResponseWriter.new r
        = (httpError ResponseWriter.new Forbidden.Text Forbidden.StatusCode, fs) := by
      simp [Server.handleGet, hne]
    rw [e]
    exact ⟨rfl, httpError_code _ _, rfl⟩
  · intro heq
    constructor
    · intro B hB
      have e : s.handleGet lib fs ResponseWriter.new r
          = ((((ResponseWriter.new.setHeader "Content-Type" "application/json").setHeader
              "Accept-Ranges" "bytes").setHeader "Etag" (lib.md5hex B)).write B, fs) := by
        simp [Server.handleGet, heq, osReadFile, osOpen, hB, readAll]
      rw [e]
      have hk : canonicalMIMEHeaderKey "Etag" = "Etag" := by decide
      refine ⟨rfl, ?_, ?_, rfl⟩
      · simp [ResponseWriter.write, ResponseWriter.writeHeader, ResponseWriter.setHeader,
          ResponseWriter.new]
      · simp only [ResponseWriter.write, ResponseWriter.writeHeader, ResponseWriter.setHeader,
          ResponseWriter.new, hk]
        rw [AList.lookup_insert]
    · intro hnone hsys
      have hmiss : fs.missing
          (filepathJoin [s.settings.StorageLocation, "System/Capabilities.json"])
            = Errno.ENOENT := by
        unfold FS.missing
        rw [manifest_path, pathDir_child _ "System" "Capabilities.json" (by decide)
          ⟨by decide, by decide, by decide, by decide⟩]
        cases hd : fs (filepathJoin [s.settings.StorageLocation, "System"]) with
        | none => rfl
        | some n =>
          cases n with
          | dir => rfl
          | file b => exact absurd hd (hsys b)
      have e : s.handleGet lib fs ResponseWriter.new r
          = (httpError ResponseWriter.new ObjectNotFound.Text ObjectNotFound.StatusCode,
              fs) := by
        simp [Server.handleGet, heq, osReadFile, osOpen, hnone, hmiss]
      rw [e]
      exact ⟨httpError_code _ _, rfl⟩

/-- The witness of C17: the repository's test of a `GET` of another path, a `GET` of the
manifest, and a `GET` of the manifest where there is none. -/
theorem get_manifest_only_witness :
    (sampleServer.storageHandler sampleLib 1000 manifestStore ResponseWriter.new
        (sampleRequest "GET" "/v1.0/abc/Container/somefile" [] "")).1.code = 403
    ∧ ((sampleServer.storageHandler sampleLib 1000 manifestStore ResponseWriter.new
        (sampleRequest "GET" "/v1.0/abc/System/Capabilities.json" [] "")).1.code = 200
      ∧ (sampleServer.storageHandler sampleLib 1000 manifestStore ResponseWriter.new
        (sampleRequest "GET" "/v1.0/abc/System/Capabilities.json" [] "")).1.body = "\x7b\x7d")
    ∧ (sampleServer.storageHandler sampleLib 1000 emptyStore ResponseWriter.new
        (sampleRequest "GET" "/v1.0/abc/System/Capabilities.json" [] "")).1.code = 404 :=
  have h1 := ((get_manifest_only sampleLib sampleServer 1000 manifestStore
    (sampleRequest "GET" "/v1.0/abc/Container/somefile" [] "") (by decide) (by decide)).1
    (by decide)).2.1
  have h2 := ((get_manifest_only sampleLib sampleServer 1000 manifestStore
    (sampleRequest "GET" "/v1.0/abc/System/Capabilities.json" [] "") (by decide)
    (by decide)).2 (by decide)).1 "\x7b\x7d" (by decide)
  have h3 := ((get_manifest_only sampleLib sampleServer 1000 emptyStore
    (sampleRequest "GET" "/v1.0/abc/System/Capabilities.json" [] "") (by decide)
    (by decide)).2 (by decide)).2 (by decide) (by
      intro b h
      rw [show emptyStore (filepathJoin [sampleServer.settings.StorageLocation, "System"])
        = none by decide] at h
      cases h)
  ⟨h1, ⟨h2.1, h2.2.1⟩, h3.1⟩

/-- The counterexample of C17: a `PUT` to `/v1.0/abc/System/` in an empty storage root
leaves a regular file `System` there.  The manifest `System/Capabilities.json` does not
exist then, and a `GET` of it is answered `500`, not `404`: opening a path below a regular
file fails with `ENOTDIR`, which `os.IsNotExist` does not match. -/
theorem get_manifest_below_file :
    (sampleServer.storageHandler sampleLib 1000 emptyStore ResponseWriter.new
        (sampleRequest "PUT" "/v1.0/abc/System/" [] "")).2 "/srv/System"
      = some (Node.file "")
    ∧ (sampleServer.storageHandler sampleLib 1000 emptyStore ResponseWriter.new
        (sampleRequest "PUT" "/v1.0/abc/System/" [] "")).2 "/srv/System/Capabilities.json"
      = none
    ∧ getTarget (sampleRequest "GET" "/v1.0/abc/System/Capabilities.json" [] "")
      = "System/Capabilities.json"
    ∧ (sampleServer.storageHandler sampleLib 1000
        (sampleServer.storageHandler sampleLib 1000 emptyStore ResponseWriter.new
          (sampleRequest "PUT" "/v1.0/abc/System/" [] "")).2 ResponseWriter.new
        (sampleRequest "GET" "/v1.0/abc/System/Capabilities.json" [] "")).1.code = 500 := by
  decide

/-- C18, as the code has it: a request with a valid token whose target has more than two
elements is answered `400` when its method is `PUT`, `404` when it is `HEAD` and `403`
when it is `GET`; the filesystem state is left as it was. -/
theorem storageHandler_deep_target (lib : Lib) (s : Server) (now : Int) (fs : FS)
    (r : Request) (X : String) (hp : r.Path = "/v1.0/abc/" ++ X)
    (hseg : 2 < (stringsSplit X '/').length)
    (ht : verifyToken lib (r.Header.values TokenTag) s.settings.TokenSecret now = .ok ()) :
    (r.Method = "PUT" →
      (s.storageHandler lib now fs ResponseWriter.new r).1.code = 400
      ∧ (s.storageHandler lib now fs ResponseWriter.new r).2 = fs)
    ∧ (r.Method = "HEAD" →
      (s.storageHandler lib now fs ResponseWriter.new r).1.code = 404
      ∧ (s.storageHandler lib now fs ResponseWriter.new r).2 = fs)
    ∧ (r.Method = "GET" →
      (s.storageHandler lib now fs ResponseWriter.new r).1.code = 403
      ∧ (s.storageHandler lib now fs ResponseWriter.new r).2 = fs) := by
  have hg := getTarget_of_path r X hp
  have hlen : 2 < (stringsSplit (getTarget r) '/').length := by
    rw [hg, stringsSplit_replaceAll_length]
    exact hseg
  obtain ⟨n, hn⟩ : ∃ n, (stringsSplit (getTarget r) '/').length = n + 3 :=
    ⟨(stringsSplit (getTarget r) '/').length - 3, by omega⟩
  refine ⟨?_, ?_, ?_⟩
  · intro hm
    rw [storageHandler_put lib s now fs _ r hm ht]
    have e : s.handleCreation lib fs ResponseWriter.new r
        = (httpError ResponseWriter.new (statusText 400) 400, fs) := by
      unfold Server.handleCreation
      simp only [hn]
    rw [e]
    exact ⟨httpError_code _ _, rfl⟩
  · intro hm
    rw [storageHandler_head lib s now fs _ r hm ht]
    have e : s.handleGetMetadata lib fs ResponseWriter.new r
        = (httpError ResponseWriter.new ContainerNotFound.Text ContainerNotFound.StatusCode,
            fs) := by
      simp [Server.handleGetMetadata, Server.getMetadataFilePath, hlen]
    rw [e]
    exact ⟨httpError_code _ _, rfl⟩
  · intro hm
    rw [storageHandler_get lib s now fs _ r hm ht]
    have hne : getTarget r ≠ "System/Capabilities.json" := by
      intro e
      rw [e] at hlen
      revert hlen
      decide
    have e : s.handleGet lib fs ResponseWriter.new r
        = (httpError ResponseWriter.new Forbidden.Text Forbidden.StatusCode, fs) := by
      simp [Server.handleGet, hne]
    rw [e]
    exact ⟨httpError_code _ _, rfl⟩

/-- The witness of C18: a `PUT` to a target of three elements. -/
theorem storageHandler_deep_target_witness :
    (sampleServer.storageHandler sampleLib 1000 testStore ResponseWriter.new
        (sampleRequest "PUT" "/v1.0/abc/test/a/b" [] "")).1.code = 400
    ∧ (sampleServer.storageHandler sampleLib 1000 testStore ResponseWriter.new
        (sampleRequest "PUT" "/v1.0/abc/test/a/b" [] "")).2 = testStore :=
  (storageHandler_deep_target sampleLib sampleServer 1000 testStore
    (sampleRequest "PUT" "/v1.0/abc/test/a/b" [] "") "test/a/b" (by decide) (by decide)
    (by decide)).1 (by decide)

/-- The counterexample of C18: with a target of three elements a `HEAD` is answered `404`,
a `GET` is answered `403` and a `POST` is answered `500`, none of them `400`. -/
theorem deep_target_not_400 :
    (sampleServer.storageHandler sampleLib 1000 testStore ResponseWriter.new
        (sampleRequest "HEAD" "/v1.0/abc/test/a/b" [] "")).1.code = 404
    ∧ (sampleServer.storageHandler sampleLib 1000 testStore ResponseWriter.new
        (sampleRequest "GET" "/v1.0/abc/test/a/b" [] "")).1.code = 403
    ∧ (sampleServer.storageHandler sampleLib 1000 testStore ResponseWriter.new
        (sampleRequest "POST" "/v1.0/abc/test/a/b" [] "")).1.code = 500 := by
  decide

/-! ## Claims about methods and path depth -/

/-- C19: a request with a valid token whose method is none of `HEAD`, `PUT`, `POST` and
`GET` is answered `400`, whatever its path and headers, and the filesystem state is left
as it was. -/
theorem storageHandler_other_method (lib : Lib) (s : Server) (now : Int) (fs : FS)
    (r : Request)
    (ht : verifyToken lib (r.Header.values TokenTag) s.settings.TokenSecret now = .ok ())
    (h1 : r.Method ≠ "HEAD") (h2 : r.Method ≠ "PUT") (h3 : r.Method ≠ "POST")
    (h4 : r.Method ≠ "GET") :
    (s.storageHandler lib now fs ResponseWriter.new r).1.code = 400
    ∧ (s.storageHandler lib now fs ResponseWriter.new r).2 = fs
    ∧ (s.storageHandler lib now fs ResponseWriter.new r).1
        = httpError ResponseWriter.new "Bad Request" 400 := by
  have hs : s.storageHandler lib now fs ResponseWriter.new r
      = (httpError ResponseWriter.new "Bad Request" 400, fs) := by
    unfold Server.storageHandler
    rw [ht]
    simp only [h1, h2, h3, h4, if_false]
    rfl
  rw [hs]
  exact ⟨rfl, rfl, rfl⟩

/-- The witness of C19: the repository's test of a `PATCH`. -/
theorem storageHandler_other_method_witness :
    (sampleServer.storageHandler sampleLib 1000 testStore ResponseWriter.new
        (sampleRequest "PATCH" "/v1.0/abc/test/test.txt"
          [("X-Object-Meta-Test", "testObjectData")] "")).1.code = 400
    ∧ (sampleServer.storageHandler sampleLib 1000 testStore ResponseWriter.new
        (sampleRequest "PATCH" "/v1.0/abc/test/test.txt"
          [("X-Object-Meta-Test", "testObjectData")] "")).2 = testStore :=
  have h := storageHandler_other_method sampleLib sampleServer 1000 testStore
    (sampleRequest "PATCH" "/v1.0/abc/test/test.txt" [("X-Object-Meta-Test", "testObjectData")]
      "")
    (by decide) (by decide) (by decide) (by decide) (by decide)
  ⟨h.1, h.2.1⟩

/-- C20: the auth handler answers `400` to every request whose method is not `GET`,
whatever its credentials, and answers `401`, without setting `X-Auth-Token`, to every
`GET` that lacks the `X-Auth-User` header or the `X-Auth-Key` header. -/
theorem authentication_rejects (lib : Lib) (s : Server) (now : Int) (r : Request) :
    (r.Method ≠ "GET" →
      (s.authentication lib now ResponseWriter.new r).code = 400
      ∧ (s.authentication lib now ResponseWriter.new r).header.lookup "X-Auth-Token" = none)
    ∧ (r.Method = "GET" →
      (r.Header.values UserNameTag = [] ∨ r.Header.values PasswordTag = []) →
      (s.authentication lib now ResponseWriter.new r).code = 401
      ∧ (s.authentication lib now ResponseWriter.new r).header.lookup "X-Auth-Token"
          = none) := by
  have hk3 : canonicalMIMEHeaderKey "Content-Type" = "Content-Type" := by decide
  have hk4 : canonicalMIMEHeaderKey "X-Content-Type-Options" = "X-Content-Type-Options" := by
    decide
  have hnone : ∀ msg code,
      (httpError ResponseWriter.new msg code).header.lookup "X-Auth-Token" = none := by
    intro msg code
    simp only [httpError, ResponseWriter.setHeader, ResponseWriter.new,
      ResponseWriter.writeHeader, ResponseWriter.write, hk3, hk4]
    rw [AList.lookup_insert_ne (by decide), AList.lookup_insert_ne (by decide)]
    rfl
  constructor
  · intro hm
    have ha : s.authentication lib now ResponseWriter.new r
        = httpError ResponseWriter.new (statusText 400) 400 := by
      simp [Server.authentication, hm]
    rw [ha]
    exact ⟨httpError_code _ _, hnone _ _⟩
  · intro hm hlack
    have ha : s.authentication lib now ResponseWriter.new r
        = httpError ResponseWriter.new (statusText 401) 401 := by
      unfold Server.authentication
      rw [if_neg (by simp [hm])]
      rcases hlack with h | h
      · rw [h]
      · rw [h]
        cases r.Header.values UserNameTag <;> rfl
    rw [ha]
    exact ⟨httpError_code _ _, hnone _ _⟩

/-- The witness of C20: the sample login sent as a `POST`, and a `GET` without
credentials. -/
theorem authentication_rejects_witness :
    (sampleServer.authentication sampleLib 1000 ResponseWriter.new
        { sampleLogin with Method := "POST" }).code = 400
    ∧ (sampleServer.authentication sampleLib 1000 ResponseWriter.new
        { sampleLogin with Header := ∅ }).code = 401 :=
  ⟨((authentication_rejects sampleLib sampleServer 1000
      { sampleLogin with Method := "POST" }).1 (by decide)).1,
    ((authentication_rejects sampleLib sampleServer 1000
      { sampleLogin with Header := ∅ }).2 (by decide) (Or.inl (by decide))).1⟩

/-! ## The status-override middleware -/

/-- A string that `strconv.Atoi` reads has no comma. -/
theorem atoi_no_comma (val : String) (n : Int) (h : strconvAtoi val = some n) :
    ',' ∉ val.toList := by
  intro hmem
  have hdig : ',' ∈ (if val.toList.head? = some '-' ∨ val.toList.head? = some '+'
      then val.toList.tail else val.toList) := by
    split
    · rename_i hs
      cases hl : val.toList with
      | nil => rw [hl] at hmem; cases hmem
      | cons c t =>
        rw [hl] at hmem hs
        simp only [List.head?_cons, Option.some.injEq] at hs
        rcases List.mem_cons.mp hmem with e | e
        · rw [← e] at hs
          exact absurd hs (by decide)
        · exact e
    · exact hmem
  have hcond : (if val.toList.head? = some '-' ∨ val.toList.head? = some '+'
        then val.toList.tail else val.toList) = []
      ∨ (if val.toList.head? = some '-' ∨ val.toList.head? = some '+'
        then val.toList.tail else val.toList).all Char.isDigit = false := by
    right
    apply Bool.eq_false_iff.mpr
    intro hall
    have := List.all_eq_true.mp hall _ hdig
    revert this
    decide
  have hnone : strconvAtoi val = none := by
    unfold strconvAtoi
    simp only []
    rw [if_pos hcond]
  rw [hnone] at h
  cases h

/-- The result of `statusOverrider` for a value that is an integer. -/
theorem statusOverrider_bare (val : String) (n : Int) (h : strconvAtoi val = some n) :
    statusOverrider (some val) = some (fun _ => (n, true)) := by
  have hs : stringsSplit val ',' = [val] := by
    unfold stringsSplit
    rw [splitOn_of_not_mem ',' _ (atoi_no_comma val n h)]
    rfl
  simp [statusOverrider, hs, h]

/-- The result of `statusOverrider` for a value that is not an integer. -/
theorem statusOverrider_pairs (val : String) (h : strconvAtoi val = none) :
    statusOverrider (some val)
      = if (parseOverrides (stringsSplit val ',')).entries.length = 0 then none
        else some (overrideFor (parseOverrides (stringsSplit val ','))) := by
  have hpos : (stringsSplit val ',').length ≠ 0 := by
    unfold stringsSplit
    rw [List.length_map]
    intro e
    exact splitOn_ne_nil ',' val.toList (List.length_eq_zero.mp e)
  simp only [statusOverrider, hpos, if_false, h]

/-- The first loop keeps the map as it is when no visited prefix matches. -/
theorem collectFold_none (url : String) (l : List (Σ _ : String, Int)) (m : StatusMap)
    (h : ∀ kv ∈ l, hasPrefix url kv.1 = false) :
    l.foldl (fun (found : StatusMap) kv =>
      if hasPrefix url kv.1 then found.insert kv.1 kv.2 else found) m = m := by
  induction l generalizing m with
  | nil => rfl
  | cons kv rest ih =>
    rw [List.foldl_cons, h kv (List.mem_cons_self _ _)]
    exact ih m (fun kv2 h2 => h kv2 (List.mem_cons_of_mem _ h2))

/-- The map `matches` after the first loop. -/
theorem collectFold_lookup (url : String) (l : List (Σ _ : String, Int))
    (hl : l.NodupKeys) (m : StatusMap) (q : String) :
    (l.foldl (fun (found : StatusMap) kv =>
      if hasPrefix url kv.1 then found.insert kv.1 kv.2 else found) m).lookup q
      = if hasPrefix url q = true ∧ q ∈ l.keys then l.dlookup q else m.lookup q := by
  induction l generalizing m with
  | nil => simp
  | cons kv rest ih =>
    rcases kv with ⟨a, b⟩
    rw [List.nodupKeys_cons] at hl
    rw [List.foldl_cons, ih hl.2]
    by_cases hq : q = a
    · subst hq
      have hnot : ¬ (hasPrefix url q = true ∧ q ∈ rest.keys) := fun h => hl.1 h.2
      rw [if_neg hnot]
      by_cases hp : hasPrefix url q = true
      · simp only [hp, if_true]
        rw [if_pos ⟨trivial, by simp⟩, AList.lookup_insert, List.dlookup_cons_eq]
      · rw [if_neg hp, if_neg (fun h => hp h.1)]
    · have hm : (if hasPrefix url a = true then m.insert a b else m).lookup q
          = m.lookup q := by
        split
        · exact AList.lookup_insert_ne hq
        · rfl
      have hk : q ∈ (⟨a, b⟩ :: rest : List (Σ _ : String, Int)).keys ↔ q ∈ rest.keys := by
        simp [List.keys, hq]
      rw [hm, List.dlookup_cons_ne _ _ (fun e => hq e)]
      by_cases hc : hasPrefix url q = true ∧ q ∈ rest.keys
      · rw [if_pos hc, if_pos ⟨hc.1, hk.mpr hc.2⟩]
      · rw [if_neg hc, if_neg (fun h => hc ⟨h.1, hk.mp h.2⟩)]

/-- The entries of `matches`: the visited entries whose prefix matches. -/
theorem mem_collectMatches (url : String) (l : List (Σ _ : String, Int)) (hl : l.NodupKeys)
    (q : String) (t : Int) :
    (⟨q, t⟩ : Σ _ : String, Int) ∈ (collectMatches url l).entries
      ↔ hasPrefix url q = true ∧ (⟨q, t⟩ : Σ _ : String, Int) ∈ l := by
  rw [← AList.mem_lookup_iff]
  unfold collectMatches
  rw [collectFold_lookup url l hl ∅ q]
  constructor
  · intro h
    by_cases hc : hasPrefix url q = true ∧ q ∈ l.keys
    · rw [if_pos hc] at h
      exact ⟨hc.1, (List.mem_dlookup_iff hl).mp h⟩
    · rw [if_neg hc] at h
      simp at h
  · rintro ⟨h1, h2⟩
    rw [if_pos ⟨h1, List.mem_keys_of_mem h2⟩]
    exact (List.mem_dlookup_iff hl).mpr h2

/-- The second loop keeps its variables when no visited prefix is longer than `n`. -/
theorem pickFold_keep (l : List (Σ _ : String, Int)) (n : Nat) (s : Int)
    (h : ∀ kv ∈ l, kv.1.length ≤ n) :
    l.foldl (fun (acc : Nat × Int) kv =>
      if kv.1.length > acc.1 then (kv.1.length, kv.2) else acc) (n, s) = (n, s) := by
  induction l with
  | nil => rfl
  | cons kv rest ih =>
    rw [List.foldl_cons, if_neg (by have := h kv (List.mem_cons_self _ _); simp; omega)]
    exact ih (fun kv2 h2 => h kv2 (List.mem_cons_of_mem _ h2))

/-- The second loop ends with the one visited prefix that is longer than the others. -/
theorem pickFold_longest (l : List (Σ _ : String, Int)) (acc : Nat × Int) (p : String)
    (s : Int) (hmem : (⟨p, s⟩ : Σ _ : String, Int) ∈ l) (hacc : acc.1 < p.length)
    (hothers : ∀ kv ∈ l, kv = ⟨p, s⟩ ∨ kv.1.length < p.length) :
    l.foldl (fun (acc : Nat × Int) kv =>
      if kv.1.length > acc.1 then (kv.1.length, kv.2) else acc) acc = (p.length, s) := by
  induction l generalizing acc with
  | nil => cases hmem
  | cons kv rest ih =>
    rw [List.foldl_cons]
    rcases hothers kv (List.mem_cons_self _ _) with e | hlt
    · subst e
      rw [if_pos hacc]
      apply pickFold_keep
      intro kv2 h2
      rcases hothers kv2 (List.mem_cons_of_mem _ h2) with e2 | h3
      · rw [e2]
      · exact Nat.le_of_lt h3
    · have hin : (⟨p, s⟩ : Σ _ : String, Int) ∈ rest := by
        rcases List.mem_cons.mp hmem with e | e
        · rw [← e] at hlt
          exact absurd hlt (Nat.lt_irrefl _)
        · exact e
      apply ih _ hin _ (fun kv2 h2 => hothers kv2 (List.mem_cons_of_mem _ h2))
      split
      · exact hlt
      · exact hacc

/-- Two prefixes of a string that have the same length are the same. -/
theorem hasPrefix_unique (url a b : String) (ha : hasPrefix url a = true)
    (hb : hasPrefix url b = true) (hl : a.length = b.length) : a = b := by
  unfold hasPrefix at ha hb
  have h1 := List.isPrefixOf_iff_prefix.mp ha
  have h2 := List.isPrefixOf_iff_prefix.mp hb
  have h3 := List.prefix_of_prefix_length_le h1 h2 (Nat.le_of_eq hl)
  exact String.ext (h3.eq_of_length hl)

/-- The status that the returned function picks: the status of the longest matching
prefix, when that prefix is not empty, whatever the orders in which the two loops visit
their maps. -/
theorem pickLongest_spec (overrides : StatusMap) (url p : String) (s : Int)
    (hp : overrides.lookup p = some s) (hmatch : hasPrefix url p = true)
    (hlong : ∀ q ∈ overrides.keys, hasPrefix url q = true → q.length ≤ p.length)
    (hpne : p ≠ "") (visit1 visit2 : List (Σ _ : String, Int))
    (h1 : visit1.Perm overrides.entries)
    (h2 : visit2.Perm (collectMatches url visit1).entries) :
    visit2.length ≠ 0 ∧ pickLongest visit2 = (p.length, s) := by
  have hnd : visit1.NodupKeys := (List.perm_nodupKeys h1).mpr overrides.nodupKeys
  have hps : (⟨p, s⟩ : Σ _ : String, Int) ∈ visit1 :=
    h1.mem_iff.mpr (AList.mem_lookup_iff.mp hp)
  have hin : (⟨p, s⟩ : Σ _ : String, Int) ∈ visit2 :=
    h2.mem_iff.mpr ((mem_collectMatches url visit1 hnd p s).mpr ⟨hmatch, hps⟩)
  constructor
  · intro e
    rw [List.length_eq_zero.mp e] at hin
    cases hin
  · unfold pickLongest
    apply pickFold_longest visit2 (0, 0) p s hin
      (List.length_pos.mpr (toList_ne_nil p hpne))
    intro kv hkv
    rcases kv with ⟨q, t⟩
    obtain ⟨hq1, hq2⟩ := (mem_collectMatches url visit1 hnd q t).mp (h2.mem_iff.mp hkv)
    have hq3 : (⟨q, t⟩ : Σ _ : String, Int) ∈ overrides.entries := h1.mem_iff.mp hq2
    have hle := hlong q (List.mem_keys_of_mem hq3) hq1
    rcases Nat.lt_or_ge q.length p.length with hlt | hge
    · exact Or.inr hlt
    · left
      have e := hasPrefix_unique url q p hq1 hmatch (Nat.le_antisymm hle hge)
      subst e
      have hl : overrides.lookup q = some t := AList.mem_lookup_iff.mpr hq3
      rw [hp] at hl
      rw [Option.some.inj hl]

/-- The function that `statusOverrider` returns gives the status of the longest matching
prefix, when that prefix is not empty. -/
theorem overrideFor_longest (overrides : StatusMap) (url p : String) (s : Int)
    (hp : overrides.lookup p = some s) (hmatch : hasPrefix url p = true)
    (hlong : ∀ q ∈ overrides.keys, hasPrefix url q = true → q.length ≤ p.length)
    (hpne : p ≠ "") : overrideFor overrides url = (s, true) := by
  obtain ⟨h1, h2⟩ := pickLongest_spec overrides url p s hp hmatch hlong hpne
    overrides.entries (collectMatches url overrides.entries).entries (List.Perm.refl _)
    (List.Perm.refl _)
  unfold overrideFor
  simp only [h1, if_false, h2]

/-- The function that `statusOverrider` returns passes when no prefix matches. -/
theorem overrideFor_none (overrides : StatusMap) (url : String)
    (h : ∀ p ∈ overrides.keys, hasPrefix url p = false) :
    overrideFor overrides url = (0, false) := by
  unfold overrideFor collectMatches
  rw [collectFold_none url overrides.entries ∅
    (fun kv hkv => h kv.1 (List.mem_keys.mpr ⟨kv.2, hkv⟩))]
  rfl

/-- A part that adds no entry for the prefix `p` leaves the status of `p` as it was. -/
theorem parseFold_status_frame (post : List String) (m : StatusMap) (p : String)
    (h : ∀ x ∈ post, ∀ n, parsePart x ≠ some (p, n)) :
    (post.foldl (fun (overrides : StatusMap) part =>
      match parsePart part with
      | none => overrides
      | some (url, httpStatus) => overrides.insert url httpStatus) m).lookup p
      = m.lookup p := by
  induction post generalizing m with
  | nil => rfl
  | cons x rest ih =>
    rw [List.foldl_cons, ih _ (fun y hy => h y (List.mem_cons_of_mem _ hy))]
    have hx := h x (List.mem_cons_self _ _)
    cases hpp : parsePart x with
    | none => rfl
    | some pr =>
      rcases pr with ⟨u, st⟩
      simp only []
      apply AList.lookup_insert_ne
      intro e
      rw [hpp, e] at hx
      exact hx st rfl

/-- The status of a prefix is the status of the last part that lists it. -/
theorem parseOverrides_last (pre post : List String) (part p : String) (n : Int)
    (hpart : parsePart part = some (p, n))
    (hpost : ∀ x ∈ post, ∀ m, parsePart x ≠ some (p, m)) :
    (parseOverrides (pre ++ part :: post)).lookup p = some n := by
  unfold parseOverrides
  rw [List.foldl_append, List.foldl_cons, parseFold_status_frame post _ p hpost, hpart]
  exact AList.lookup_insert _

/-- The answer of the middleware when the status is overridden by a code from `200` to
`999`, to a request of the method `method`. -/
theorem writeHeaderInt_final (method : String) (n : Int) (h1 : 200 ≤ n) (h2 : n ≤ 999) :
    (match ResponseWriter.new.writeHeaderInt n with
      | none => none
      | some w1 => some (w1.writeAllowed method (statusText n.toNat ++ "\n")))
      = some ({ header := ∅, status := some n.toNat,
                body := if method = "HEAD" ∨ n = 204 ∨ n = 304 then ""
                  else statusText n.toNat ++ "\n" }
              : ResponseWriter) := by
  have c1 : ¬ (n < 100 ∨ n > 999) := by omega
  have c2 : ¬ (n ≤ 199 ∧ n ≠ 101) := by omega
  have c3 : ¬ (100 ≤ n.toNat ∧ n.toNat ≤ 199) := by omega
  have c4 : n.toNat = 204 ↔ n = 204 := by omega
  have c5 : n.toNat = 304 ↔ n = 304 := by omega
  have e : "" ++ (statusText n.toNat ++ "\n") = statusText n.toNat ++ "\n" :=
    String.ext (List.nil_append _)
  simp only [ResponseWriter.writeHeaderInt, ResponseWriter.new, c1, c2, if_false,
    ResponseWriter.writeAllowed, ResponseWriter.writeHeader, ResponseWriter.code,
    Option.getD_some, c3, false_or, c4, c5, e]
  by_cases hb : method = "HEAD" ∨ n = 204 ∨ n = 304
  · simp only [hb, if_true]
  · simp only [hb, if_false]

/-- C21, as the code has it: when the variable is unset the middleware gives every request
to the wrapped handler; when its value is an integer `n` from `200` to `999`, every request,
whatever its URL and whatever the wrapped handler, is answered with the status `n` and the
body `StatusText(n)` followed by a line feed, or no body when `n` is `204` or `304` or the
request is a `HEAD`, and the state is left as it was. -/
theorem returnStatusFromEnv_bare {σ : Type}
    (handler : σ → ResponseWriter → Request → ResponseWriter × σ) (url : String) (st : σ)
    (r : Request) :
    (∀ w, returnStatusFromEnv none handler url st w r = some (handler st w r))
    ∧ (∀ (val : String) (n : Int), strconvAtoi val = some n → 200 ≤ n → n ≤ 999 →
      returnStatusFromEnv (some val) handler url st ResponseWriter.new r
        = some ({ header := ∅, status := some n.toNat,
                  body := if r.Method = "HEAD" ∨ n = 204 ∨ n = 304 then ""
                    else statusText n.toNat ++ "\n" },
                st)) := by
  constructor
  · intro w
    rfl
  · intro val n hval h1 h2
    have hw := writeHeaderInt_final r.Method n h1 h2
    simp only [returnStatusFromEnv, statusOverrider_bare val n hval]
    cases hx : ResponseWriter.new.writeHeaderInt n with
    | none =>
      rw [hx] at hw
      cases hw
    | some w1 =>
      rw [hx] at hw
      simp only [Option.some.injEq] at hw
      simp only [hw]

/-- The witness of C21: the variable unset, and the variable set to `503`, for a `POST` and
for a `HEAD`. -/
theorem returnStatusFromEnv_bare_witness :
    returnStatusFromEnv none (sampleServer.storageHandler sampleLib 1000) "/v1.0/abc/test"
        testStore ResponseWriter.new (sampleRequest "POST" "/v1.0/abc/test" [] "")
      = some (sampleServer.storageHandler sampleLib 1000 testStore ResponseWriter.new
          (sampleRequest "POST" "/v1.0/abc/test" [] ""))
    ∧ (returnStatusFromEnv (some "503") (sampleServer.storageHandler sampleLib 1000)
        "/v1.0/abc/test" testStore ResponseWriter.new
        (sampleRequest "POST" "/v1.0/abc/test" [] "")).map (fun x => (x.1.code, x.1.body))
      = some (503, "Service Unavailable\n")
    ∧ (returnStatusFromEnv (some "503") (sampleServer.storageHandler sampleLib 1000)
        "/v1.0/abc/test" testStore ResponseWriter.new
        (sampleRequest "HEAD" "/v1.0/abc/test" [] "")).map (fun x => (x.1.code, x.1.body))
      = some (503, "") :=
  have h := returnStatusFromEnv_bare (sampleServer.storageHandler sampleLib 1000)
    "/v1.0/abc/test" testStore (sampleRequest "POST" "/v1.0/abc/test" [] "")
  have h2 := returnStatusFromEnv_bare (sampleServer.storageHandler sampleLib 1000)
    "/v1.0/abc/test" testStore (sampleRequest "HEAD" "/v1.0/abc/test" [] "")
  ⟨h.1 ResponseWriter.new,
    (congrArg (Option.map fun x => (x.1.code, x.1.body))
      (h.2 "503" 503 (by decide) (by decide) (by decide))).trans (by decide),
    (congrArg (Option.map fun x => (x.1.code, x.1.body))
      (h2.2 "503" 503 (by decide) (by decide) (by decide))).trans (by decide)⟩

/-- The counterexample of C21: with the variable set to `0` the call of `WriteHeader`
panics and the request gets no response; with the variable set to `404` the body of the
response to a `POST` is `Not Found` followed by a line feed, which `StatusText(404)` is
not, and the response to a `HEAD` has no body. -/
theorem override_bare_invalid :
    strconvAtoi "0" = some 0
    ∧ (returnStatusFromEnv (some "0") (sampleServer.storageHandler sampleLib 1000)
        "/v1.0/abc/test" testStore ResponseWriter.new
        (sampleRequest "POST" "/v1.0/abc/test" [] "")).isNone = true
    ∧ (returnStatusFromEnv (some "404") (sampleServer.storageHandler sampleLib 1000)
        "/v1.0/abc/test" testStore ResponseWriter.new
        (sampleRequest "POST" "/v1.0/abc/test" [] "")).map (fun x => x.1.body)
      = some "Not Found\n"
    ∧ (returnStatusFromEnv (some "404") (sampleServer.storageHandler sampleLib 1000)
        "/v1.0/abc/test" testStore ResponseWriter.new
        (sampleRequest "HEAD" "/v1.0/abc/test" [] "")).map (fun x => x.1.body)
      = some ""
    ∧ statusText 404 = "Not Found" := by
  decide

/-- C22, where the longest matching prefix is not empty: when the value of the variable is
not an integer, and `overrides` is the map of the pairs it lists.  A request whose URL no
prefix of `overrides` is a prefix of is given to the wrapped handler.  A request whose URL
has a longest matching prefix that is not empty, with a status `s` from `200` to `999`, is
answered with the status `s`, whatever the wrapped handler, with the body `StatusText(s)`
and a line feed, or no body when `s` is `204` or `304` or the request is a `HEAD`, and the
state is left as it was. -/
theorem returnStatusFromEnv_pairs {σ : Type}
    (handler : σ → ResponseWriter → Request → ResponseWriter × σ) (val url : String)
    (st : σ) (r : Request) (hval : strconvAtoi val = none) :
    ((∀ p ∈ (parseOverrides (stringsSplit val ',')).keys, hasPrefix url p = false) →
      returnStatusFromEnv (some val) handler url st ResponseWriter.new r
        = some (handler st ResponseWriter.new r))
    ∧ (∀ (p : String) (s : Int),
      (parseOverrides (stringsSplit val ',')).lookup p = some s →
      hasPrefix url p = true →
      (∀ q ∈ (parseOverrides (stringsSplit val ',')).keys,
        hasPrefix url q = true → q.length ≤ p.length) →
      p ≠ "" → 200 ≤ s → s ≤ 999 →
      returnStatusFromEnv (some val) handler url st ResponseWriter.new r
        = some ({ header := ∅, status := some s.toNat,
                  body := if r.Method = "HEAD" ∨ s = 204 ∨ s = 304 then ""
                    else statusText s.toNat ++ "\n" },
                st)) := by
  constructor
  · intro hno
    simp only [returnStatusFromEnv, statusOverrider_pairs val hval]
    split
    · rfl
    · rename_i f hf
      split at hf
      · cases hf
      · simp only [Option.some.injEq] at hf
        rw [← hf, overrideFor_none _ url hno]
  · intro p s hp hmatch hlong hpne h1 h2
    have hin : (⟨p, s⟩ : Σ _ : String, Int) ∈ (parseOverrides (stringsSplit val ',')).entries :=
      AList.mem_lookup_iff.mp hp
    have hlen : (parseOverrides (stringsSplit val ',')).entries.length ≠ 0 := by
      intro e
      rw [List.length_eq_zero.mp e] at hin
      cases hin
    have hw := writeHeaderInt_final r.Method s h1 h2
    simp only [returnStatusFromEnv, statusOverrider_pairs val hval, hlen, if_false,
      overrideFor_longest _ url p s hp hmatch hlong hpne]
    cases hx : ResponseWriter.new.writeHeaderInt s with
    | none =>
      rw [hx] at hw
      cases hw
    | some w1 =>
      rw [hx] at hw
      simp only [Option.some.injEq] at hw
      simp only [hw]

/-- The witness of C22: with the pairs `/auth/:400` and `/auth/v1:503`, a request of
`/v1.0/abc/test` is given to the handler and a request of `/auth/v1.0` is answered
`503`. -/
theorem returnStatusFromEnv_pairs_witness :
    returnStatusFromEnv (some "/auth/:400,/auth/v1:503")
        (sampleServer.storageHandler sampleLib 1000) "/v1.0/abc/test" testStore
        ResponseWriter.new (sampleRequest "HEAD" "/v1.0/abc/test" [] "")
      = some (sampleServer.storageHandler sampleLib 1000 testStore ResponseWriter.new
          (sampleRequest "HEAD" "/v1.0/abc/test" [] ""))
    ∧ (returnStatusFromEnv (some "/auth/:400,/auth/v1:503")
        (sampleServer.storageHandler sampleLib 1000) "/auth/v1.0" testStore
        ResponseWriter.new sampleLogin).map (fun x => (x.1.code, x.1.body))
      = some (503, "Service Unavailable\n") :=
  ⟨(returnStatusFromEnv_pairs (sampleServer.storageHandler sampleLib 1000)
      "/auth/:400,/auth/v1:503" "/v1.0/abc/test" testStore
      (sampleRequest "HEAD" "/v1.0/abc/test" [] "") (by decide)).1 (by decide),
    (congrArg (Option.map fun x => (x.1.code, x.1.body))
      ((returnStatusFromEnv_pairs (sampleServer.storageHandler sampleLib 1000)
        "/auth/:400,/auth/v1:503" "/auth/v1.0" testStore sampleLogin (by decide)).2
        "/auth/v1" 503 (by rfl) (by decide) (by decide) (by decide) (by decide)
        (by decide))).trans (by decide)⟩

/-- The failing input of C22: the value `:503` lists the empty prefix with the status
`503`; the empty prefix is a prefix of every URL and the longest one that matches
`/auth/v1.0`, yet the returned function gives the status `0`, not `503`, with which
`WriteHeader` panics: the second loop starts from the length `0` and takes the status of
a longer prefix only. -/
theorem override_empty_prefix :
    (parseOverrides (stringsSplit ":503" ',')).lookup "" = some 503
    ∧ (parseOverrides (stringsSplit ":503" ',')).keys = [""]
    ∧ hasPrefix "/auth/v1.0" "" = true
    ∧ (statusOverrider (some ":503")).map (fun f => f "/auth/v1.0") = some (0, true)
    ∧ (returnStatusFromEnv (some ":503") (sampleServer.storageHandler sampleLib 1000)
        "/auth/v1.0" testStore ResponseWriter.new sampleLogin).isNone = true := by
  decide

/-! ## The headers that `parseMetadata` collects -/

/-- One round of the loop of `parseMetadata`, in terms of `metaKey`. -/
theorem parseMetadata_fold (r : Request) :
    parseMetadata r = r.Header.entries.foldl
      (fun (m : Meta) kv =>
        match metaKey kv.1 with
        | some k => m.insert k (URLDecode (kv.2.headD ""))
        | none => m) ∅ := by
  unfold parseMetadata
  congr 1
  funext m kv
  unfold metaKey
  by_cases h1 : kv.1.length > ContainerMeta.length ∧ hasPrefix kv.1 ContainerMeta
  · simp only [h1, and_self, if_true]
  · by_cases h2 : kv.1.length > ObjectMeta.length ∧ hasPrefix kv.1 ObjectMeta
    · simp only [h1, h2, and_self, if_true, if_false]
    · simp only [h1, h2, if_false]

theorem hasPrefix_append (tag k : String) : hasPrefix (tag ++ k) tag = true := by
  unfold hasPrefix
  apply List.isPrefixOf_iff_prefix.mpr
  show tag.data <+: tag.data ++ k.data
  exact List.prefix_append _ _

theorem trimPrefix_append (tag k : String) : trimPrefix (tag ++ k) tag = k := by
  unfold trimPrefix
  rw [hasPrefix_append, if_pos rfl]
  apply String.ext
  show List.drop tag.data.length (tag.data ++ k.data) = k.data
  exact List.drop_left _ _

theorem eq_append_of_hasPrefix (h tag : String) (hp : hasPrefix h tag = true) :
    h = tag ++ trimPrefix h tag := by
  unfold trimPrefix
  rw [hp, if_pos rfl]
  unfold hasPrefix at hp
  obtain ⟨t, ht⟩ := List.isPrefixOf_iff_prefix.mp hp
  apply String.ext
  simp only [String.toList] at ht
  show h.data = tag.data ++ List.drop tag.data.length h.data
  rw [← ht, List.drop_left]

/-- The headers that are stored under a key: the key is not empty and follows one of the
two tags in the name of the header. -/
theorem metaKey_eq_some (h k : String) :
    metaKey h = some k ↔ k ≠ "" ∧ (h = ContainerMeta ++ k ∨ h = ObjectMeta ++ k) := by
  constructor
  · intro hk
    unfold metaKey at hk
    by_cases h1 : h.length > ContainerMeta.length ∧ hasPrefix h ContainerMeta
    · rw [if_pos h1] at hk
      have e := eq_append_of_hasPrefix h _ h1.2
      rw [Option.some.inj hk] at e
      refine ⟨?_, Or.inl e⟩
      intro hk0
      have hl := h1.1
      rw [e, hk0] at hl
      simp at hl
    · rw [if_neg h1] at hk
      by_cases h2 : h.length > ObjectMeta.length ∧ hasPrefix h ObjectMeta
      · rw [if_pos h2] at hk
        have e := eq_append_of_hasPrefix h _ h2.2
        rw [Option.some.inj hk] at e
        refine ⟨?_, Or.inr e⟩
        intro hk0
        have hl := h2.1
        rw [e, hk0] at hl
        simp at hl
      · rw [if_neg h2] at hk
        cases hk
  · rintro ⟨hk, e | e⟩
    · have hlen : 0 < k.length := List.length_pos.mpr (toList_ne_nil k hk)
      unfold metaKey
      rw [e, if_pos ⟨by rw [String.length_append]; omega, hasPrefix_append _ _⟩,
        trimPrefix_append]
    · have hlen : 0 < k.length := List.length_pos.mpr (toList_ne_nil k hk)
      have hno : hasPrefix (ObjectMeta ++ k) ContainerMeta = false := by
        unfold hasPrefix
        simp [String.toList, ObjectMeta, ContainerMeta, List.isPrefixOf]
      unfold metaKey
      rw [e, if_neg (by simp [hno]),
        if_pos ⟨by rw [String.length_append]; omega, hasPrefix_append _ _⟩, trimPrefix_append]

/-- A key that no visited header is stored under is as it was. -/
theorem parseFold_frame (l : List (Σ _ : String, List String)) (m : Meta) (k : String)
    (h : ∀ kv ∈ l, metaKey kv.1 ≠ some k) :
    (l.foldl (fun (m : Meta) kv =>
        match metaKey kv.1 with
        | some k => m.insert k (URLDecode (kv.2.headD ""))
        | none => m) m).lookup k = m.lookup k := by
  induction l generalizing m with
  | nil => rfl
  | cons kv rest ih =>
    rw [List.foldl_cons, ih _ (fun kv2 h2 => h kv2 (List.mem_cons_of_mem _ h2))]
    have hkv := h kv (List.mem_cons_self _ _)
    cases hm : metaKey kv.1 with
    | none => rfl
    | some k2 =>
      simp only []
      apply AList.lookup_insert_ne
      intro e
      rw [hm, e] at hkv
      exact hkv rfl

/-- A key that one visited header only is stored under holds the decoded value of that
header. -/
theorem parseFold_lookup (l : List (Σ _ : String, List String)) (m : Meta) (k : String)
    (kv : Σ _ : String, List String) (hmem : kv ∈ l) (hk : metaKey kv.1 = some k)
    (honly : ∀ kv2 ∈ l, metaKey kv2.1 = some k → kv2 = kv) :
    (l.foldl (fun (m : Meta) kv =>
        match metaKey kv.1 with
        | some k => m.insert k (URLDecode (kv.2.headD ""))
        | none => m) m).lookup k = some (URLDecode (kv.2.headD "")) := by
  induction l generalizing m with
  | nil => cases hmem
  | cons x rest ih =>
    rw [List.foldl_cons]
    by_cases hx : metaKey x.1 = some k
    · have hxe : x = kv := honly x (List.mem_cons_self _ _) hx
      subst hxe
      by_cases hin : x ∈ rest
      · exact ih _ hin (fun kv2 h2 => honly kv2 (List.mem_cons_of_mem _ h2))
      · rw [parseFold_frame]
        · simp only [hk]
          exact AList.lookup_insert _
        · intro kv2 h2 e
          have := honly kv2 (List.mem_cons_of_mem _ h2) e
          exact hin (this ▸ h2)
    · rcases List.mem_cons.mp hmem with he | hr
      · rw [he] at hk
        exact absurd hk hx
      · exact ih _ hr (fun kv2 h2 => honly kv2 (List.mem_cons_of_mem _ h2))

/-- A key of the result was in the mapping before or is stored for a visited header. -/
theorem parseFold_source (l : List (Σ _ : String, List String)) (m : Meta) (k v : String)
    (h : (l.foldl (fun (m : Meta) kv =>
        match metaKey kv.1 with
        | some k => m.insert k (URLDecode (kv.2.headD ""))
        | none => m) m).lookup k = some v) :
    m.lookup k = some v
    ∨ ∃ kv ∈ l, metaKey kv.1 = some k ∧ v = URLDecode (kv.2.headD "") := by
  induction l generalizing m with
  | nil => exact Or.inl h
  | cons x rest ih =>
    rw [List.foldl_cons] at h
    rcases ih _ h with h1 | ⟨kv, hkv, h2, h3⟩
    · cases hx : metaKey x.1 with
      | none =>
        rw [hx] at h1
        exact Or.inl h1
      | some k2 =>
        rw [hx] at h1
        simp only [] at h1
        by_cases e : k = k2
        · subst e
          rw [AList.lookup_insert] at h1
          exact Or.inr ⟨x, List.mem_cons_self _ _, hx, (Option.some.inj h1).symm⟩
        · rw [AList.lookup_insert_ne e] at h1
          exact Or.inl h1
    · exact Or.inr ⟨kv, List.mem_cons_of_mem _ hkv, h2, h3⟩

/-- A key that the mapping holds, or that a visited header is stored under, is a key of the
result. -/
theorem parseFold_present (l : List (Σ _ : String, List String)) (m : Meta) (k : String)
    (h : (m.lookup k).isSome = true ∨ ∃ kv ∈ l, metaKey kv.1 = some k) :
    ((l.foldl (fun (m : Meta) kv =>
        match metaKey kv.1 with
        | some k => m.insert k (URLDecode (kv.2.headD ""))
        | none => m) m).lookup k).isSome = true := by
  induction l generalizing m with
  | nil =>
    rcases h with h | ⟨kv, hkv, _⟩
    · exact h
    · cases hkv
  | cons x rest ih =>
    rw [List.foldl_cons]
    apply ih
    rcases h with h | ⟨kv, hkv, hk⟩
    · left
      cases hx : metaKey x.1 with
      | none => exact h
      | some k2 =>
        simp only []
        by_cases e : k = k2
        · subst e
          rw [AList.lookup_insert]
          rfl
        · rw [AList.lookup_insert_ne e]
          exact h
    · rcases List.mem_cons.mp hkv with he | hr
      · left
        subst he
        rw [hk]
        simp only []
        rw [AList.lookup_insert]
        rfl
      · right
        exact ⟨kv, hr, hk⟩

/-- The key stored for a header with both tags absent but one. -/
theorem parseMetadata_of_header (r : Request) (h k : String) (vs : List String)
    (hk : metaKey h = some k) (hh : r.Header.lookup h = some vs)
    (honly : ∀ h2 ∈ r.Header.keys, metaKey h2 = some k → h2 = h) :
    (parseMetadata r).lookup k = some (URLDecode (vs.headD "")) := by
  rw [parseMetadata_fold]
  have hmem : (⟨h, vs⟩ : Σ _ : String, List String) ∈ r.Header.entries :=
    AList.mem_lookup_iff.mp hh
  apply parseFold_lookup _ _ k ⟨h, vs⟩ hmem hk
  intro kv2 h2 e
  have hkey : kv2.1 = h := honly kv2.1 (List.mem_keys.mpr ⟨kv2.2, h2⟩) e
  rcases kv2 with ⟨a, b⟩
  simp only at hkey
  subst hkey
  have h4 : r.Header.lookup a = some b := AList.mem_lookup_iff.mpr h2
  rw [hh] at h4
  rw [Option.some.inj h4]

/-! ## The claim about the scope of metadata headers -/

/-- C23, as the code has it: whatever the path and the method of a request, `parseMetadata`
collects the headers of both scopes.  When a header `X-Container-Meta-k` or a header
`X-Object-Meta-k` is present, the mapping holds the key `k` with the decoded value of one
of the two: of the header `X-Object-Meta-k` when no header `X-Container-Meta-k` is present,
and of the header `X-Container-Meta-k` when no header `X-Object-Meta-k` is present.  Every
key of the mapping comes from a header of one of the two scopes. -/
theorem parseMetadata_both_scopes (r : Request) (k : String) (hk : k ≠ "") :
    ((ContainerMeta ++ k ∈ r.Header.keys ∨ ObjectMeta ++ k ∈ r.Header.keys) →
      ∃ vs, (r.Header.lookup (ContainerMeta ++ k) = some vs
          ∨ r.Header.lookup (ObjectMeta ++ k) = some vs)
        ∧ (parseMetadata r).lookup k = some (URLDecode (vs.headD "")))
    ∧ (∀ vs, r.Header.lookup (ObjectMeta ++ k) = some vs →
      ContainerMeta ++ k ∉ r.Header.keys →
      (parseMetadata r).lookup k = some (URLDecode (vs.headD "")))
    ∧ (∀ vs, r.Header.lookup (ContainerMeta ++ k) = some vs →
      ObjectMeta ++ k ∉ r.Header.keys →
      (parseMetadata r).lookup k = some (URLDecode (vs.headD "")))
    ∧ (∀ v, (parseMetadata r).lookup k = some v →
      ∃ vs, (r.Header.lookup (ContainerMeta ++ k) = some vs
          ∨ r.Header.lookup (ObjectMeta ++ k) = some vs)
        ∧ v = URLDecode (vs.headD "")) := by
  have hsource : ∀ v, (parseMetadata r).lookup k = some v →
      ∃ vs, (r.Header.lookup (ContainerMeta ++ k) = some vs
          ∨ r.Header.lookup (ObjectMeta ++ k) = some vs)
        ∧ v = URLDecode (vs.headD "") := by
    intro v hv
    rw [parseMetadata_fold] at hv
    rcases parseFold_source _ _ k v hv with h1 | ⟨kv, hkv, h2, h3⟩
    · simp at h1
    · refine ⟨kv.2, ?_, h3⟩
      have hl : r.Header.lookup kv.1 = some kv.2 := AList.mem_lookup_iff.mpr hkv
      rcases ((metaKey_eq_some _ _).mp h2).2 with e1 | e1
      · exact Or.inl (e1 ▸ hl)
      · exact Or.inr (e1 ▸ hl)
  refine ⟨?_, ?_, ?_, hsource⟩
  · intro hpres
    have hsome : ((parseMetadata r).lookup k).isSome = true := by
      rw [parseMetadata_fold]
      apply parseFold_present
      right
      rcases hpres with hc | ho
      · obtain ⟨vs, hvs⟩ := List.mem_keys.mp hc
        exact ⟨⟨_, vs⟩, hvs, (metaKey_eq_some _ _).mpr ⟨hk, Or.inl rfl⟩⟩
      · obtain ⟨vs, hvs⟩ := List.mem_keys.mp ho
        exact ⟨⟨_, vs⟩, hvs, (metaKey_eq_some _ _).mpr ⟨hk, Or.inr rfl⟩⟩
    obtain ⟨v, hv⟩ := Option.isSome_iff_exists.mp hsome
    obtain ⟨vs, hvs, e⟩ := hsource v hv
    exact ⟨vs, hvs, by rw [hv, e]⟩
  · intro vs hh hno
    apply parseMetadata_of_header r _ k vs ((metaKey_eq_some _ _).mpr ⟨hk, Or.inr rfl⟩) hh
    intro h2 hmem e
    rcases ((metaKey_eq_some _ _).mp e).2 with e1 | e1
    · rw [e1] at hmem
      exact absurd hmem hno
    · exact e1
  · intro vs hh hno
    apply parseMetadata_of_header r _ k vs ((metaKey_eq_some _ _).mpr ⟨hk, Or.inl rfl⟩) hh
    intro h2 hmem e
    rcases ((metaKey_eq_some _ _).mp e).2 with e1 | e1
    · exact e1
    · rw [e1] at hmem
      exact absurd hmem hno

/-- The witness of C23: the request of the repository's test `TestCompleteFile`, a `POST`
to a container that carries `X-Object-Meta-Status`. -/
theorem parseMetadata_both_scopes_witness :
    (parseMetadata (sampleRequest "POST" "/v1.0/abc/test"
      [("X-Object-Meta-Status", "Complete")] "")).lookup "Status" = some "Complete" :=
  ((parseMetadata_both_scopes (sampleRequest "POST" "/v1.0/abc/test"
      [("X-Object-Meta-Status", "Complete")] "") "Status" (by decide)).2.1 ["Complete"]
    (by decide) (by decide)).trans (by decide)

/-- The counterexample of C23: a `POST` to the container `test` that carries an
`X-Object-Meta-` header stores the key of that header in the sidecar of the container, and
a `PUT` of the object `test/test.txt` that carries an `X-Container-Meta-` header stores
the key of that header in the sidecar of the object. -/
theorem other_scope_collected :
    (parseMetadata (sampleRequest "POST" "/v1.0/abc/test"
      [("X-Object-Meta-Status", "Complete")] "")).lookup "Status" = some "Complete"
    ∧ (sampleServer.storageHandler sampleLib 1000 testStore ResponseWriter.new
        (sampleRequest "POST" "/v1.0/abc/test" [("X-Object-Meta-Status", "Complete")] "")).2
          "/srv/test/test.metadata.json"
      = some (Node.file
          "\x7b\n\"Status\": \"Complete\",\n\"Test-Container\": \"test\"\n\x7d")
    ∧ (parseMetadata (sampleRequest "PUT" "/v1.0/abc/test/test.txt"
      [("X-Container-Meta-Foo", "bar")] "BODY")).lookup "Foo" = some "bar"
    ∧ (sampleServer.storageHandler sampleLib 1000 testStore ResponseWriter.new
        (sampleRequest "PUT" "/v1.0/abc/test/test.txt" [("X-Container-Meta-Foo", "bar")]
          "BODY")).2 "/srv/test/test.test.txt.metadata.json"
      = some (Node.file "\x7b\n\"Foo\": \"bar\"\n\x7d") := by
  decide

/-! ## The claim about `URLDecode` -/

theorem percentDecoded_cons_ne (c : Char) (rest : List Char) (h : c ≠ '%') :
    percentDecoded (c :: rest) = c :: percentDecoded rest := by
  rw [percentDecoded]
  intro a b t e _
  exact h e

theorem everyPercentEscaped_cons_ne (c : Char) (rest : List Char) (h : c ≠ '%') :
    EveryPercentEscaped (c :: rest) ↔ EveryPercentEscaped rest := by
  constructor
  · intro he i hi hp
    have := he (i + 1) (by simp; omega) (by simpa using hp)
    simpa using this
  · intro he i hi hp
    cases i with
    | zero =>
      simp at hp
      exact absurd hp h
    | succ j =>
      have := he j (by simp at hi; omega) (by simpa using hp)
      simpa using this

theorem everyPercentEscaped_triple (a b : Char) (rest : List Char)
    (ha : ishex a = true) (hb : ishex b = true) :
    EveryPercentEscaped ('%' :: a :: b :: rest) ↔ EveryPercentEscaped rest := by
  have hne : ∀ c, ishex c = true → c ≠ '%' := by
    intro c hc e
    rw [e] at hc
    revert hc
    decide
  constructor
  · intro he i hi hp
    have := he (i + 3) (by simp; omega) (by simpa using hp)
    simpa using this
  · intro he i hi hp
    match i with
    | 0 => simp [ha, hb]
    | 1 =>
      simp at hp
      exact absurd hp (hne a ha)
    | 2 =>
      simp at hp
      exact absurd hp (hne b hb)
    | j + 3 =>
      have := he j (by simp at hi; omega) (by simpa using hp)
      simpa using this

/-- The function `unescape` fails exactly on the strings with a `%` that is not followed by
two hexadecimal digits, and gives the percent-decoded string on the others. -/
theorem unescape_spec (n : Nat) : ∀ l : List Char, l.length ≤ n →
    unescape l = if EveryPercentEscaped l then some (percentDecoded l) else none := by
  induction n with
  | zero =>
    intro l hl
    have : l = [] := List.length_eq_zero.mp (Nat.le_zero.mp hl)
    subst this
    rw [if_pos (by intro i hi; simp at hi)]
    rfl
  | succ n ih =>
    intro l hl
    match l with
    | [] =>
      rw [if_pos (by intro i hi; simp at hi)]
      rfl
    | c :: rest =>
      by_cases hc : c = '%'
      · subst hc
        match rest with
        | [] =>
          rw [if_neg]
          · rfl
          · intro he
            have := (he 0 (by simp) (by simp)).1
            simp at this
        | [a] =>
          rw [if_neg]
          · rfl
          · intro he
            have := (he 0 (by simp) (by simp)).2
            simp at this
        | a :: b :: t =>
          by_cases hx : ishex a = true ∧ ishex b = true
          · have iht := ih t (by simp at hl; omega)
            rw [unescape, if_pos hx, iht]
            by_cases he : EveryPercentEscaped t
            · rw [if_pos he, if_pos ((everyPercentEscaped_triple a b t hx.1 hx.2).mpr he)]
              rfl
            · rw [if_neg he,
                if_neg (fun h => he ((everyPercentEscaped_triple a b t hx.1 hx.2).mp h))]
              rfl
          · rw [unescape, if_neg hx, if_neg]
            intro he
            have := he 0 (by simp) (by simp)
            simp at this
            exact hx this
      · have iht := ih rest (by simp at hl; omega)
        rw [unescape_cons_ne c rest hc, iht]
        by_cases he : EveryPercentEscaped rest
        · rw [if_pos he, if_pos ((everyPercentEscaped_cons_ne c rest hc).mpr he),
            percentDecoded_cons_ne c rest hc]
          rfl
        · rw [if_neg he, if_neg (fun h => he ((everyPercentEscaped_cons_ne c rest hc).mp h))]
          rfl

/-- C24: the function `URLDecode` returns a string for every string: the percent-decoded
string when every `%` of the argument is followed by two hexadecimal digits, and the
argument itself when some `%` is not. -/
theorem URLDecode_total (s : String) :
    (EveryPercentEscaped s.toList → URLDecode s = String.mk (percentDecoded s.toList))
    ∧ (¬ EveryPercentEscaped s.toList → URLDecode s = s) := by
  unfold URLDecode pathUnescape
  rw [unescape_spec s.toList.length s.toList (Nat.le_refl _)]
  constructor
  · intro h
    rw [if_pos h]
    rfl
  · intro h
    rw [if_neg h]
    rfl

/-- The witness of C24: a string with an escaped space, and a string whose `%` is followed
by one digit only. -/
theorem URLDecode_total_witness :
    URLDecode "a%20b%4a" = "a bJ" ∧ URLDecode "a%2" = "a%2" :=
  ⟨((URLDecode_total "a%20b%4a").1 (by decide)).trans (by decide),
    (URLDecode_total "a%2").2 (by decide)⟩

/-! ## The claim about the target of a request -/

theorem replaceAll_idem (X : String) :
    replaceAll (replaceAll X ':' '_') ':' '_' = replaceAll X ':' '_' := by
  apply String.ext
  simp only [replaceAll, String.toList, List.map_map]
  apply List.map_congr_left
  intro c _
  by_cases h : c = ':'
  · simp [h]
  · simp [h]

theorem replaceAll_no_colon (X : String) : ':' ∉ (replaceAll X ':' '_').toList := by
  show ':' ∉ X.toList.map (fun c => if c = ':' then '_' else c)
  intro hmem
  obtain ⟨c, _, hcs⟩ := List.mem_map.mp hmem
  by_cases hcc : c = ':'
  · rw [if_pos hcc] at hcs
    revert hcs
    decide
  · rw [if_neg hcc] at hcs
    exact hcc hcs

/-- The handlers read the path of a request through `getTarget` only. -/
theorem storageHandler_congr (lib : Lib) (s : Server) (now : Int) (fs : FS)
    (w : ResponseWriter) (r1 r2 : Request) (hM : r1.Method = r2.Method)
    (hH : r1.Header = r2.Header) (hB : r1.Body = r2.Body)
    (hT : getTarget r1 = getTarget r2) :
    s.storageHandler lib now fs w r1 = s.storageHandler lib now fs w r2 := by
  simp only [Server.storageHandler, Server.handleGetMetadata, Server.handleCreation,
    Server.handlePutMetadata, Server.handlePostMetadata, Server.handleGet, parseMetadata,
    hM, hH, hB, hT]

/-- C25: for a request path that is `/v1.0/abc/` followed by `X`, `getTarget` returns `X`
with every `:` replaced by `_`; the target contains no `:`, and the storage handler treats
the request as it treats the request whose path has the substituted target, so that no
filesystem path it uses is derived from the target before the substitution. -/
theorem getTarget_substitutes (r : Request) (X : String)
    (hp : r.Path = "/v1.0/abc/" ++ X) :
    getTarget r = replaceAll X ':' '_'
    ∧ ':' ∉ (getTarget r).toList
    ∧ ∀ (lib : Lib) (s : Server) (now : Int) (fs : FS) (w : ResponseWriter),
      s.storageHandler lib now fs w r
        = s.storageHandler lib now fs w
            { r with Path := "/v1.0/abc/" ++ replaceAll X ':' '_' } := by
  have hg := getTarget_of_path r X hp
  refine ⟨hg, ?_, ?_⟩
  · rw [hg]
    exact replaceAll_no_colon X
  · intro lib s now fs w
    refine storageHandler_congr lib s now fs w r
      { r with Path := "/v1.0/abc/" ++ replaceAll X ':' '_' } rfl rfl rfl ?_
    rw [hg, getTarget_of_path { r with Path := "/v1.0/abc/" ++ replaceAll X ':' '_' }
      (replaceAll X ':' '_') rfl, replaceAll_idem]

/-- The witness of C25: the target of `/v1.0/abc/a:b/c:d`. -/
theorem getTarget_substitutes_witness :
    getTarget (sampleRequest "PUT" "/v1.0/abc/a:b/c:d" [] "") = "a_b/c_d"
    ∧ ':' ∉ (getTarget (sampleRequest "PUT" "/v1.0/abc/a:b/c:d" [] "")).toList :=
  have h := getTarget_substitutes (sampleRequest "PUT" "/v1.0/abc/a:b/c:d" [] "") "a:b/c:d"
    (by decide)
  ⟨h.1.trans (by decide), h.2.1⟩

/-! ## The claim about what an object `PUT` changes -/

theorem child_inj (D a b : String) (h : D ++ "/" ++ a = D ++ "/" ++ b) : a = b := by
  have h1 := congrArg String.toList h
  simp only [String.toList, String.data_append, List.append_assoc] at h1
  exact String.ext (List.append_cancel_left (List.append_cancel_left h1))

/-- The function `handlePutMetadata` on an object changes at most the sidecar. -/
theorem handlePutMetadata_object_frame (lib : Lib) (s : Server) (fs : FS) (r : Request)
    (T M q : String) (h : s.getMetadataFilePath T = (M, false, none)) (hq : q ≠ M) :
    (s.handlePutMetadata lib fs r T).2 q = fs q := by
  rw [handlePutMetadata_object lib s fs r T M h]
  have hf := storeMetadata_frame lib fs M q (parseMetadata r) hq
  rcases hs : storeMetadata lib fs M (parseMetadata r) with ⟨e, fs1⟩
  rw [hs] at hf
  split
  · rfl
  · cases e <;> exact hf

/-- The state that the object branch of `handleCreation` leaves. -/
theorem handleCreation_object_state (lib : Lib) (s : Server) (fs : FS) (w : ResponseWriter)
    (r : Request) (C O : String) (hg : getTarget r = C ++ "/" ++ O) (hC : '/' ∉ C.toList)
    (hO : '/' ∉ O.toList) :
    (s.handleCreation lib fs w r).2 =
      match osCreate fs (filepathJoin [s.settings.StorageLocation, C ++ "/" ++ O]) with
      | .error _ => fs
      | .ok fs1 =>
        (s.handlePutMetadata lib
          (writeFile fs1 (filepathJoin [s.settings.StorageLocation, C ++ "/" ++ O]) r.Body) r
          (C ++ "/" ++ O)).2 := by
  rw [handleCreation_object lib s fs w r C O hg hC hO]
  cases osCreate fs (filepathJoin [s.settings.StorageLocation, C ++ "/" ++ O]) with
  | error e => rfl
  | ok fs1 =>
    simp only []
    rcases s.handlePutMetadata lib
      (writeFile fs1 (filepathJoin [s.settings.StorageLocation, C ++ "/" ++ O]) r.Body) r
      (C ++ "/" ++ O) with ⟨e, fs2⟩
    cases e with
    | panic => rfl
    | returned v => cases v <;> rfl

/-- C26, as the code has it: for names `C` and `O`, stored under the names with every `:`
replaced by `_`, a `PUT` to `/v1.0/abc/C/O` with a valid token changes at most the file
of the object and the sidecar of the object, whatever it answers.  It leaves the sidecar
of the container as it was when the stored name of the object is not the name of that
sidecar, the marker `complete` as it was when the stored name is not `complete`, and the
sidecar of another object as it was when the stored name is not the name of that
sidecar. -/
theorem put_object_changes (lib : Lib) (s : Server) (now : Int) (fs : FS) (r : Request)
    (C O : String) (hC : PlainName C) (hO : PlainName O) (hm : r.Method = "PUT")
    (hp : r.Path = "/v1.0/abc/" ++ (C ++ "/" ++ O))
    (ht : verifyToken lib (r.Header.values TokenTag) s.settings.TokenSecret now = .ok ()) :
    (∀ q, q ≠ filepathJoin [s.settings.StorageLocation,
          replaceAll C ':' '_' ++ "/" ++ replaceAll O ':' '_'] →
      q ≠ (s.getMetadataFilePath (replaceAll C ':' '_' ++ "/" ++ replaceAll O ':' '_')).1 →
      (s.storageHandler lib now fs ResponseWriter.new r).2 q = fs q)
    ∧ (replaceAll O ':' '_' ≠ replaceAll C ':' '_' ++ ".metadata.json" →
      (s.storageHandler lib now fs ResponseWriter.new r).2
          (s.getMetadataFilePath (replaceAll C ':' '_')).1
        = fs (s.getMetadataFilePath (replaceAll C ':' '_')).1)
    ∧ (replaceAll O ':' '_' ≠ "complete" →
      (s.storageHandler lib now fs ResponseWriter.new r).2
          (filepathJoin [s.settings.StorageLocation, replaceAll C ':' '_', "complete"])
        = fs (filepathJoin [s.settings.StorageLocation, replaceAll C ':' '_', "complete"]))
    ∧ (∀ O2 : String, '/' ∉ O2.toList → O2 ≠ replaceAll O ':' '_' →
      replaceAll O ':' '_' ≠ replaceAll C ':' '_' ++ "." ++ O2 ++ ".metadata.json" →
      (s.storageHandler lib now fs ResponseWriter.new r).2
          (s.getMetadataFilePath (replaceAll C ':' '_' ++ "/" ++ O2)).1
        = fs (s.getMetadataFilePath (replaceAll C ':' '_' ++ "/" ++ O2)).1) := by
  have hTC := replaceAll_plain C hC
  have hTO := replaceAll_plain O hO
  have hg : getTarget r = replaceAll C ':' '_' ++ "/" ++ replaceAll O ':' '_' := by
    rw [getTarget_of_path r _ hp, replaceAll_append, replaceAll_append]
    rfl
  generalize replaceAll C ':' '_' = c at *
  generalize replaceAll O ':' '_' = o at *
  have hM := getMetadataFilePath_object s c o hTC hTO.2.1
  have hMc := getMetadataFilePath_container s c hTC
  have hobj := join_child s.settings.StorageLocation c o hTC hTO.normal
  have hcomp := join_complete s.settings.StorageLocation c hTC
  have hframe : ∀ q, q ≠ filepathJoin [s.settings.StorageLocation, c ++ "/" ++ o] →
      q ≠ (s.getMetadataFilePath (c ++ "/" ++ o)).1 →
      (s.storageHandler lib now fs ResponseWriter.new r).2 q = fs q := by
    intro q h1 h2
    rw [storageHandler_put lib s now fs _ r hm ht,
      handleCreation_object_state lib s fs _ r c o hg hTC.2.1 hTO.2.1]
    cases hc : osCreate fs (filepathJoin [s.settings.StorageLocation, c ++ "/" ++ o]) with
    | error e => rfl
    | ok fs1 =>
      simp only []
      rw [hM] at h2
      rw [handlePutMetadata_object_frame lib s _ r _ _ q hM h2, writeFile,
        FS.set_other _ _ _ _ h1, osCreate_frame fs fs1 _ q hc h1]
  have olen : 0 < o.length := List.length_pos.mpr (toList_ne_nil o hTO.1)
  have clen : 0 < c.length := List.length_pos.mpr (toList_ne_nil c hTC.1)
  have l14 : ".metadata.json".length = 14 := by decide
  have l1 : ".".length = 1 := by decide
  have l8 : "complete".length = 8 := by decide
  refine ⟨hframe, ?_, ?_, ?_⟩
  · intro hne
    apply hframe
    · rw [hMc, hobj]
      exact fun e => hne (child_inj _ _ _ e).symm
    · rw [hMc, hM]
      apply child_ne
      simp only [String.length_append]
      omega
  · intro hne
    apply hframe
    · rw [hcomp, hobj]
      exact fun e => hne (child_inj _ _ _ e).symm
    · rw [hcomp, hM]
      apply child_ne
      simp only [String.length_append]
      omega
  · intro O2 hO2 hne1 hne2
    have hM2 := getMetadataFilePath_object s c O2 hTC hO2
    apply hframe
    · rw [hM2, hobj]
      exact fun e => hne2 (child_inj _ _ _ e).symm
    · rw [hM2, hM]
      intro e
      have e1 := congrArg String.toList (child_inj _ _ _ e)
      simp only [String.toList, String.data_append, List.append_assoc] at e1
      exact hne1 (String.ext (List.append_cancel_right
        (List.append_cancel_left (List.append_cancel_left e1))))

/-- The witness of C26: a `PUT` of the object `test/other.txt` leaves the sidecar of the
container `test`, and the sidecar of the object `test/test.txt`, as they were. -/
theorem put_object_changes_witness :
    (sampleServer.storageHandler sampleLib 1000 objectStore ResponseWriter.new
        (sampleRequest "PUT" "/v1.0/abc/test/other.txt" [] "BODY")).2
          "/srv/test/test.metadata.json"
      = some (Node.file "\x7b\n\"Test-Container\": \"test\"\n\x7d")
    ∧ (sampleServer.storageHandler sampleLib 1000 objectStore ResponseWriter.new
        (sampleRequest "PUT" "/v1.0/abc/test/other.txt" [] "BODY")).2
          "/srv/test/test.test.txt.metadata.json"
      = some (Node.file "\x7b\n\"Test\": \"testObjectData\"\n\x7d") :=
  have h := put_object_changes sampleLib sampleServer 1000 objectStore
    (sampleRequest "PUT" "/v1.0/abc/test/other.txt" [] "BODY") "test" "other.txt"
    (by decide) (by decide) (by decide) (by decide) (by decide)
  ⟨(h.2.1 (by decide)).trans (by decide),
    (h.2.2.2 "test.txt" (by decide) (by decide) (by decide)).trans (by decide)⟩

/-- The counterexample of C26: a `PUT` of an object named `test.metadata.json` into the
container `test` replaces the sidecar of the container by the body of the request, a
`PUT` of an object named `complete` creates the marker of the container, and a `PUT` of
an object named `test.test.txt.metadata.json` replaces the sidecar of the object
`test.txt`. -/
theorem put_object_overwrites :
    objectStore "/srv/test/test.metadata.json"
      = some (Node.file "\x7b\n\"Test-Container\": \"test\"\n\x7d")
    ∧ (sampleServer.storageHandler sampleLib 1000 objectStore ResponseWriter.new
        (sampleRequest "PUT" "/v1.0/abc/test/test.metadata.json" [] "BODY")).1.code = 201
    ∧ (sampleServer.storageHandler sampleLib 1000 objectStore ResponseWriter.new
        (sampleRequest "PUT" "/v1.0/abc/test/test.metadata.json" [] "BODY")).2
          "/srv/test/test.metadata.json" = some (Node.file "BODY")
    ∧ objectStore "/srv/test/complete" = none
    ∧ (sampleServer.storageHandler sampleLib 1000 objectStore ResponseWriter.new
        (sampleRequest "PUT" "/v1.0/abc/test/complete" [] "BODY")).2
          "/srv/test/complete" = some (Node.file "BODY")
    ∧ objectStore "/srv/test/test.test.txt.metadata.json"
      = some (Node.file "\x7b\n\"Test\": \"testObjectData\"\n\x7d")
    ∧ (sampleServer.storageHandler sampleLib 1000 objectStore ResponseWriter.new
        (sampleRequest "PUT" "/v1.0/abc/test/test.test.txt.metadata.json" [] "BODY")).2
          "/srv/test/test.test.txt.metadata.json" = some (Node.file "BODY") := by
  decide

/-! ## The claim about empty values in the sidecar of a container -/

/-- A `PUT` to an existing container whose sidecar parses to a map that is not nil merges
the metadata of the request into the sidecar. -/
theorem put_container_loaded (lib : Lib) (s : Server) (now : Int) (fs : FS) (r : Request)
    (C B : String) (O : Meta) (hC : PlainName C) (hm : r.Method = "PUT")
    (hp : r.Path = "/v1.0/abc/" ++ C)
    (ht : verifyToken lib (r.Header.values TokenTag) s.settings.TokenSecret now = .ok ())
    (hdir : fs (filepathJoin [s.settings.StorageLocation, replaceAll C ':' '_'])
      = some Node.dir)
    (hside : fs (s.getMetadataFilePath (replaceAll C ':' '_')).1 = some (Node.file B))
    (hparse : lib.jsonUnmarshal B = some (GoMap.map O)) :
    (s.storageHandler lib now fs ResponseWriter.new r).1.code = 202
    ∧ (s.storageHandler lib now fs ResponseWriter.new r).2
        (s.getMetadataFilePath (replaceAll C ':' '_')).1
      = some (Node.file (lib.jsonMarshalIndent (updateMetadata O (parseMetadata r))))
    ∧ (s.storageHandler lib now fs ResponseWriter.new r).1.panicked = false := by
  have hT := replaceAll_plain C hC
  have hg := getTarget_of_path r C hp
  have hM := getMetadataFilePath_container s _ hT
  have hslash : '/' ∉ (getTarget r).toList := by rw [hg]; exact hT.2.1
  rw [storageHandler_put lib s now fs _ r hm ht, handleCreation_container lib s fs _ r hslash,
    hg]
  have hst : osStat fs (filepathJoin [s.settings.StorageLocation, replaceAll C ':' '_'])
      = .ok Node.dir := by simp [osStat, hdir]
  rw [hst]
  simp only []
  rw [handlePutMetadata_container lib s fs r _ _ hM]
  rw [hM] at hside ⊢
  simp only [] at hside ⊢
  rw [loadMetadata_file lib fs _ B hside, hparse]
  simp only [updateMap_map]
  exact ⟨rfl, (storeMetadata_ok lib fs _ _ (by rw [hside]; simp)
    (Or.inl (by rw [hside]; simp))).2, rfl⟩

/-- A `PUT` to an existing container whose sidecar decodes to the nil map: when every value
that the request carries is empty the nil map is stored again, as `null`, and the answer is
`202`; otherwise the handler panics, and nothing is written. -/
theorem put_container_nil (lib : Lib) (s : Server) (now : Int) (fs : FS) (r : Request)
    (C B : String) (hC : PlainName C) (hm : r.Method = "PUT")
    (hp : r.Path = "/v1.0/abc/" ++ C)
    (ht : verifyToken lib (r.Header.values TokenTag) s.settings.TokenSecret now = .ok ())
    (hdir : fs (filepathJoin [s.settings.StorageLocation, replaceAll C ':' '_'])
      = some Node.dir)
    (hside : fs (s.getMetadataFilePath (replaceAll C ':' '_')).1 = some (Node.file B))
    (hnil : lib.jsonUnmarshal B = some GoMap.nil) :
    ((parseMetadata r).entries.all (fun kv => kv.2 = "") = true →
      (s.storageHandler lib now fs ResponseWriter.new r).1.code = 202
      ∧ (s.storageHandler lib now fs ResponseWriter.new r).1.panicked = false
      ∧ (s.storageHandler lib now fs ResponseWriter.new r).2
          (s.getMetadataFilePath (replaceAll C ':' '_')).1 = some (Node.file "null"))
    ∧ ((parseMetadata r).entries.all (fun kv => kv.2 = "") = false →
      (s.storageHandler lib now fs ResponseWriter.new r).1.panicked = true
      ∧ (s.storageHandler lib now fs ResponseWriter.new r).1.status = none
      ∧ (s.storageHandler lib now fs ResponseWriter.new r).2 = fs) := by
  have hT := replaceAll_plain C hC
  have hg := getTarget_of_path r C hp
  have hM := getMetadataFilePath_container s _ hT
  have hslash : '/' ∉ (getTarget r).toList := by rw [hg]; exact hT.2.1
  rw [storageHandler_put lib s now fs _ r hm ht, handleCreation_container lib s fs _ r hslash,
    hg]
  have hst : osStat fs (filepathJoin [s.settings.StorageLocation, replaceAll C ':' '_'])
      = .ok Node.dir := by simp [osStat, hdir]
  rw [hst]
  simp only []
  rw [hM] at hside ⊢
  simp only [] at hside ⊢
  rw [handlePutMetadata_container_panic lib s fs r _ _ B hM hside hnil]
  constructor
  · intro hall
    simp only [hall, if_true]
    exact ⟨rfl, rfl, (storeMetadata_ok lib fs _ GoMap.nil (by rw [hside]; simp)
      (Or.inl (by rw [hside]; simp))).2⟩
  · intro hall
    simp only [hall, Bool.false_eq_true, if_false]
    exact ⟨rfl, rfl, trivial⟩

/-- A `POST` to a container whose sidecar decodes to the nil map: when every value that the
request carries is empty the nil map is stored again, as `null`, and the answer is `204`;
otherwise the handler panics, and nothing is written. -/
theorem post_container_nil (lib : Lib) (s : Server) (now : Int) (fs : FS) (r : Request)
    (C B : String) (hC : PlainName C) (hm : r.Method = "POST")
    (hp : r.Path = "/v1.0/abc/" ++ C)
    (ht : verifyToken lib (r.Header.values TokenTag) s.settings.TokenSecret now = .ok ())
    (hside : fs (s.getMetadataFilePath (replaceAll C ':' '_')).1 = some (Node.file B))
    (hnil : lib.jsonUnmarshal B = some GoMap.nil) :
    ((parseMetadata r).entries.all (fun kv => kv.2 = "") = true →
      (s.storageHandler lib now fs ResponseWriter.new r).1.code = 204
      ∧ (s.storageHandler lib now fs ResponseWriter.new r).1.panicked = false
      ∧ (s.storageHandler lib now fs ResponseWriter.new r).2
          (s.getMetadataFilePath (replaceAll C ':' '_')).1 = some (Node.file "null"))
    ∧ ((parseMetadata r).entries.all (fun kv => kv.2 = "") = false →
      (s.storageHandler lib now fs ResponseWriter.new r).1.panicked = true
      ∧ (s.storageHandler lib now fs ResponseWriter.new r).1.status = none
      ∧ (s.storageHandler lib now fs ResponseWriter.new r).2 = fs) := by
  have hT := replaceAll_plain C hC
  have hg := getTarget_of_path r C hp
  have hM := getMetadataFilePath_container s _ hT
  have hcomp := join_complete s.settings.StorageLocation _ hT
  generalize hTT : replaceAll C ':' '_' = T at *
  generalize hD : filepathJoin [s.settings.StorageLocation, T] = D at *
  rw [hM] at hside ⊢
  simp only [] at hside ⊢
  have hload : loadMetadata lib fs (D ++ "/" ++ (T ++ ".metadata.json"))
      = .ok GoMap.nil := by
    rw [loadMetadata_file lib fs _ B hside, hnil]
  rw [storageHandler_post lib s now fs _ r hm ht]
  constructor
  · intro hall
    simp only [Server.handlePostMetadata, hg, hM, if_true, hload, hcomp, updateMap, hall]
    obtain ⟨_, s2⟩ := storeMetadata_ok lib fs (D ++ "/" ++ (T ++ ".metadata.json"))
      GoMap.nil (by rw [hside]; simp) (Or.inl (by rw [hside]; simp))
    refine ⟨rfl, rfl, ?_⟩
    by_cases hs : (parseMetadata r).lookup "Status" = some "Complete"
    · simp only [hs, if_true]
      rw [create_or_keep_frame _ _ _ (sidecar_ne_complete D T)]
      exact s2
    · simp only [hs, if_false]
      exact s2
  · intro hall
    simp only [Server.handlePostMetadata, hg, hM, if_true, hload, hcomp, updateMap, hall,
      Bool.false_eq_true, if_false]
    exact ⟨rfl, rfl, trivial⟩

/-- A `PUT` to an existing container without a sidecar stores the metadata of the request
as it is. -/
theorem put_container_absent (lib : Lib) (s : Server) (now : Int) (fs : FS) (r : Request)
    (C : String) (hC : PlainName C) (hm : r.Method = "PUT")
    (hp : r.Path = "/v1.0/abc/" ++ C)
    (ht : verifyToken lib (r.Header.values TokenTag) s.settings.TokenSecret now = .ok ())
    (hdir : fs (filepathJoin [s.settings.StorageLocation, replaceAll C ':' '_'])
      = some Node.dir)
    (hside : fs (s.getMetadataFilePath (replaceAll C ':' '_')).1 = none) :
    (s.storageHandler lib now fs ResponseWriter.new r).1.code = 202
    ∧ (s.storageHandler lib now fs ResponseWriter.new r).2
        (s.getMetadataFilePath (replaceAll C ':' '_')).1
      = some (Node.file (lib.jsonMarshalIndent (parseMetadata r))) := by
  have hT := replaceAll_plain C hC
  have hg := getTarget_of_path r C hp
  have hM := getMetadataFilePath_container s _ hT
  have hdM := pathDir_child s.settings.StorageLocation _ _ hT
    (normalSeg_sidecar _ hT.2.1)
  have hslash : '/' ∉ (getTarget r).toList := by rw [hg]; exact hT.2.1
  rw [storageHandler_put lib s now fs _ r hm ht, handleCreation_container lib s fs _ r hslash,
    hg]
  have hst : osStat fs (filepathJoin [s.settings.StorageLocation, replaceAll C ':' '_'])
      = .ok Node.dir := by simp [osStat, hdir]
  rw [hst]
  simp only []
  rw [handlePutMetadata_container lib s fs r _ _ hM]
  rw [hM] at hside ⊢
  simp only [] at hside ⊢
  have hload : loadMetadata lib fs
      (filepathJoin [s.settings.StorageLocation, replaceAll C ':' '_'] ++ "/"
        ++ (replaceAll C ':' '_' ++ ".metadata.json"))
      = .error (GoError.pathError Errno.ENOENT) := by
    simp [loadMetadata, osOpen, hside, FS.missing, hdM, hdir]
  rw [hload]
  simp only [GoError.isNotExist, if_true]
  obtain ⟨s1, s2⟩ := storeMetadata_ok lib fs
    (filepathJoin [s.settings.StorageLocation, replaceAll C ':' '_'] ++ "/"
      ++ (replaceAll C ':' '_' ++ ".metadata.json")) (parseMetadata r)
    (by rw [hside]; simp) (Or.inr (by rw [hdM]; exact hdir))
  rcases hh : storeMetadata lib fs
    (filepathJoin [s.settings.StorageLocation, replaceAll C ':' '_'] ++ "/"
      ++ (replaceAll C ':' '_' ++ ".metadata.json")) (parseMetadata r) with ⟨e, fs3⟩
  rw [hh] at s1 s2
  simp only at s1 s2
  subst s1
  exact ⟨rfl, s2⟩

/-- A `POST` to an existing container without a sidecar stores the metadata of the request
as it is. -/
theorem post_container_absent (lib : Lib) (s : Server) (now : Int) (fs : FS) (r : Request)
    (C : String) (hC : PlainName C) (hm : r.Method = "POST")
    (hp : r.Path = "/v1.0/abc/" ++ C)
    (ht : verifyToken lib (r.Header.values TokenTag) s.settings.TokenSecret now = .ok ())
    (hdir : fs (filepathJoin [s.settings.StorageLocation, replaceAll C ':' '_'])
      = some Node.dir)
    (hside : fs (s.getMetadataFilePath (replaceAll C ':' '_')).1 = none) :
    (s.storageHandler lib now fs ResponseWriter.new r).1.code = 204
    ∧ (s.storageHandler lib now fs ResponseWriter.new r).2
        (s.getMetadataFilePath (replaceAll C ':' '_')).1
      = some (Node.file (lib.jsonMarshalIndent (parseMetadata r))) := by
  have hT := replaceAll_plain C hC
  have hg := getTarget_of_path r C hp
  have hM := getMetadataFilePath_container s _ hT
  have hdM := pathDir_child s.settings.StorageLocation _ _ hT
    (normalSeg_sidecar _ hT.2.1)
  have hcomp := join_complete s.settings.StorageLocation _ hT
  generalize hTT : replaceAll C ':' '_' = T at *
  generalize hD : filepathJoin [s.settings.StorageLocation, T] = D at *
  rw [hM] at hside ⊢
  simp only [] at hside ⊢
  have hload : loadMetadata lib fs (D ++ "/" ++ (T ++ ".metadata.json"))
      = .error (GoError.pathError Errno.ENOENT) := by
    simp [loadMetadata, osOpen, hside, FS.missing, hdM, hdir]
  obtain ⟨s1, s2⟩ := storeMetadata_ok lib fs (D ++ "/" ++ (T ++ ".metadata.json"))
    (parseMetadata r) (by rw [hside]; simp) (Or.inr (by rw [hdM]; exact hdir))
  rw [storageHandler_post lib s now fs _ r hm ht]
  rcases hh : storeMetadata lib fs (D ++ "/" ++ (T ++ ".metadata.json")) (parseMetadata r)
    with ⟨e, fs3⟩
  rw [hh] at s1 s2
  simp only at s1 s2
  subst s1
  simp only [Server.handlePostMetadata, hg, hM, if_true, hload, GoError.isPathError, hh, hcomp]
  refine ⟨rfl, ?_⟩
  by_cases hs : (parseMetadata r).lookup "Status" = some "Complete"
  · simp only [hs, if_true]
    rw [create_or_keep_frame _ _ _ (sidecar_ne_complete D T)]
    exact s2
  · simp only [hs, if_false]
    exact s2

/-- Merging into a mapping without empty values leaves a mapping without empty values. -/
theorem updateMetadata_no_empty (O M : Meta) (h : ∀ k, O.lookup k ≠ some "") (k : String) :
    (updateMetadata O M).lookup k ≠ some "" := by
  rw [updateMetadata_lookup]
  cases hk : M.lookup k with
  | none => exact h k
  | some v =>
    by_cases hv : v = ""
    · simp [hv]
    · simp only [ne_eq, hv, not_false_eq_true, if_true]
      intro e
      exact hv (Option.some.inj e)

/-- C27, as the code has it: a `PUT` or a `POST` with a valid token to a container whose
directory exists and whose sidecar parses to a mapping without empty values is answered
`202` or `204`, and the sidecar stored afterwards holds the merged mapping, which has no
key with the empty value.  When the sidecar holds a document that decodes to the nil map,
as `null` does, the request succeeds only when every value it carries is empty, and the
sidecar stored afterwards holds `null`, which has no key; otherwise the handler panics,
no response is written and the state is as it was.  When the sidecar is absent, in a
directory that exists or that the `PUT` creates, the sidecar stored afterwards holds the
mapping parsed from the request as it is: it has no key with the empty value only when the
request carries none. -/
theorem container_sidecar_no_tombstone (lib : Lib) (s : Server) (now : Int) (fs : FS)
    (r : Request) (C : String) (hC : PlainName C) (hp : r.Path = "/v1.0/abc/" ++ C)
    (ht : verifyToken lib (r.Header.values TokenTag) s.settings.TokenSecret now = .ok ())
    (hmeth : r.Method = "PUT" ∨ r.Method = "POST") :
    (∀ (B : String) (O : Meta),
      fs (filepathJoin [s.settings.StorageLocation, replaceAll C ':' '_']) = some Node.dir →
      fs (s.getMetadataFilePath (replaceAll C ':' '_')).1 = some (Node.file B) →
      lib.jsonUnmarshal B = some (GoMap.map O) →
      (∀ k, O.lookup k ≠ some "") →
      ((s.storageHandler lib now fs ResponseWriter.new r).1.code = 202
        ∨ (s.storageHandler lib now fs ResponseWriter.new r).1.code = 204)
      ∧ (s.storageHandler lib now fs ResponseWriter.new r).1.panicked = false
      ∧ (s.storageHandler lib now fs ResponseWriter.new r).2
          (s.getMetadataFilePath (replaceAll C ':' '_')).1
        = some (Node.file (lib.jsonMarshalIndent (updateMetadata O (parseMetadata r))))
      ∧ ∀ k, (updateMetadata O (parseMetadata r)).lookup k ≠ some "")
    ∧ (∀ (B : String),
      fs (filepathJoin [s.settings.StorageLocation, replaceAll C ':' '_']) = some Node.dir →
      fs (s.getMetadataFilePath (replaceAll C ':' '_')).1 = some (Node.file B) →
      lib.jsonUnmarshal B = some GoMap.nil →
      ((parseMetadata r).entries.all (fun kv => kv.2 = "") = true →
        ((s.storageHandler lib now fs ResponseWriter.new r).1.code = 202
          ∨ (s.storageHandler lib now fs ResponseWriter.new r).1.code = 204)
        ∧ (s.storageHandler lib now fs ResponseWriter.new r).1.panicked = false
        ∧ (s.storageHandler lib now fs ResponseWriter.new r).2
            (s.getMetadataFilePath (replaceAll C ':' '_')).1 = some (Node.file "null"))
      ∧ ((parseMetadata r).entries.all (fun kv => kv.2 = "") = false →
        (s.storageHandler lib now fs ResponseWriter.new r).1.panicked = true
        ∧ (s.storageHandler lib now fs ResponseWriter.new r).1.status = none
        ∧ (s.storageHandler lib now fs ResponseWriter.new r).2 = fs))
    ∧ (fs (s.getMetadataFilePath (replaceAll C ':' '_')).1 = none →
      (fs (filepathJoin [s.settings.StorageLocation, replaceAll C ':' '_']) = some Node.dir
        ∨ (r.Method = "PUT"
          ∧ fs (filepathJoin [s.settings.StorageLocation, replaceAll C ':' '_']) = none
          ∧ fs (filepathClean s.settings.StorageLocation) = some Node.dir)) →
      (s.storageHandler lib now fs ResponseWriter.new r).2
          (s.getMetadataFilePath (replaceAll C ':' '_')).1
        = some (Node.file (lib.jsonMarshalIndent (parseMetadata r)))) := by
  refine ⟨?_, ?_, ?_⟩
  · intro B O hdir hside hparse hO
    refine ⟨?_, ?_, ?_, updateMetadata_no_empty O (parseMetadata r) hO⟩
    · rcases hmeth with hm | hm
      · exact Or.inl (put_container_loaded lib s now fs r C B O hC hm hp ht hdir hside
          hparse).1
      · exact Or.inr (post_container_loaded lib s now fs r C B O hC hm hp ht hside
          hparse).1
    · rcases hmeth with hm | hm
      · exact (put_container_loaded lib s now fs r C B O hC hm hp ht hdir hside
          hparse).2.2
      · exact post_container_calm lib s now fs r C B O hC hm hp ht hside hparse
    · rcases hmeth with hm | hm
      · exact (put_container_loaded lib s now fs r C B O hC hm hp ht hdir hside
          hparse).2.1
      · exact (post_container_loaded lib s now fs r C B O hC hm hp ht hside hparse).2.1
  · intro B hdir hside hnil
    rcases hmeth with hm | hm
    · obtain ⟨k1, k2⟩ := put_container_nil lib s now fs r C B hC hm hp ht hdir hside hnil
      exact ⟨fun hall => ⟨Or.inl (k1 hall).1, (k1 hall).2⟩, k2⟩
    · obtain ⟨k1, k2⟩ := post_container_nil lib s now fs r C B hC hm hp ht hside hnil
      exact ⟨fun hall => ⟨Or.inr (k1 hall).1, (k1 hall).2⟩, k2⟩
  · intro hside hcases
    rcases hcases with hdir | ⟨hm, hnone, hroot⟩
    · rcases hmeth with hm | hm
      · exact (put_container_absent lib s now fs r C hC hm hp ht hdir hside).2
      · exact (post_container_absent lib s now fs r C hC hm hp ht hdir hside).2
    · exact put_new_container_sidecar lib s now fs r C hC hm hp ht hroot hnone hside

/-- The witness of C27: a `POST` that deletes the only key of the sidecar of the container
`test` leaves a sidecar without keys, and a `POST` that deletes a key of the container whose
sidecar holds `null` leaves the sidecar holding `null`. -/
theorem container_sidecar_no_tombstone_witness :
    (sampleServer.storageHandler sampleLib 1000 testStore ResponseWriter.new
        (sampleRequest "POST" "/v1.0/abc/test" [("X-Container-Meta-Test-Container", "")]
          "")).2 "/srv/test/test.metadata.json" = some (Node.file "\x7b\x7d")
    ∧ (sampleServer.storageHandler sampleLib 1000 nullStore ResponseWriter.new
        (sampleRequest "POST" "/v1.0/abc/test" [("X-Container-Meta-Test-Container", "")]
          "")).2 "/srv/test/test.metadata.json" = some (Node.file "null") :=
  have h := (container_sidecar_no_tombstone sampleLib sampleServer 1000 testStore
    (sampleRequest "POST" "/v1.0/abc/test" [("X-Container-Meta-Test-Container", "")] "")
    "test" (by decide) (by decide) (by decide) (Or.inr (by decide))).1
    "\x7b\n\"Test-Container\": \"test\"\n\x7d" ((∅ : Meta).insert "Test-Container" "test")
    (by decide) (by decide) (by rfl) (by
      intro k
      by_cases hk : k = "Test-Container"
      · subst hk
        decide
      · rw [AList.lookup_insert_ne hk]
        simp)
  have h2 := ((container_sidecar_no_tombstone sampleLib sampleServer 1000 nullStore
    (sampleRequest "POST" "/v1.0/abc/test" [("X-Container-Meta-Test-Container", "")] "")
    "test" (by decide) (by decide) (by decide) (Or.inr (by decide))).2.1
    "null" (by decide) (by decide) (by rfl)).1 (by decide)
  ⟨h.2.2.1.trans (by decide), h2.2.2⟩

/-- The counterexample of C27: the container `test` does not exist, and a `PUT` that
carries the key `Foo` with the empty value is answered `201` and stores a sidecar that
holds `Foo` with the empty value; the container `test` exists without a sidecar, and a
`POST` that carries the same key is answered `204` and stores the same sidecar. -/
theorem put_stores_tombstone :
    emptyStore "/srv/test/test.metadata.json" = none
    ∧ (sampleServer.storageHandler sampleLib 1000 emptyStore ResponseWriter.new
        (sampleRequest "PUT" "/v1.0/abc/test" [("X-Container-Meta-Foo", "")] "")).1.code
      = 201
    ∧ (sampleServer.storageHandler sampleLib 1000 emptyStore ResponseWriter.new
        (sampleRequest "PUT" "/v1.0/abc/test" [("X-Container-Meta-Foo", "")] "")).2
          "/srv/test/test.metadata.json" = some (Node.file "\x7b\n\"Foo\": \"\"\n\x7d")
    ∧ postStore "/srv/test/test.metadata.json" = none
    ∧ (sampleServer.storageHandler sampleLib 1000 postStore ResponseWriter.new
        (sampleRequest "POST" "/v1.0/abc/test" [("X-Container-Meta-Foo", "")] "")).1.code
      = 204
    ∧ (sampleServer.storageHandler sampleLib 1000 postStore ResponseWriter.new
        (sampleRequest "POST" "/v1.0/abc/test" [("X-Container-Meta-Foo", "")] "")).2
          "/srv/test/test.metadata.json" = some (Node.file "\x7b\n\"Foo\": \"\"\n\x7d") := by
  decide

/-! ## The claim about the order in which headers are visited -/

/-- No key has a header of each scope when no two headers are stored under one key. -/
theorem one_scope_of_keys (H : Header)
    (h : ∀ h1 ∈ H.keys, ∀ h2 ∈ H.keys, metaKey h1 = metaKey h2 → metaKey h1 = none ∨ h1 = h2) :
    ∀ K, K ≠ "" → ¬ (ContainerMeta ++ K ∈ H.keys ∧ ObjectMeta ++ K ∈ H.keys) := by
  intro K hK hboth
  have e1 := (metaKey_eq_some (ContainerMeta ++ K) K).mpr ⟨hK, Or.inl rfl⟩
  have e2 := (metaKey_eq_some (ObjectMeta ++ K) K).mpr ⟨hK, Or.inr rfl⟩
  rcases h _ hboth.1 _ hboth.2 (e1.trans e2.symm) with h0 | h0
  · rw [e1] at h0
    cases h0
  · have h3 := hasPrefix_append ContainerMeta K
    rw [h0] at h3
    have h4 : hasPrefix (ObjectMeta ++ K) ContainerMeta = false := by
      unfold hasPrefix
      simp [String.toList, ObjectMeta, ContainerMeta, List.isPrefixOf]
    rw [h4] at h3
    cases h3

/-- C28, as the code has it: two requests with the same headers, visited in any two
orders, give mappings that hold the same value for every key, when no key `K` has both
a header `X-Container-Meta-K` and a header `X-Object-Meta-K`. -/
theorem parseMetadata_order (r1 r2 : Request)
    (hperm : r1.Header.entries.Perm r2.Header.entries)
    (hone : ∀ K, K ≠ "" →
      ¬ (ContainerMeta ++ K ∈ r1.Header.keys ∧ ObjectMeta ++ K ∈ r1.Header.keys))
    (k : String) : (parseMetadata r1).lookup k = (parseMetadata r2).lookup k := by
  have hkeys : ∀ h, h ∈ r2.Header.keys ↔ h ∈ r1.Header.keys := by
    intro h
    exact (List.Perm.mem_iff (List.Perm.map _ hperm)).symm
  have hlook : ∀ h, r2.Header.lookup h = r1.Header.lookup h := by
    intro h
    exact (List.perm_dlookup h r1.Header.nodupKeys r2.Header.nodupKeys hperm).symm
  have honly : ∀ h, metaKey h = some k → h ∈ r1.Header.keys →
      ∀ h2 ∈ r1.Header.keys, metaKey h2 = some k → h2 = h := by
    intro h hk hmem h2 hmem2 hk2
    obtain ⟨hk0, e⟩ := (metaKey_eq_some _ _).mp hk
    obtain ⟨_, e2⟩ := (metaKey_eq_some _ _).mp hk2
    rcases e with e | e <;> rcases e2 with e2 | e2
    · rw [e, e2]
    · exact absurd ⟨e ▸ hmem, e2 ▸ hmem2⟩ (hone k hk0)
    · exact absurd ⟨e2 ▸ hmem2, e ▸ hmem⟩ (hone k hk0)
    · rw [e, e2]
  by_cases hex : ∃ h ∈ r1.Header.keys, metaKey h = some k
  · obtain ⟨h, hmem, hk⟩ := hex
    obtain ⟨vs, hvs⟩ := Option.isSome_iff_exists.mp (AList.lookup_isSome.mpr hmem)
    rw [parseMetadata_of_header r1 h k vs hk hvs (honly h hk hmem),
      parseMetadata_of_header r2 h k vs hk ((hlook h).trans hvs)
        (fun h2 hm2 => honly h hk hmem h2 ((hkeys h2).mp hm2))]
  · have hnone : ∀ r : Request, (∀ h, h ∈ r.Header.keys → h ∈ r1.Header.keys) →
        (parseMetadata r).lookup k = none := by
      intro r hsub
      rw [parseMetadata_fold, parseFold_frame]
      · rfl
      · intro kv hkv e
        exact hex ⟨kv.1, hsub _ (List.mem_keys.mpr ⟨kv.2, hkv⟩), e⟩
    rw [hnone r1 (fun _ h => h), hnone r2 (fun h hm => (hkeys h).mp hm)]

/-- The witness of C28: the headers of a request visited in two orders. -/
theorem parseMetadata_order_witness :
    (parseMetadata (sampleRequest "POST" "/v1.0/abc/test"
        [("X-Container-Meta-A", "1"), ("X-Object-Meta-B", "2")] "")).lookup "A"
      = (parseMetadata (sampleRequest "POST" "/v1.0/abc/test"
        [("X-Object-Meta-B", "2"), ("X-Container-Meta-A", "1")] "")).lookup "A" :=
  parseMetadata_order
    (sampleRequest "POST" "/v1.0/abc/test"
      [("X-Container-Meta-A", "1"), ("X-Object-Meta-B", "2")] "")
    (sampleRequest "POST" "/v1.0/abc/test"
      [("X-Object-Meta-B", "2"), ("X-Container-Meta-A", "1")] "")
    (by decide) (one_scope_of_keys _ (by decide)) "A"

/-- The counterexample of C28: the headers `X-Container-Meta-K: 1` and
`X-Object-Meta-K: 2`, visited in the two orders, give the key `K` the value `2` and the
value `1`. -/
theorem header_order_matters :
    bothScopes.Header.entries.Perm bothScopesSwapped.Header.entries
    ∧ (parseMetadata bothScopes).lookup "K" = some "2"
    ∧ (parseMetadata bothScopesSwapped).lookup "K" = some "1" := by
  decide

/-! ## The claim about the determinism of the override -/

/-- A list of strings that is not empty has a longest element. -/
theorem exists_longest (l : List String) (hl : l ≠ []) :
    ∃ p ∈ l, ∀ q ∈ l, q.length ≤ p.length := by
  induction l with
  | nil => exact absurd rfl hl
  | cons a rest ih =>
    by_cases hr : rest = []
    · subst hr
      refine ⟨a, List.mem_cons_self _ _, ?_⟩
      intro q hq
      rw [List.mem_singleton.mp hq]
    · obtain ⟨p, hp, hmax⟩ := ih hr
      by_cases hc : p.length ≤ a.length
      · refine ⟨a, List.mem_cons_self _ _, ?_⟩
        intro q hq
        rcases List.mem_cons.mp hq with e | e
        · rw [e]
        · exact Nat.le_trans (hmax q e) hc
      · refine ⟨p, List.mem_cons_of_mem _ hp, ?_⟩
        intro q hq
        rcases List.mem_cons.mp hq with e | e
        · rw [e]
          omega
        · exact hmax q e

/-- C29: when no prefix of the map `overrides` built from the listed parts is empty, and
some prefix of the map is a prefix of the URL, one matching prefix `p` is longer than every
other matching prefix, and the function that `statusOverrider` returns gives the status `s`
of `p` with `true`: in the orders of the model, and in any orders in which the two loops
visit their maps.  The status `s` is the one of the last part that lists `p`. -/
theorem statusOverrider_deterministic (parts : List String) (url : String)
    (hne : ∀ q ∈ (parseOverrides parts).keys, q ≠ "")
    (hsome : ∃ q ∈ (parseOverrides parts).keys, hasPrefix url q = true) :
    ∃ (p : String) (s : Int),
      (parseOverrides parts).lookup p = some s
      ∧ hasPrefix url p = true
      ∧ (∀ q ∈ (parseOverrides parts).keys, hasPrefix url q = true → q ≠ p →
          q.length < p.length)
      ∧ overrideFor (parseOverrides parts) url = (s, true)
      ∧ (∀ visit1 visit2 : List (Σ _ : String, Int),
          visit1.Perm (parseOverrides parts).entries →
          visit2.Perm (collectMatches url visit1).entries →
          visit2.length ≠ 0 ∧ (pickLongest visit2).2 = s)
      ∧ (∀ (pre post : List String) (part : String) (n : Int),
          parts = pre ++ part :: post → parsePart part = some (p, n) →
          (∀ x ∈ post, ∀ m, parsePart x ≠ some (p, m)) → s = n)
      ∧ (∀ val : String, stringsSplit val ',' = parts → strconvAtoi val = none →
          (statusOverrider (some val)).map (fun f => f url) = some (s, true)) := by
  have hfilter : ((parseOverrides parts).keys.filter fun q => hasPrefix url q) ≠ [] := by
    obtain ⟨q, hq, hm⟩ := hsome
    intro e
    have : q ∈ (parseOverrides parts).keys.filter fun q => hasPrefix url q :=
      List.mem_filter.mpr ⟨hq, hm⟩
    rw [e] at this
    cases this
  obtain ⟨p, hp, hmax⟩ := exists_longest _ hfilter
  obtain ⟨hpk, hpm⟩ := List.mem_filter.mp hp
  obtain ⟨s, hs⟩ := Option.isSome_iff_exists.mp (AList.lookup_isSome.mpr hpk)
  have hlong : ∀ q ∈ (parseOverrides parts).keys, hasPrefix url q = true →
      q.length ≤ p.length :=
    fun q hq hm => hmax q (List.mem_filter.mpr ⟨hq, hm⟩)
  refine ⟨p, s, hs, hpm, ?_, overrideFor_longest _ url p s hs hpm hlong (hne p hpk), ?_, ?_,
    ?_⟩
  · intro q hq hm hqp
    rcases Nat.lt_or_ge q.length p.length with h | h
    · exact h
    · exact absurd (hasPrefix_unique url q p hm hpm (Nat.le_antisymm (hlong q hq hm) h)) hqp
  · intro visit1 visit2 h1 h2
    obtain ⟨k1, k2⟩ := pickLongest_spec _ url p s hs hpm hlong (hne p hpk) visit1 visit2 h1 h2
    exact ⟨k1, by rw [k2]⟩
  · intro pre post part n hparts hpart hpost
    have := parseOverrides_last pre post part p n hpart hpost
    rw [← hparts, hs] at this
    exact Option.some.inj this
  · intro val hval hatoi
    have hin : (⟨p, s⟩ : Σ _ : String, Int) ∈ (parseOverrides parts).entries :=
      AList.mem_lookup_iff.mp hs
    have hlen : (parseOverrides parts).entries.length ≠ 0 := by
      intro e
      rw [List.length_eq_zero.mp e] at hin
      cases hin
    rw [statusOverrider_pairs val hatoi, hval, if_neg hlen]
    simp only [Option.map_some', overrideFor_longest _ url p s hs hpm hlong (hne p hpk)]

/-- The witness of C29: the prefix `/auth/` listed twice and the prefix `/auth/v1` once;
for the URL `/auth/v1.0` the returned function gives the status of the longer prefix. -/
theorem statusOverrider_deterministic_witness :
    ∃ (p : String) (s : Int),
      (parseOverrides (stringsSplit "/auth/:400,/auth/v1:503,/auth/:401" ',')).lookup p
        = some s
      ∧ (statusOverrider (some "/auth/:400,/auth/v1:503,/auth/:401")).map
          (fun f => f "/auth/v1.0") = some (s, true) :=
  (statusOverrider_deterministic (stringsSplit "/auth/:400,/auth/v1:503,/auth/:401" ',')
    "/auth/v1.0" (by decide) (by decide)).imp fun _ h =>
      h.imp fun _ hs => ⟨hs.1, hs.2.2.2.2.2.2 _ rfl (by decide)⟩

/-! ## The claim about requests that only read -/

theorem handleGetMetadata_state (lib : Lib) (s : Server) (fs : FS) (w : ResponseWriter)
    (r : Request) : (s.handleGetMetadata lib fs w r).2 = fs := by
  simp only [Server.handleGetMetadata]
  split
  · rfl
  · split <;> rfl

theorem handleGet_state (lib : Lib) (s : Server) (fs : FS) (w : ResponseWriter)
    (r : Request) : (s.handleGet lib fs w r).2 = fs := by
  simp only [Server.handleGet]
  split
  · rfl
  · split <;> rfl

/-- C30: for every request whose method is `HEAD` or `GET`, whatever its token, its target
and the filesystem state, the state after `storageHandler` is the state before. -/
theorem head_get_read_only (lib : Lib) (s : Server) (now : Int) (fs : FS)
    (w : ResponseWriter) (r : Request) (hm : r.Method = "HEAD" ∨ r.Method = "GET") :
    (s.storageHandler lib now fs w r).2 = fs := by
  unfold Server.storageHandler
  cases verifyToken lib (r.Header.values TokenTag) s.settings.TokenSecret now with
  | error e => rfl
  | ok u =>
    rcases hm with hm | hm
    · simp only [hm, if_true]
      exact handleGetMetadata_state lib s fs w r
    · simp only [hm]
      exact handleGet_state lib s fs w r

/-- The witness of C30: a `HEAD` of the container `test` and a `GET` of the manifest. -/
theorem head_get_read_only_witness :
    (sampleServer.storageHandler sampleLib 1000 testStore ResponseWriter.new
        (sampleRequest "HEAD" "/v1.0/abc/test" [] "")).2 = testStore
    ∧ (sampleServer.storageHandler sampleLib 1000 manifestStore ResponseWriter.new
        (sampleRequest "GET" "/v1.0/abc/System/Capabilities.json" [] "")).2 = manifestStore :=
  ⟨head_get_read_only sampleLib sampleServer 1000 testStore ResponseWriter.new
      (sampleRequest "HEAD" "/v1.0/abc/test" [] "") (Or.inl (by decide)),
    head_get_read_only sampleLib sampleServer 1000 manifestStore ResponseWriter.new
      (sampleRequest "GET" "/v1.0/abc/System/Capabilities.json" [] "") (Or.inr (by decide))⟩

end Swift
